import Mathlib

/-!
Verification development for the pyheatintegration pinch-analysis library.

All numeric values are modelled as rationals (`ℚ`).  The Python code works
with IEEE floats, but every operation the verified claims depend on
(comparison, addition, subtraction, multiplication, division, `min`,
`round`, sorting) is exact on the concrete inputs involved; the embedding
keeps the control flow of the source byte for byte and replaces `float`
by `ℚ`.  `math.log` is modelled by `Real.log` guarded by the same domain
check that makes Python raise `ValueError`.

Python `set` values are modelled by deduplicated lists (`List.dedup`):
iteration order of a CPython set is unspecified, and every consumer in the
source either sorts the result or folds it with a commutative operation,
so only membership and element count matter.

Division by zero is total (`x / 0 = 0`) in `ℚ` whereas Python raises
`ZeroDivisionError`; every division reached by a theorem below is guarded
so that the divisor is provably nonzero on the executions the theorems
talk about, except where an explicit error branch models the Python
exception.
-/

namespace PyHeat

/-- Rational equality decided by comparing the normalized numerator and
denominator fields.  Semantically identical to the ambient instance (it
decides the same proposition); declared so that concrete evaluations of
the embedded code reduce through the numeral-arithmetic fast path. -/
instance : DecidableEq ℚ := fun a b =>
  decidable_of_iff (a.num = b.num ∧ a.den = b.den)
    (by
      constructor
      · rintro ⟨h1, h2⟩
        exact Rat.ext h1 h2
      · rintro rfl
        exact ⟨rfl, rfl⟩)

/-- `base_range.minmax`: order a pair. -/
def minmax (a b : ℚ) : ℚ × ℚ := if a > b then (b, a) else (a, b)

/-- `BaseRange` (also `TemperatureRange` / `HeatRange`): a closed interval
with `start`/`finish` fields.  The Python constructor reorders its two
arguments via `minmax`; `mkRange` below is that constructor, and raw
structure values only arise through it in the embedded code paths. -/
structure BRange where
  start : ℚ
  finish : ℚ

/-- Field-wise boolean equality of ranges (the hash/equality Python uses
on `(start, finish)` tuples); written by hand so that concrete
evaluations reduce through the numeral fast path. -/
instance : BEq BRange := ⟨fun a b => a.start == b.start && a.finish == b.finish⟩

instance : LawfulBEq BRange where
  eq_of_beq := by
    intro a b h
    cases a
    cases b
    simp only [BEq.beq, Bool.and_eq_true, beq_iff_eq, decide_eq_true_eq] at h
    simp [h.1, h.2]
  rfl := by
    intro a
    cases a
    simp [BEq.beq, decide_eq_true_eq]

instance : DecidableEq BRange := fun a b => decidable_of_iff ((a == b) = true) beq_iff_eq

/-- `BaseRange.__init__`. -/
def mkRange (a b : ℚ) : BRange := ⟨(minmax a b).1, (minmax a b).2⟩

/-- `BaseRange.delta`. -/
def BRange.delta (r : BRange) : ℚ := r.finish - r.start

/-- `BaseRange.__contains__`: closed-interval membership (used for
temperature ranges). -/
def BRange.containsT (r : BRange) (v : ℚ) : Prop := r.start ≤ v ∧ v ≤ r.finish

instance (r : BRange) (v : ℚ) : Decidable (r.containsT v) := by
  unfold BRange.containsT; infer_instance

/-- `HeatRange.__contains__`: epsilon-tolerant membership with
`eps = 1e-6`. -/
def BRange.containsH (r : BRange) (v : ℚ) : Prop :=
  r.start - 1/1000000 ≤ v ∧ v ≤ r.finish + 1/1000000

instance (r : BRange) (v : ℚ) : Decidable (r.containsH v) := by
  unfold BRange.containsH; infer_instance

/-- `BaseRange.shift`. -/
def BRange.shift (r : BRange) (d : ℚ) : BRange := ⟨r.start + d, r.finish + d⟩

/-- `BaseRange.mergeable`. -/
def BRange.mergeable (a b : BRange) : Prop :=
  a.start = b.finish ∨ a.finish = b.start

instance (a b : BRange) : Decidable (a.mergeable b) := by
  unfold BRange.mergeable; infer_instance

/-- `base_range.merge` (also `TemperatureRange.merge` / `HeatRange.merge`):
defined only when the two ranges are mergeable; the Python `ValueError`
branch is the `none` case.  (The `TypeError` branch for mixed subclass
arguments cannot arise here because the embedding fixes one range type.) -/
def mergeRanges (a b : BRange) : Option BRange :=
  if ¬ a.mergeable b then none
  else if a.start = b.finish then some (mkRange b.start a.finish)
  else some (mkRange a.start b.finish)

/-- Ordering used by every Python `sort`/`sorted` on ranges:
`BaseRange.__lt__` compares `start` only, and Python sorts are stable. -/
def rle (a b : BRange) : Prop := a.start ≤ b.start

instance : DecidableRel rle := fun a b => inferInstanceAs (Decidable (a.start ≤ b.start))

instance : IsTotal BRange rle := ⟨fun a b => le_total a.start b.start⟩

instance : IsTrans BRange rle := ⟨fun _ _ _ h h' => le_trans h h'⟩

instance : IsRefl BRange rle := ⟨fun a => le_refl a.start⟩

/-- `sorted(ranges)` (stable sort by `start`). -/
def sortRanges (l : List BRange) : List BRange := l.insertionSort rle

/-- `sorted(values)` on numbers. -/
def sortQ (l : List ℚ) : List ℚ := l.insertionSort (· ≤ ·)

/-- Inner loop of `base_range.is_continuous` on an already sorted list:
the first adjacent pair whose `finish`/`start` disagree. -/
def firstGap : List BRange → Option (ℚ × ℚ)
  | [] => none
  | [_] => none
  | a :: b :: rest =>
    if a.finish = b.start then firstGap (b :: rest) else some (a.finish, b.start)

/-- `base_range.is_continuous` (also `temperature_range.is_continuous` and
`plot_segment.is_continuous` after projecting heat ranges). -/
def is_continuous (l : List BRange) : Option (ℚ × ℚ) := firstGap (sortRanges l)

/-- Inner loop of `base_range.flatten` on the sorted list: every `start`
followed by the last `finish`. -/
def breakpoints : List BRange → List ℚ
  | [] => []
  | [a] => [a.start, a.finish]
  | a :: b :: rest => a.start :: breakpoints (b :: rest)

/-- `base_range.flatten` (also `temperature_range.get_temperatures` and
`heat_range.get_heats`, which duplicate its logic): `none` models the
`ValueError` raised when the ranges are not continuous. -/
def flatten (l : List BRange) : Option (List ℚ) :=
  let ranges := sortRanges l
  match is_continuous ranges with
  | some _ => none
  | none => some (breakpoints ranges)

/-- Inner loop of `base_range.get_ranges` on the sorted value list. -/
def chainRanges : List ℚ → List BRange
  | a :: b :: rest => mkRange a b :: chainRanges (b :: rest)
  | _ => []

/-- `base_range.get_ranges` (also `temperature_range.get_temperature_ranges`
and `heat_range.get_heat_ranges`). -/
def get_ranges (values : List ℚ) : List BRange := chainRanges (sortQ values)

/-- One step of the isothermal-range loop in
`temperature_range.get_temperature_transition`: the duplicate-count rule.
The `.error` case models the `ValueError` raised for three or more
occurrences. -/
def transitionStep (temps : List ℚ) (t : ℚ) : Except String (List ℚ) :=
  let c := temps.count t
  if c = 0 then .ok (temps ++ [t, t])
  else if c = 1 then .ok (temps ++ [t])
  else if c = 2 then .ok temps
  else .error "too many duplicate temperatures"

/-- `temperature_range.get_temperature_transition`.  The first phase is a
Python set union of the endpoints of the ranges with nonzero delta
(modelled by `dedup`); the second phase folds `transitionStep` over the
zero-delta ranges in list order. -/
def get_temperature_transition (rs : List BRange) : Except String (List ℚ) :=
  let base := ((rs.filter (fun r => !(r.delta == 0))).map
    (fun r => [r.start, r.finish])).flatten.dedup
  (rs.filter (fun r => r.delta == 0)).foldlM (fun temps r => transitionStep temps r.start) base

/-- Python `min` over a list: `none` models the `ValueError` on an empty
sequence. -/
def pymin : List ℚ → Option ℚ
  | [] => none
  | x :: xs => some (xs.foldl min x)

/-- `GrandCompositeCurve._get_heats`: sort the temperature ranges, cascade
the per-range lacking heat from the coldest range upward, and subtract the
minimum cumulative value.  `lack` is the `temp_range_lacking_heat`
defaultdict of `_lacking_heats` modelled as a total function. -/
def getHeats (trs : List BRange) (lack : BRange → ℚ) : List ℚ :=
  let ranges := sortRanges trs
  let heats := ranges.scanl (fun h r => h - lack r) 0
  match pymin heats with
  | none => []
  | some m => heats.map (fun h => h - m)

/-- `GrandCompositeCurve._set_pinch_point`: the guard raising `ValueError`
when `heats` has no zero, then the first/last zero index and its
temperature.  The inner `none => .error` arm is unreachable (the index
list is nonempty whenever the guard passes). -/
def setPinchPoint (temps heats : List ℚ) : Except String (ℚ × ℕ × ℚ × ℕ) :=
  if 0 ∈ heats then
    let idxs := (heats.enum.filter (fun p => p.2 == 0)).map (fun p => p.1)
    let pts := idxs.map (fun i => temps.getD i 0)
    match pts.getLast?, idxs.getLast?, pts.head?, idxs.head? with
    | some pM, some iM, some pm, some im => .ok (pM, iM, pm, im)
    | _, _, _, _ => .error "unreachable"
  else .error "no zero in heats"

/-- `enums.StreamType`. -/
inductive StreamType
  | COLD
  | HOT
  | EXTERNAL_COLD
  | EXTERNAL_HOT
  | AUTO
deriving DecidableEq

/-- `enums.StreamState`. -/
inductive StreamState
  | LIQUID
  | GAS
  | LIQUID_EVAPORATION
  | GAS_CONDENSATION
  | UNKNOWN
deriving DecidableEq

/-- `stream.Stream` after a successful `__init__`: the stored attributes.
`id_` is the caller-supplied identifier (the random-uuid default never
arises in the verified code paths). -/
structure Stream where
  id_ : String
  type_ : StreamType
  temperature_range : BRange
  heat_flow : ℚ
  cost : ℚ
  state : StreamState
  reboiler_or_reactor : Bool
deriving DecidableEq

/-- `Stream.is_external`. -/
def Stream.is_external (s : Stream) : Bool :=
  s.type_ == .EXTERNAL_HOT || s.type_ == .EXTERNAL_COLD

/-- `Stream.is_internal`. -/
def Stream.is_internal (s : Stream) : Bool := !s.is_external

/-- `Stream.is_hot`. -/
def Stream.is_hot (s : Stream) : Bool :=
  s.type_ == .HOT || s.type_ == .EXTERNAL_HOT

/-- `Stream.is_cold` (the source defines it as the negation of
`is_hot`). -/
def Stream.is_cold (s : Stream) : Bool := !s.is_hot

/-- `Stream.is_isothermal`.  The source tests
`math.isclose(delta, 0.0)`, whose default `abs_tol=0` makes it exact
equality with zero. -/
def Stream.is_isothermal (s : Stream) : Bool := s.temperature_range.delta == 0

/-- `Stream.input_temperature`. -/
def Stream.input_temperature (s : Stream) : ℚ :=
  if s.is_hot then s.temperature_range.finish else s.temperature_range.start

/-- `Stream.output_temperature`. -/
def Stream.output_temperature (s : Stream) : ℚ :=
  if s.is_hot then s.temperature_range.start else s.temperature_range.finish

/-- `Stream.heat`. -/
def Stream.heat (s : Stream) : ℚ := s.heat_flow

/-- `Stream.shift_temperature` (adds the delta to both endpoints without
renormalizing). -/
def Stream.shift_temperature (s : Stream) (d : ℚ) : Stream :=
  { s with temperature_range := s.temperature_range.shift d }

/-- `Stream.contain_temperature`. -/
def Stream.contain_temperature (s : Stream) (t : ℚ) : Prop :=
  s.temperature_range.containsT t

instance (s : Stream) (t : ℚ) : Decidable (s.contain_temperature t) := by
  unfold Stream.contain_temperature; infer_instance

/-- `Stream.update_temperature`: rescales the duty by the ratio of the new
to the old temperature delta.  The Python method raises `ValueError` on
isothermal streams (old delta zero); every embedded call site guards on
`is_isothermal` first, so the total `ℚ` division never divides by zero on
those paths. -/
def Stream.update_temperature (s : Stream) (a b : ℚ) : Stream :=
  let old := s.temperature_range.delta
  let tr := mkRange a b
  { s with temperature_range := tr, heat_flow := s.heat * tr.delta / old }

/-- `Stream.update_heat`.  The Python method raises `ValueError` for
internal non-isothermal streams; every embedded call site guards on that
condition first. -/
def Stream.update_heat (s : Stream) (h : ℚ) : Stream := { s with heat_flow := h }

/-- `Stream.__init__`: role resolution for `AUTO` followed by the seven
validation rules, in source order.  Each `.error` is one
`InvalidStreamError` raise site (messages abbreviated to English). -/
def mkStream (input_temperature output_temperature heat_flow : ℚ)
    (type_ : StreamType := .AUTO) (state : StreamState := .UNKNOWN)
    (cost : ℚ := 0) (reboiler_or_reactor : Bool := false)
    (id_ : String := "") : Except String Stream :=
  let resolved : Except String StreamType :=
    if type_ == .AUTO then
      if input_temperature < output_temperature then .ok .COLD
      else if input_temperature > output_temperature then .ok .HOT
      else .error "type of a stream with equal inlet and outlet temperatures must be explicit"
    else .ok type_
  match resolved with
  | .error e => .error e
  | .ok ty =>
    let s : Stream :=
      { id_ := id_, type_ := ty,
        temperature_range := mkRange input_temperature output_temperature,
        heat_flow := heat_flow, cost := cost, state := state,
        reboiler_or_reactor := reboiler_or_reactor }
    if s.is_internal && heat_flow == 0 then
      .error "internal stream must have non-zero heat flow"
    else if s.is_external && !(heat_flow == 0) then
      .error "external stream must have zero heat flow"
    else if s.is_cold && input_temperature > output_temperature then
      .error "cold stream must have inlet temperature below outlet temperature"
    else if s.is_hot && input_temperature < output_temperature then
      .error "hot stream must have inlet temperature above outlet temperature"
    else if s.is_internal && !(cost == 0) then
      .error "cost can only be set on external streams"
    else if (state == .LIQUID_EVAPORATION || state == .GAS_CONDENSATION)
        && !s.is_isothermal then
      .error "phase-change streams must be isothermal"
    else .ok s

/-- Stable sort by a rational key (Python `list.sort(key=...)` /
`sorted(key=...)`). -/
def sortByKey {α : Type} (key : α → ℚ) (l : List α) : List α :=
  @List.insertionSort α (fun a b => key a ≤ key b)
    (fun a b => inferInstanceAs (Decidable (key a ≤ key b))) l

/-- The set of streams attached to one temperature range in
`stream.get_temperature_range_streams`: the streams containing both
endpoints, restricted to isothermal ones when the range has zero delta,
each non-isothermal survivor rescaled to the sub-range by
`update_temperature`.  The Python code stores these sets in a
defaultdict keyed by range; the embedding models that dict as this
function. -/
def rangeStreams (streams : List Stream) (tr : BRange) : List Stream :=
  let target := streams.filter
    (fun s => decide (s.contain_temperature tr.start) && decide (s.contain_temperature tr.finish))
  let target := if tr.delta == 0 then target.filter (fun s => s.is_isothermal) else target
  target.map (fun s => if s.is_isothermal then s else s.update_temperature tr.start tr.finish)

/-- `stream.get_temperature_range_streams`: the sorted temperature ranges
of the finest partition, plus the per-range stream sets as a function. -/
def get_temperature_range_streams (streams : List Stream) :
    Except String (List BRange × (BRange → List Stream)) := do
  let temperatures := sortQ (← get_temperature_transition (streams.map (·.temperature_range)))
  let temp_ranges := sortRanges (get_ranges temperatures)
  return (temp_ranges, rangeStreams streams)

/-- `GrandCompositeCurve._lacking_heats` for one temperature range: hot
duty minus cold duty over the attached stream set (a Python `sum` over a
set, order-irrelevant in `ℚ`). -/
def lackingHeat (f : BRange → List Stream) (tr : BRange) : ℚ :=
  (((f tr).filter (·.is_hot)).map (·.heat)).sum
    - (((f tr).filter (·.is_cold)).map (·.heat)).sum

/-- `GrandCompositeCurve.__init__` up to `temps`/`heats`: shift the cold
streams by the minimum approach temperature difference, sort by input
temperature, keep the internal streams, build the shared temperature
partition, and cascade the lacking heats. -/
def gccTempsHeats (streams0 : List Stream) (minimum_approach_temp_diff : ℚ) :
    Except String (List ℚ × List ℚ) := do
  let streams := streams0.map
    (fun s => if s.is_cold then s.shift_temperature minimum_approach_temp_diff else s)
  let streams := sortByKey Stream.input_temperature streams
  let internal := streams.filter (·.is_internal)
  let (temp_ranges, f) ← get_temperature_range_streams internal
  match flatten temp_ranges with
  | none => .error "temperature ranges are not continuous"
  | some temps =>
    return (temps, getHeats temp_ranges (lackingHeat f))

/-- `GrandCompositeCurve.__init__` including `_set_pinch_point`: the
result carries `temps`, `heats` and
`(maximum_pinch_point_temp, maximum_pinch_point_index,
minimum_pinch_point_temp, minimum_pinch_point_index)`. -/
def gccOutputs (streams0 : List Stream) (minimum_approach_temp_diff : ℚ) :
    Except String (List ℚ × List ℚ × (ℚ × ℕ × ℚ × ℕ)) := do
  let (temps, heats) ← gccTempsHeats streams0 minimum_approach_temp_diff
  let p ← setPinchPoint temps heats
  return (temps, heats, p)

/-- Round half to even at a given scaled integer position. -/
def roundHalfEven (x : ℚ) : ℤ :=
  let f := ⌊x⌋
  let r := x - f
  if r < 1/2 then f
  else if r > 1/2 then f + 1
  else if f % 2 = 0 then f else f + 1

/-- Python `round(x, 9)` (`REL_TOL_DIGIT = 9`): round to the nearest
multiple of `1e-9`, ties to even. -/
def pyround9 (x : ℚ) : ℚ := (roundHalfEven (x * 1000000000) : ℚ) / 1000000000

/-- `plot_segment.PlotSegment` attributes. -/
structure PlotSegment where
  heat_range : BRange
  temperature_range : BRange
  uuid : Option String
  state : StreamState
  reboiler_or_reactor : Bool
deriving DecidableEq

/-- `PlotSegment.__init__`: both ranges are normalized by the range
constructor.  `uuid := none` stands for the fresh random uuid Python
generates when none is supplied; no embedded code path compares two
fresh uuids for equality. -/
def mkPS (start_heat finish_heat start_temperature finish_temperature : ℚ)
    (uuid : Option String := none) (state : StreamState := .UNKNOWN)
    (reboiler_or_reactor : Bool := false) : PlotSegment :=
  ⟨mkRange start_heat finish_heat, mkRange start_temperature finish_temperature,
    uuid, state, reboiler_or_reactor⟩

/-- `PlotSegment.start_heat`. -/
def PlotSegment.start_heat (ps : PlotSegment) : ℚ := ps.heat_range.start

/-- `PlotSegment.finish_heat`. -/
def PlotSegment.finish_heat (ps : PlotSegment) : ℚ := ps.heat_range.finish

/-- `PlotSegment.start_temperature`. -/
def PlotSegment.start_temperature (ps : PlotSegment) : ℚ := ps.temperature_range.start

/-- `PlotSegment.finish_temperature`. -/
def PlotSegment.finish_temperature (ps : PlotSegment) : ℚ := ps.temperature_range.finish

/-- `PlotSegment.contain_heat` (epsilon-tolerant heat-range
membership). -/
def PlotSegment.contain_heat (ps : PlotSegment) (h : ℚ) : Prop :=
  ps.heat_range.containsH h

instance (ps : PlotSegment) (h : ℚ) : Decidable (ps.contain_heat h) := by
  unfold PlotSegment.contain_heat; infer_instance

/-- `PlotSegment.contain_heats` on the two endpoints of a heat range. -/
def PlotSegment.contain_heats2 (ps : PlotSegment) (a b : ℚ) : Prop :=
  ps.contain_heat a ∧ ps.contain_heat b

instance (ps : PlotSegment) (a b : ℚ) : Decidable (ps.contain_heats2 a b) := by
  unfold PlotSegment.contain_heats2; infer_instance

/-- `PlotSegment.contain_temperature` (closed membership). -/
def PlotSegment.contain_temperature (ps : PlotSegment) (t : ℚ) : Prop :=
  ps.temperature_range.containsT t

instance (ps : PlotSegment) (t : ℚ) : Decidable (ps.contain_temperature t) := by
  unfold PlotSegment.contain_temperature; infer_instance

/-- `PlotSegment.temperature_at_heat` without its containment guard (the
guard holds at every embedded call site).  Python raises
`ZeroDivisionError` when the heat delta is zero; the total `ℚ` division
returns the left temperature in that case, and no verified execution
reaches it. -/
def PlotSegment.temperature_at_heat (ps : PlotSegment) (heat : ℚ) : ℚ :=
  let slope := (ps.temperature_range.finish - ps.temperature_range.start)
    / (ps.heat_range.finish - ps.heat_range.start)
  slope * (heat - ps.heat_range.start) + ps.temperature_range.start

/-- `PlotSegment.heat_at_temperature` without its containment guard (the
guard holds at every embedded call site; the slope is nonzero there). -/
def PlotSegment.heat_at_temperature (ps : PlotSegment) (temperature : ℚ) : ℚ :=
  let slope := (ps.temperature_range.finish - ps.temperature_range.start)
    / (ps.heat_range.finish - ps.heat_range.start)
  1 / slope * (temperature - ps.temperature_range.start) + ps.heat_range.start

/-- `PlotSegment.shift_heat`. -/
def PlotSegment.shift_heat (ps : PlotSegment) (d : ℚ) : PlotSegment :=
  { ps with heat_range := ps.heat_range.shift d }

/-- `PlotSegment.mergiable` (sic): same uuid and touching heat and
temperature endpoints. -/
def PlotSegment.mergiable (ps other : PlotSegment) : Prop :=
  ps.uuid = other.uuid ∧ ps.finish_heat = other.start_heat
    ∧ ps.finish_temperature = other.start_temperature

instance (ps other : PlotSegment) : Decidable (ps.mergiable other) := by
  unfold PlotSegment.mergiable; infer_instance

/-- `plot_segment.temp_diff`: inlet and outlet temperature differences of
two plot segments over the same heat range. -/
def temp_diff (segment other : PlotSegment) : ℚ × ℚ :=
  (segment.start_temperature - other.start_temperature,
   segment.finish_temperature - other.finish_temperature)

/-- `plot_segment.get_plot_segments`: for every heat range, every plot
segment containing both endpoints is re-cut to that range with
interpolated temperatures. -/
def get_plot_segments (heat_ranges : List BRange) (plot_segments : List PlotSegment) :
    List PlotSegment :=
  heat_ranges.flatMap (fun hr =>
    plot_segments.filterMap (fun ps =>
      if ps.contain_heats2 hr.start hr.finish then
        some (mkPS hr.start hr.finish
          (ps.temperature_at_heat hr.start) (ps.temperature_at_heat hr.finish)
          ps.uuid ps.state ps.reboiler_or_reactor)
      else none))

/-- A Python dict comprehension `{ps.heat_range: ps for ps in l}` followed
by `.get(hr, None)`: the last entry with the given key wins. -/
def dictLast (l : List PlotSegment) (hr : BRange) : Option PlotSegment :=
  l.reverse.find? (fun ps => ps.heat_range == hr)

/-- Sort plot segments (`PlotSegment.__lt__` compares heat ranges, hence
heat-range starts; Python sorts are stable). -/
def sortPS (l : List PlotSegment) : List PlotSegment :=
  sortByKey (fun ps => ps.heat_range.start) l

/-- `heat_range.get_merged_heat_ranges`: union all breakpoints of several
continuous range lists and rebuild the finest partition.  `none` models
the `ValueError` of `get_heats` when one of the lists is not
continuous. -/
def get_merged_heat_ranges (ls : List (List BRange)) : Option (List BRange) := do
  let hs ← ls.mapM flatten
  some (get_ranges hs.flatten.dedup)

/-- `get_detailed_heat_ranges` is referenced by `tq_diagram` but missing
from src.  Modelled from the spec: "build the shared finest heat
partition across both shifted curves" — the operation
`get_merged_heat_ranges` (present in src) that `pinch_analyzer` uses for
the same alignment. -/
def get_detailed_heat_ranges (ls : List (List BRange)) : Option (List BRange) :=
  get_merged_heat_ranges ls

/-- `temperature_range.accumulate_heats`.  The source validates that the
dict keys equal the sorted ranges and raises otherwise; with the heat
dict modelled as a total function that check is vacuous and is
omitted. -/
def accumulate_heats (trs : List BRange) (f : BRange → ℚ) : List ℚ :=
  (sortRanges trs).scanl (fun h r => h + f r) 0

/-- Pair consecutive heats and temperatures into plot segments
(`tq_diagram._create_composite_curve`, final comprehension). -/
def consecPS : List ℚ → List ℚ → List PlotSegment
  | h1 :: h2 :: hs, t1 :: t2 :: ts => mkPS h1 h2 t1 t2 :: consecPS (h2 :: hs) (t2 :: ts)
  | _, _ => []

/-- `tq_diagram._create_composite_curve` via
`stream.get_temperature_range_heats`. -/
def create_composite_curve (streams : List Stream) : Except String (List PlotSegment) := do
  let (t_ranges, f) ← get_temperature_range_streams streams
  match flatten t_ranges with
  | none => .error "temperature ranges are not continuous"
  | some t =>
    let h := accumulate_heats t_ranges (fun tr => (((f tr).map (·.heat)).sum))
    return consecPS h t

/-- `tq_diagram._get_heat_at_pinch_point`: first plot segment containing
the pinch temperature, skipping zero-heat-delta segments; isothermal
segments yield the caller-chosen outer heat, others interpolate. -/
def heatAtPinch (plot_segments : List PlotSegment) (pinch_point_temp : ℚ)
    (get_temp : PlotSegment → ℚ) : Except String ℚ :=
  match plot_segments with
  | [] => .error "composite curve does not take the pinch point temperature"
  | ps :: rest =>
    if ps.contain_temperature pinch_point_temp then
      if ps.heat_range.delta == 0 then heatAtPinch rest pinch_point_temp get_temp
      else if ps.temperature_range.delta == 0 then .ok (get_temp ps)
      else .ok (ps.heat_at_temperature pinch_point_temp)
    else heatAtPinch rest pinch_point_temp get_temp

/-- `tq_diagram._shift_curve`. -/
def shift_curve (hot_plot_segments_ cold_plot_segments_ : List PlotSegment)
    (minimum_approach_temp_diff pinch_point_temp : ℚ) :
    Except String (List PlotSegment × List PlotSegment) :=
  let hot_plot_segments := sortPS hot_plot_segments_
  let cold_plot_segments := sortPS cold_plot_segments_
  if (is_continuous (hot_plot_segments.map (·.heat_range))).isSome
      || (is_continuous (cold_plot_segments.map (·.heat_range))).isSome then
    .error "composite curve must be continuous in heat"
  else do
    let hot_heat ← heatAtPinch hot_plot_segments pinch_point_temp (·.finish_heat)
    let cold_heat ← heatAtPinch cold_plot_segments
      (pinch_point_temp - minimum_approach_temp_diff) (·.start_heat)
    let gap := pyround9 (hot_heat - cold_heat)
    return (hot_plot_segments, cold_plot_segments.map (fun ps => ps.shift_heat gap))

/-- `segment.Segment` attributes used downstream of construction. -/
structure Segment where
  heat_range : BRange
  heat_ranges : List BRange
  hot_temperature_range : Option BRange
  cold_temperature_range : Option BRange
  hot_streams : List Stream
  cold_streams : List Stream
  hot_plot_segments_separated : List PlotSegment
  cold_plot_segments_separated : List PlotSegment
  hot_plot_segments_splitted : List PlotSegment
  cold_plot_segments_splitted : List PlotSegment
deriving DecidableEq

/-- `Segment.init_plot_segments_separated_streams`: sequential allocation
of the segment heat range to the contributing streams in list order, the
last stream absorbing the remainder; boundaries rounded to 9 digits. -/
def sepStreams (hr tr : BRange) : List Stream → ℚ → List PlotSegment
  | [], _ => []
  | [s], start_heat =>
    [mkPS (pyround9 start_heat) (pyround9 hr.finish) tr.start tr.finish (some s.id_)]
  | s :: s2 :: rest, start_heat =>
    let st := pyround9 start_heat
    mkPS st (pyround9 (st + s.heat)) tr.start tr.finish (some s.id_)
      :: sepStreams hr tr (s2 :: rest) (st + s.heat)

/-- `Segment.__init__` (the parts consumed by `split` and the merge
step). -/
def mkSegment (heats : ℚ × ℚ) (hot_temperatures cold_temperatures : Option (ℚ × ℚ))
    (hot_streams_ cold_streams_ : List Stream) : Except String Segment :=
  let heat_range := mkRange heats.1 heats.2
  let hot_temperature_range := hot_temperatures.map (fun p => mkRange p.1 p.2)
  let cold_temperature_range := cold_temperatures.map (fun p => mkRange p.1 p.2)
  let hot_sep_streams := match hot_temperature_range with
    | some tr => sepStreams heat_range tr hot_streams_ heat_range.start
    | none => []
  let cold_sep_streams := match cold_temperature_range with
    | some tr => sepStreams heat_range tr cold_streams_ heat_range.start
    | none => []
  match flatten (hot_sep_streams.map (·.heat_range)),
      flatten (cold_sep_streams.map (·.heat_range)) with
  | some hot_heats, some cold_heats =>
    let heat_ranges := get_ranges (hot_heats ++ cold_heats).dedup
    .ok { heat_range := heat_range, heat_ranges := heat_ranges,
          hot_temperature_range := hot_temperature_range,
          cold_temperature_range := cold_temperature_range,
          hot_streams := hot_streams_, cold_streams := cold_streams_,
          hot_plot_segments_separated := get_plot_segments heat_ranges hot_sep_streams,
          cold_plot_segments_separated := get_plot_segments heat_ranges cold_sep_streams,
          hot_plot_segments_splitted := [], cold_plot_segments_splitted := [] }
  | _, _ => .error "separated plot segments are not continuous"

/-- The per-side stream slicing inside `tq_diagram._get_segments`: keep
the streams spanning the covering plot segment temperatures, assign
isothermal streams the interval duty, rescale the others to the
sub-range. -/
def sliceStreams (streams : List Stream) (tr : BRange) (hr : BRange) : List Stream :=
  streams.filterMap (fun s =>
    if s.contain_temperature tr.start ∧ s.contain_temperature tr.finish then
      if tr.delta == 0 then
        if s.is_isothermal then some (s.update_heat hr.delta) else none
      else
        if s.is_isothermal then none else some (s.update_temperature tr.start tr.finish)
    else none)

/-- The loop body of `tq_diagram._get_segments`: build the segment of one
heat range from the dict lookups on both aligned curves. -/
def segAt (hd cd : BRange → Option PlotSegment) (hot_streams cold_streams : List Stream)
    (hr : BRange) : Except String Segment :=
  let hot : Option (ℚ × ℚ) × List Stream := match hd hr with
    | some ps => (some (ps.temperature_range.start, ps.temperature_range.finish),
        sliceStreams hot_streams ps.temperature_range hr)
    | none => (none, [])
  let cold : Option (ℚ × ℚ) × List Stream := match cd hr with
    | some ps => (some (ps.temperature_range.start, ps.temperature_range.finish),
        sliceStreams cold_streams ps.temperature_range hr)
    | none => (none, [])
  mkSegment (hr.start, hr.finish) hot.1 cold.1 hot.2 cold.2

/-- `tq_diagram._get_segments`. -/
def get_segments (hot_plot_segments cold_plot_segments : List PlotSegment)
    (hot_streams cold_streams : List Stream) : Except String (List Segment) := do
  match get_detailed_heat_ranges
      [hot_plot_segments.map (·.heat_range), cold_plot_segments.map (·.heat_range)] with
  | none => .error "plot segments are not continuous"
  | some heat_ranges =>
    heat_ranges.mapM (segAt
      (dictLast (get_plot_segments heat_ranges hot_plot_segments))
      (dictLast (get_plot_segments heat_ranges cold_plot_segments))
      hot_streams cold_streams)

/-- Functional update of a dict modelled as a lookup function. -/
def dUpdate (d : BRange → Option PlotSegment) (k : BRange) (v : PlotSegment) :
    BRange → Option PlotSegment :=
  fun x => if x = k then some v else d x

/-- `Segment.split`: for every heat range whose hot/cold temperature
differences fall below the minimum approach temperature difference,
replace both sides by full-span plot segments and propagate the
replacement to every other heat range carrying the same stream uuid.
The two mutable dicts of the source are threaded as lookup functions;
`values()` enumeration is recovered by filtering the key list (the dict
keys are exactly the segment heat ranges that carry a piece, in key
insertion order). -/
def segSplit (minimum_approach_temp_diff : ℚ) (seg : Segment) : Segment :=
  let htr := seg.hot_temperature_range.getD ⟨0, 0⟩
  let ctr := seg.cold_temperature_range.getD ⟨0, 0⟩
  let state := seg.heat_ranges.foldl (fun (hc : (BRange → Option PlotSegment) × (BRange → Option PlotSegment)) hr =>
    match hc.1 hr, hc.2 hr with
    | some hps, some cps =>
      let d := temp_diff hps cps
      if d.1 < minimum_approach_temp_diff ∨ d.2 < minimum_approach_temp_diff then
        let hd := dUpdate hc.1 hr (mkPS hr.start hr.finish htr.start htr.finish hps.uuid)
        let cd := dUpdate hc.2 hr (mkPS hr.start hr.finish ctr.start ctr.finish cps.uuid)
        seg.heat_ranges.foldl (fun (hc2 : (BRange → Option PlotSegment) × (BRange → Option PlotSegment)) hr2 =>
          if hr2 = hr then hc2 else
          let hd2 := match hc2.1 hr2 with
            | some ps2 =>
              if ps2.uuid == hps.uuid then
                dUpdate hc2.1 hr2 (mkPS hr2.start hr2.finish htr.start htr.finish hps.uuid)
              else hc2.1
            | none => hc2.1
          let cd2 := match hc2.2 hr2 with
            | some ps2 =>
              if ps2.uuid == cps.uuid then
                dUpdate hc2.2 hr2 (mkPS hr2.start hr2.finish ctr.start ctr.finish cps.uuid)
              else hc2.2
            | none => hc2.2
          (hd2, cd2)) (hd, cd)
      else hc
    | _, _ => hc)
    (dictLast seg.hot_plot_segments_separated, dictLast seg.cold_plot_segments_separated)
  { seg with
    hot_plot_segments_splitted := sortPS (seg.heat_ranges.filterMap state.1),
    cold_plot_segments_splitted := sortPS (seg.heat_ranges.filterMap state.2) }

/-- One adjacency check of `tq_diagram._merge_segments`: when both sides
are mergiable, produce the merged hot/cold plot segments and record both
source heat ranges. -/
def mergeStep (hd cd : BRange → Option PlotSegment)
    (acc : List BRange × List PlotSegment × List PlotSegment) (p : BRange × BRange) :
    Except String (List BRange × List PlotSegment × List PlotSegment) :=
  match hd p.1, cd p.1, hd p.2, cd p.2 with
  | some h1, some c1, some h2, some c2 =>
    if h1.mergiable h2 ∧ c1.mergiable c2 then
      match mergeRanges h1.heat_range h2.heat_range,
          mergeRanges h1.temperature_range h2.temperature_range,
          mergeRanges c1.temperature_range c2.temperature_range with
      | some mh, some mht, some mct =>
        .ok (acc.1 ++ [p.1, p.2],
          acc.2.1 ++ [mkPS mh.start mh.finish mht.start mht.finish h1.uuid],
          acc.2.2 ++ [mkPS mh.start mh.finish mct.start mct.finish c1.uuid])
      | _, _, _ => .error "ranges are not mergeable"
    else .ok acc
  | _, _, _, _ => .ok acc

/-- The sorted pool of all hot splitted plot segments of a segment list
(the first line of `tq_diagram._merge_segments`). -/
def splitted_hot_pool (segments : List Segment) : List PlotSegment :=
  sortPS (segments.flatMap (·.hot_plot_segments_splitted))

/-- The sorted pool of all cold splitted plot segments of a segment
list. -/
def splitted_cold_pool (segments : List Segment) : List PlotSegment :=
  sortPS (segments.flatMap (·.cold_plot_segments_splitted))

/-- `tq_diagram._merge_segments`. -/
def merge_segments (segments : List Segment) :
    Except String (List PlotSegment × List PlotSegment) := do
  let hot_plot_segments := splitted_hot_pool segments
  let cold_plot_segments := splitted_cold_pool segments
  match flatten (sortRanges (segments.flatMap (·.heat_ranges))) with
  | none => .error "heat ranges are not continuous"
  | some heats =>
    let heat_ranges := get_ranges heats
    let hd := dictLast hot_plot_segments
    let cd := dictLast cold_plot_segments
    let acc ← (heat_ranges.zip heat_ranges.tail).foldlM (mergeStep hd cd) ([], [], [])
    let hot_final := (hot_plot_segments.filter (fun ps => !(acc.1.contains ps.heat_range))) ++ acc.2.1
    let cold_final := (cold_plot_segments.filter (fun ps => !(acc.1.contains ps.heat_range))) ++ acc.2.2
    return (sortPS hot_final, sortPS cold_final)

/-- The heat-exchanger matching of `PinchAnalyzer.__init__` (also
duplicated at the end of `TQDiagram.__init__`): align both merged curves
on the shared partition and keep the heat ranges covered on both
sides. -/
def exchangerMatches (hcc ccc : List PlotSegment) :
    Except String (List (BRange × PlotSegment × PlotSegment)) :=
  match get_merged_heat_ranges [hcc.map (·.heat_range), ccc.map (·.heat_range)] with
  | none => .error "merged curves are not continuous"
  | some all_heat_ranges =>
    let hd := dictLast (get_plot_segments all_heat_ranges hcc)
    let cd := dictLast (get_plot_segments all_heat_ranges ccc)
    .ok (all_heat_ranges.filterMap (fun hr =>
      match hd hr, cd hr with
      | some h, some c => some (hr, h, c)
      | _, _ => none))

/-- `TQDiagram.__init__` up to the split curves: the list of segments
entering the merge step. -/
def tqSegments (streams : List Stream) (minimum_approach_temp_diff pinch_point_temp : ℚ) :
    Except String (List Segment) := do
  let hot_streams := sortByKey Stream.output_temperature (streams.filter (·.is_hot))
  let cold_streams := sortByKey Stream.input_temperature (streams.filter (·.is_cold))
  let hcc0 ← create_composite_curve hot_streams
  let ccc0 ← create_composite_curve cold_streams
  let (hcc, ccc) ← shift_curve hcc0 ccc0 minimum_approach_temp_diff pinch_point_temp
  let segs ← get_segments hcc ccc hot_streams cold_streams
  return segs.map (segSplit minimum_approach_temp_diff)

/-- Python `max` over a list: `none` models the `ValueError` on an empty
sequence. -/
def pymax : List ℚ → Option ℚ
  | [] => none
  | x :: xs => some (xs.foldl max x)

/-- The duplicate-id scan of `PinchAnalyzer.validate_streams`: first id
seen twice, in list order. -/
def firstDupId : List Stream → List String → Option String
  | [], _ => none
  | s :: rest, seen =>
    if s.id_ ∈ seen then some s.id_ else firstDupId rest (seen ++ [s.id_])

/-- `PinchAnalyzer.validate_streams`: returns the empty string when the
stream list passes, else the first failing check message (messages
abbreviated to English). -/
def validate_streams (streams : List Stream) (ignore_validation : Bool := false) : String :=
  match firstDupId streams [] with
  | some _ => "stream ids must be unique"
  | none =>
    let hot_streams := streams.filter (·.is_hot)
    let cold_streams := streams.filter (·.is_cold)
    if hot_streams.isEmpty || cold_streams.isEmpty then
      "at least one hot stream and one cold stream must be given"
    else
      let hot_maximum_temp := (pymax (hot_streams.map (·.input_temperature))).getD 0
      let hot_minimum_temp := (pymin (hot_streams.map (·.output_temperature))).getD 0
      let cold_maximum_temp := (pymax (cold_streams.map (·.output_temperature))).getD 0
      let cold_minimum_temp := (pymin (cold_streams.map (·.input_temperature))).getD 0
      if hot_maximum_temp ≤ cold_minimum_temp then
        "the hot maximum temperature is below the cold minimum temperature"
      else if !ignore_validation && hot_minimum_temp - cold_minimum_temp < 0 then
        "the hot minimum temperature is below the cold minimum temperature"
      else if !ignore_validation && hot_maximum_temp - cold_maximum_temp < 0 then
        "the hot maximum temperature is below the cold maximum temperature"
      else ""

/-- `tq_diagram.get_possible_minimum_temp_diff`: build both composite
curves unshifted, align them at their maximum heat value, and take the
minimum cross-curve temperature difference over the shared partition.
`none` in the result models Python `math.inf` (no matched interval at
all). -/
def get_possible_minimum_temp_diff (streams : List Stream) : Except String (Option ℚ) := do
  let cold_streams := sortByKey Stream.input_temperature
    (streams.filter (fun s => s.is_internal && s.is_cold))
  let hot_streams := sortByKey Stream.output_temperature
    (streams.filter (fun s => s.is_internal && s.is_hot))
  if hot_streams.isEmpty then .error "at least one hot stream must be given"
  else if cold_streams.isEmpty then .error "at least one cold stream must be given"
  else do
    let initial_hcc ← create_composite_curve hot_streams
    let initial_ccc ← create_composite_curve cold_streams
    match get_detailed_heat_ranges
        [initial_hcc.map (·.heat_range), initial_ccc.map (·.heat_range)] with
    | none => .error "curves are not continuous"
    | some initial_heat_ranges =>
      let hcc := get_plot_segments initial_heat_ranges initial_hcc
      let ccc := get_plot_segments initial_heat_ranges initial_ccc
      match pymax (hcc.map (·.finish_heat)), pymax (ccc.map (·.finish_heat)) with
      | some hot_maximum_heat, some cold_maximum_heat =>
        let ccc := if hot_maximum_heat ≥ cold_maximum_heat then
            ccc.map (fun ps => ps.shift_heat (hot_maximum_heat - cold_maximum_heat))
          else ccc
        match get_detailed_heat_ranges [hcc.map (·.heat_range), ccc.map (·.heat_range)] with
        | none => .error "curves are not continuous"
        | some heat_ranges =>
          let hd := dictLast (get_plot_segments heat_ranges hcc)
          let cd := dictLast (get_plot_segments heat_ranges ccc)
          .ok (heat_ranges.foldl (fun (m : Option ℚ) hr =>
            match hd hr, cd hr with
            | some h, some c =>
              let v := min (h.start_temperature - c.start_temperature)
                (h.finish_temperature - c.finish_temperature)
              some (match m with | none => v | some m0 => min m0 v)
            | _, _ => m) none)
      | _, _ => .error "empty curve"

/-- `get_possible_minimum_temp_diff_range` is imported by
`pinch_analyzer` but missing from src.  Modelled from the spec: the
admissible minimum-approach-temperature range is `[0, upper]` where
`upper` is the minimum cross-curve temperature difference over the
unshifted composite curves, i.e. the value of
`get_possible_minimum_temp_diff` (present in src); the second argument
mirrors the `ignore_validation` flag of the call site and does not enter
the computation.  `none` as upper bound models `math.inf`. -/
def get_possible_minimum_temp_diff_range (streams : List Stream) (_ignore_validation : Bool) :
    Except String (ℚ × Option ℚ) := do
  let upper ← get_possible_minimum_temp_diff streams
  return (0, upper)

/-- The admissible-range membership test of `PinchAnalyzer.__init__`
(`TemperatureRange.__contains__` on the range `[lo, hi]`, with
`hi = none` standing for `math.inf`). -/
def inDiffRange (lo : ℚ) (hi : Option ℚ) (d : ℚ) : Bool :=
  decide (lo ≤ d) && (match hi with | none => true | some u => decide (d ≤ u))

/-- The two failure classes of the `PinchAnalyzer.__init__` prefix: the
`validate_streams` raise site and the minimum-approach-range raise site
(both raise `PyHeatIntegrationError` in Python; the constructors record
which raise statement fired).  `upstream` carries errors of the range
computation itself. -/
inductive AnalyzerError
  | config : String → AnalyzerError
  | rangeError : ℚ → AnalyzerError
  | upstream : String → AnalyzerError
deriving DecidableEq

/-- `PinchAnalyzer.__init__` through its two validation gates (source
lines 67-87): everything before any grand-composite-curve computation.
On success it returns the admissible minimum-approach-temperature
range. -/
def analyzerInit (streams : List Stream) (minimum_approach_temp_diff : ℚ)
    (force_validation : Bool := true) : Except AnalyzerError (ℚ × Option ℚ) :=
  let ignore_validation := if force_validation then false
    else !(streams.any (·.is_external))
  let msg := validate_streams streams ignore_validation
  if msg ≠ "" then .error (.config msg)
  else match get_possible_minimum_temp_diff_range streams ignore_validation with
    | .error e => .error (.upstream e)
    | .ok (lo, hi) =>
      if !(inDiffRange lo hi minimum_approach_temp_diff) then
        .error (.rangeError minimum_approach_temp_diff)
      else .ok (lo, hi)

/-- Python `math.log` on a rational argument: raises `ValueError` outside
the positive domain. -/
noncomputable def pylog (x : ℚ) : Except String ℝ :=
  if x ≤ 0 then .error "math domain error" else .ok (Real.log x)

/-- Python float division: raises `ZeroDivisionError` on a zero
divisor. -/
def pydivQ (a b : ℚ) : Except String ℚ :=
  if b = 0 then .error "division by zero" else .ok (a / b)

/-- `HeatExchanger.init_lmtd_counterflow` on the two temperature ranges:
cross-end temperature differences, the degenerate equal-differences
branch, then `(s - f) / log(s / f)`. -/
noncomputable def init_lmtd_counterflow (hot cold : BRange) : Except String ℝ :=
  let start_temp_diff := hot.finish - cold.finish
  let finish_temp_diff := hot.start - cold.start
  if start_temp_diff = finish_temp_diff then .ok (start_temp_diff : ℝ)
  else do
    let q ← pydivQ start_temp_diff finish_temp_diff
    let l ← pylog q
    return ((start_temp_diff : ℝ) - (finish_temp_diff : ℝ)) / l

/-- `HeatExchanger.init_lmtd_pararell_flow` (sic): same-end temperature
differences, the `RuntimeError` guard on a non-positive outlet
difference, the degenerate branch, then `(s - f) / log(s / f)`. -/
noncomputable def init_lmtd_pararell_flow (hot cold : BRange) : Except String ℝ :=
  let start_temp_diff := hot.finish - cold.start
  let finish_temp_diff := hot.start - cold.finish
  if finish_temp_diff ≤ 0 then
    .error "outlet temperature difference is not positive"
  else if start_temp_diff = finish_temp_diff then .ok (start_temp_diff : ℝ)
  else do
    let q ← pydivQ start_temp_diff finish_temp_diff
    let l ← pylog q
    return ((start_temp_diff : ℝ) - (finish_temp_diff : ℝ)) / l

/-- A concrete internal cold stream (as `Stream(0, 10, 100)` constructs
it), used to instantiate universally quantified theorems. -/
def wsCold : Stream :=
  ⟨"c", .COLD, ⟨0, 10⟩, 100, 0, .UNKNOWN, false⟩

/-- A concrete internal hot stream (as `Stream(30, 20, 100)` constructs
it). -/
def wsHot : Stream :=
  ⟨"h", .HOT, ⟨20, 30⟩, 100, 0, .UNKNOWN, false⟩

/-- The four-stream example of the specification (and of the repository
test `grand_composite_curve_test.py`), with the duty of the `125 -> 80`
stream as a parameter: the spec example says 160, the repository test
says 180.  Roles are auto-derived by `Stream.__init__`. -/
def spec_example_streams (duty3 : ℚ) : Except String (List Stream) := do
  let s1 ← mkStream 40 90 150 .AUTO .UNKNOWN 0 false "1"
  let s2 ← mkStream 80 110 180 .AUTO .UNKNOWN 0 false "2"
  let s3 ← mkStream 125 80 duty3 .AUTO .UNKNOWN 0 false "3"
  let s4 ← mkStream 100 60 160 .AUTO .UNKNOWN 0 false "4"
  return [s1, s2, s3, s4]

/-- Claim-side (C4) role resolution, following the claim wording: `AUTO`
resolves by comparing inlet and outlet temperatures, and fails on
equality. -/
def specResolvedRole (input output : ℚ) (type_ : StreamType) : Option StreamType :=
  if type_ = .AUTO then
    if input < output then some .COLD
    else if output < input then some .HOT
    else none
  else some type_

/-- Claim-side: the role is hot. -/
def roleIsHot (t : StreamType) : Prop := t = .HOT ∨ t = .EXTERNAL_HOT

/-- Claim-side: the role is cold. -/
def roleIsCold (t : StreamType) : Prop := t = .COLD ∨ t = .EXTERNAL_COLD

/-- Claim-side: the role is external. -/
def roleIsExternal (t : StreamType) : Prop := t = .EXTERNAL_HOT ∨ t = .EXTERNAL_COLD

/-- Claim-side: the role is internal (not external). -/
def roleIsInternal (t : StreamType) : Prop := ¬ roleIsExternal t

/-- Claim-side (C4): one of the seven validation rules is violated,
stated in the claim wording over the resolved role. -/
def specStreamViolation (input output heat_flow : ℚ) (type_ : StreamType)
    (state : StreamState) (cost : ℚ) : Prop :=
  (type_ = .AUTO ∧ input = output)
  ∨ ∃ t, specResolvedRole input output type_ = some t ∧
      ((roleIsInternal t ∧ heat_flow = 0)
      ∨ (roleIsExternal t ∧ heat_flow ≠ 0)
      ∨ (roleIsCold t ∧ output < input)
      ∨ (roleIsHot t ∧ input < output)
      ∨ (roleIsInternal t ∧ cost ≠ 0)
      ∨ ((state = .LIQUID_EVAPORATION ∨ state = .GAS_CONDENSATION) ∧ input ≠ output))

/-! ## Claim-side definitions for the merge-step analysis (C3) -/

/-- The merge step's own "matched" predicate on its shared heat
partition: the heat range carries both a hot and a cold splitted plot
segment (the two dict lookups `_merge_segments` performs). -/
def matchedBefore (segments : List Segment) (r : BRange) : Bool :=
  (dictLast (splitted_hot_pool segments) r).isSome
    && (dictLast (splitted_cold_pool segments) r).isSome

/-- Every adjacent gap of a value list exceeds `2e-6`, twice the
`HeatRange` containment tolerance.  Decidable side condition of the C3
analysis; it separates the breakpoints far enough that the tolerant
containment checks coincide with exact ones. -/
def sepChain : List ℚ → Bool
  | [] => true
  | [_] => true
  | a :: b :: rest => decide (a + 1/500000 < b) && sepChain (b :: rest)

/-- One merge event of the `_merge_segments` fold over a dict pair: an
adjacent pair of heat ranges, each carrying a hot and a cold piece, for
which a merged hot and a merged cold plot segment were recorded. -/
def MergeEvent (hd cd : BRange → Option PlotSegment) (pairs : List (BRange × BRange))
    (mergedH mergedC : List PlotSegment) (r1 r2 : BRange) : Prop :=
  (r1, r2) ∈ pairs ∧ (hd r1).isSome ∧ (cd r1).isSome ∧ (hd r2).isSome ∧ (cd r2).isSome ∧
  ∃ mh, mergeRanges r1 r2 = some mh ∧
    (∃ qh ∈ mergedH, qh.heat_range = mkRange mh.start mh.finish) ∧
    (∃ qc ∈ mergedC, qc.heat_range = mkRange mh.start mh.finish)

/-- A merged plot segment recorded by the `_merge_segments` fold: its
heat range is the union of an adjacent pair of heat ranges both of which
carried a hot and a cold piece. -/
def MergedPiece (hd cd : BRange → Option PlotSegment) (pairs : List (BRange × BRange))
    (q : PlotSegment) : Prop :=
  ∃ r1 r2 mh, (r1, r2) ∈ pairs ∧ (hd r1).isSome ∧ (cd r1).isSome ∧ (hd r2).isSome
    ∧ (cd r2).isSome ∧ mergeRanges r1 r2 = some mh
    ∧ q.heat_range = mkRange mh.start mh.finish

/-- The four streams of the repository example
(`grand_composite_curve_test.py`). -/
def c3w_streams : List Stream := (spec_example_streams 180).toOption.getD []

/-- Its hot streams sorted by output temperature (first line of
`TQDiagram.__init__`). -/
def c3w_hot_streams : List Stream :=
  sortByKey Stream.output_temperature (c3w_streams.filter (·.is_hot))

/-- Its cold streams sorted by input temperature. -/
def c3w_cold_streams : List Stream :=
  sortByKey Stream.input_temperature (c3w_streams.filter (·.is_cold))

/-- Its hot composite curve. -/
def c3w_hcc0 : List PlotSegment :=
  (create_composite_curve c3w_hot_streams).toOption.getD []

/-- Its cold composite curve. -/
def c3w_ccc0 : List PlotSegment :=
  (create_composite_curve c3w_cold_streams).toOption.getD []

/-- The hot composite curve after the pinch alignment shift (minimum
approach temperature difference 10, pinch temperature 90); the value of
`shift_curve` on the example, verified by `c3_shift_stage`. -/
def c3w_hcc : List PlotSegment :=
  [⟨⟨(0 : ℚ), (80 : ℚ)⟩, ⟨(60 : ℚ), (80 : ℚ)⟩, none, .UNKNOWN, false⟩,
   ⟨⟨(80 : ℚ), (240 : ℚ)⟩, ⟨(80 : ℚ), (100 : ℚ)⟩, none, .UNKNOWN, false⟩,
   ⟨⟨(240 : ℚ), (340 : ℚ)⟩, ⟨(100 : ℚ), (125 : ℚ)⟩, none, .UNKNOWN, false⟩]

/-- The cold composite curve after the pinch alignment shift. -/
def c3w_ccc : List PlotSegment :=
  [⟨⟨(40 : ℚ), (160 : ℚ)⟩, ⟨(40 : ℚ), (80 : ℚ)⟩, none, .UNKNOWN, false⟩,
   ⟨⟨(160 : ℚ), (250 : ℚ)⟩, ⟨(80 : ℚ), (90 : ℚ)⟩, none, .UNKNOWN, false⟩,
   ⟨⟨(250 : ℚ), (370 : ℚ)⟩, ⟨(90 : ℚ), (110 : ℚ)⟩, none, .UNKNOWN, false⟩]

/-- The shared heat partition of the two shifted curves (the value of
`get_detailed_heat_ranges` on them, verified inside `c3_getseg_stage`). -/
def c3w_ranges0 : List BRange :=
  [⟨(0 : ℚ), (40 : ℚ)⟩, ⟨(40 : ℚ), (80 : ℚ)⟩, ⟨(80 : ℚ), (160 : ℚ)⟩,
   ⟨(160 : ℚ), (240 : ℚ)⟩, ⟨(240 : ℚ), (250 : ℚ)⟩, ⟨(250 : ℚ), (340 : ℚ)⟩,
   ⟨(340 : ℚ), (370 : ℚ)⟩]

/-- The segments of the example before splitting (the value of
`get_segments`, verified by `c3_getseg_stage`). -/
def c3w_segments0 : List Segment :=
  [⟨⟨(0 : ℚ), (40 : ℚ)⟩,
   [⟨(0 : ℚ), (40 : ℚ)⟩],
   some ⟨(60 : ℚ), (70 : ℚ)⟩, none,
   [⟨"4", .HOT, ⟨(60 : ℚ), (70 : ℚ)⟩, (40 : ℚ), (0 : ℚ), .UNKNOWN, false⟩],
   [],
   [⟨⟨(0 : ℚ), (40 : ℚ)⟩, ⟨(60 : ℚ), (70 : ℚ)⟩, some "4", .UNKNOWN, false⟩],
   [],
   [],
   []⟩,
  ⟨⟨(40 : ℚ), (80 : ℚ)⟩,
   [⟨(40 : ℚ), (80 : ℚ)⟩],
   some ⟨(70 : ℚ), (80 : ℚ)⟩, some ⟨(40 : ℚ), ((160 : ℚ)/3)⟩,
   [⟨"4", .HOT, ⟨(70 : ℚ), (80 : ℚ)⟩, (40 : ℚ), (0 : ℚ), .UNKNOWN, false⟩],
   [⟨"1", .COLD, ⟨(40 : ℚ), ((160 : ℚ)/3)⟩, (40 : ℚ), (0 : ℚ), .UNKNOWN, false⟩],
   [⟨⟨(40 : ℚ), (80 : ℚ)⟩, ⟨(70 : ℚ), (80 : ℚ)⟩, some "4", .UNKNOWN, false⟩],
   [⟨⟨(40 : ℚ), (80 : ℚ)⟩, ⟨(40 : ℚ), ((160 : ℚ)/3)⟩, some "1", .UNKNOWN, false⟩],
   [],
   []⟩,
  ⟨⟨(80 : ℚ), (160 : ℚ)⟩,
   [⟨(80 : ℚ), (120 : ℚ)⟩, ⟨(120 : ℚ), (160 : ℚ)⟩],
   some ⟨(80 : ℚ), (90 : ℚ)⟩, some ⟨((160 : ℚ)/3), (80 : ℚ)⟩,
   [⟨"4", .HOT, ⟨(80 : ℚ), (90 : ℚ)⟩, (40 : ℚ), (0 : ℚ), .UNKNOWN, false⟩,
    ⟨"3", .HOT, ⟨(80 : ℚ), (90 : ℚ)⟩, (40 : ℚ), (0 : ℚ), .UNKNOWN, false⟩],
   [⟨"1", .COLD, ⟨((160 : ℚ)/3), (80 : ℚ)⟩, (80 : ℚ), (0 : ℚ), .UNKNOWN, false⟩],
   [⟨⟨(80 : ℚ), (120 : ℚ)⟩, ⟨(80 : ℚ), (90 : ℚ)⟩, some "4", .UNKNOWN, false⟩,
    ⟨⟨(120 : ℚ), (160 : ℚ)⟩, ⟨(80 : ℚ), (90 : ℚ)⟩, some "3", .UNKNOWN, false⟩],
   [⟨⟨(80 : ℚ), (120 : ℚ)⟩, ⟨((160 : ℚ)/3), ((200 : ℚ)/3)⟩, some "1", .UNKNOWN, false⟩,
    ⟨⟨(120 : ℚ), (160 : ℚ)⟩, ⟨((200 : ℚ)/3), (80 : ℚ)⟩, some "1", .UNKNOWN, false⟩],
   [],
   []⟩,
  ⟨⟨(160 : ℚ), (240 : ℚ)⟩,
   [⟨(160 : ℚ), ((186666666667 : ℚ)/1000000000)⟩,
    ⟨((186666666667 : ℚ)/1000000000), (200 : ℚ)⟩, ⟨(200 : ℚ), (240 : ℚ)⟩],
   some ⟨(90 : ℚ), (100 : ℚ)⟩, some ⟨(80 : ℚ), ((800 : ℚ)/9)⟩,
   [⟨"4", .HOT, ⟨(90 : ℚ), (100 : ℚ)⟩, (40 : ℚ), (0 : ℚ), .UNKNOWN, false⟩,
    ⟨"3", .HOT, ⟨(90 : ℚ), (100 : ℚ)⟩, (40 : ℚ), (0 : ℚ), .UNKNOWN, false⟩],
   [⟨"1", .COLD, ⟨(80 : ℚ), ((800 : ℚ)/9)⟩, ((80 : ℚ)/3), (0 : ℚ), .UNKNOWN, false⟩,
    ⟨"2", .COLD, ⟨(80 : ℚ), ((800 : ℚ)/9)⟩, ((160 : ℚ)/3), (0 : ℚ), .UNKNOWN, false⟩],
   [⟨⟨(160 : ℚ), ((186666666667 : ℚ)/1000000000)⟩, ⟨(90 : ℚ), ((386666666667 : ℚ)/4000000000)⟩, some "4", .UNKNOWN, false⟩,
    ⟨⟨((186666666667 : ℚ)/1000000000), (200 : ℚ)⟩, ⟨((386666666667 : ℚ)/4000000000), (100 : ℚ)⟩, some "4", .UNKNOWN, false⟩,
    ⟨⟨(200 : ℚ), (240 : ℚ)⟩, ⟨(90 : ℚ), (100 : ℚ)⟩, some "3", .UNKNOWN, false⟩],
   [⟨⟨(160 : ℚ), ((186666666667 : ℚ)/1000000000)⟩, ⟨(80 : ℚ), ((800 : ℚ)/9)⟩, some "1", .UNKNOWN, false⟩,
    ⟨⟨((186666666667 : ℚ)/1000000000), (200 : ℚ)⟩, ⟨(80 : ℚ), ((39466666666400 : ℚ)/479999999997)⟩, some "2", .UNKNOWN, false⟩,
    ⟨⟨(200 : ℚ), (240 : ℚ)⟩, ⟨((39466666666400 : ℚ)/479999999997), ((800 : ℚ)/9)⟩, some "2", .UNKNOWN, false⟩],
   [],
   []⟩,
  ⟨⟨(240 : ℚ), (250 : ℚ)⟩,
   [⟨(240 : ℚ), ((243333333333 : ℚ)/1000000000)⟩,
    ⟨((243333333333 : ℚ)/1000000000), (250 : ℚ)⟩],
   some ⟨(100 : ℚ), ((205 : ℚ)/2)⟩, some ⟨((800 : ℚ)/9), (90 : ℚ)⟩,
   [⟨"3", .HOT, ⟨(100 : ℚ), ((205 : ℚ)/2)⟩, (10 : ℚ), (0 : ℚ), .UNKNOWN, false⟩],
   [⟨"1", .COLD, ⟨((800 : ℚ)/9), (90 : ℚ)⟩, ((10 : ℚ)/3), (0 : ℚ), .UNKNOWN, false⟩,
    ⟨"2", .COLD, ⟨((800 : ℚ)/9), (90 : ℚ)⟩, ((20 : ℚ)/3), (0 : ℚ), .UNKNOWN, false⟩],
   [⟨⟨(240 : ℚ), ((243333333333 : ℚ)/1000000000)⟩, ⟨(100 : ℚ), ((403333333333 : ℚ)/4000000000)⟩, some "3", .UNKNOWN, false⟩,
    ⟨⟨((243333333333 : ℚ)/1000000000), (250 : ℚ)⟩, ⟨((403333333333 : ℚ)/4000000000), ((205 : ℚ)/2)⟩, some "3", .UNKNOWN, false⟩],
   [⟨⟨(240 : ℚ), ((243333333333 : ℚ)/1000000000)⟩, ⟨((800 : ℚ)/9), (90 : ℚ)⟩, some "1", .UNKNOWN, false⟩,
    ⟨⟨((243333333333 : ℚ)/1000000000), (250 : ℚ)⟩, ⟨((800 : ℚ)/9), (90 : ℚ)⟩, some "2", .UNKNOWN, false⟩],
   [],
   []⟩,
  ⟨⟨(250 : ℚ), (340 : ℚ)⟩,
   [⟨(250 : ℚ), (340 : ℚ)⟩],
   some ⟨((205 : ℚ)/2), (125 : ℚ)⟩, some ⟨(90 : ℚ), (105 : ℚ)⟩,
   [⟨"3", .HOT, ⟨((205 : ℚ)/2), (125 : ℚ)⟩, (90 : ℚ), (0 : ℚ), .UNKNOWN, false⟩],
   [⟨"2", .COLD, ⟨(90 : ℚ), (105 : ℚ)⟩, (90 : ℚ), (0 : ℚ), .UNKNOWN, false⟩],
   [⟨⟨(250 : ℚ), (340 : ℚ)⟩, ⟨((205 : ℚ)/2), (125 : ℚ)⟩, some "3", .UNKNOWN, false⟩],
   [⟨⟨(250 : ℚ), (340 : ℚ)⟩, ⟨(90 : ℚ), (105 : ℚ)⟩, some "2", .UNKNOWN, false⟩],
   [],
   []⟩,
  ⟨⟨(340 : ℚ), (370 : ℚ)⟩,
   [⟨(340 : ℚ), (370 : ℚ)⟩],
   none, some ⟨(105 : ℚ), (110 : ℚ)⟩,
   [],
   [⟨"2", .COLD, ⟨(105 : ℚ), (110 : ℚ)⟩, (30 : ℚ), (0 : ℚ), .UNKNOWN, false⟩],
   [],
   [⟨⟨(340 : ℚ), (370 : ℚ)⟩, ⟨(105 : ℚ), (110 : ℚ)⟩, some "2", .UNKNOWN, false⟩],
   [],
   []⟩]

/-- A partition cell lies inside the closed interval `[a, b]` (analysis
predicate of the C3 refinement argument). -/
def cellWithin (a b : ℚ) (r : BRange) : Bool :=
  decide (a ≤ r.start) && decide (r.finish ≤ b)

/-- The segment list of the repository example entering the merge step
(the four streams of `grand_composite_curve_test.py`, minimum approach
temperature difference 10, pinch temperature 90): the value of
`c3w_segments0.map (segSplit 10)`, verified by `c3_split_stage` and
`c3_tq_stage`. -/
def c3w_segments : List Segment :=
  [⟨⟨(0 : ℚ), (40 : ℚ)⟩,
   [⟨(0 : ℚ), (40 : ℚ)⟩],
   some ⟨(60 : ℚ), (70 : ℚ)⟩, none,
   [⟨"4", .HOT, ⟨(60 : ℚ), (70 : ℚ)⟩, (40 : ℚ), (0 : ℚ), .UNKNOWN, false⟩],
   [],
   [⟨⟨(0 : ℚ), (40 : ℚ)⟩, ⟨(60 : ℚ), (70 : ℚ)⟩, some "4", .UNKNOWN, false⟩],
   [],
   [⟨⟨(0 : ℚ), (40 : ℚ)⟩, ⟨(60 : ℚ), (70 : ℚ)⟩, some "4", .UNKNOWN, false⟩],
   []⟩,
  ⟨⟨(40 : ℚ), (80 : ℚ)⟩,
   [⟨(40 : ℚ), (80 : ℚ)⟩],
   some ⟨(70 : ℚ), (80 : ℚ)⟩, some ⟨(40 : ℚ), ((160 : ℚ)/3)⟩,
   [⟨"4", .HOT, ⟨(70 : ℚ), (80 : ℚ)⟩, (40 : ℚ), (0 : ℚ), .UNKNOWN, false⟩],
   [⟨"1", .COLD, ⟨(40 : ℚ), ((160 : ℚ)/3)⟩, (40 : ℚ), (0 : ℚ), .UNKNOWN, false⟩],
   [⟨⟨(40 : ℚ), (80 : ℚ)⟩, ⟨(70 : ℚ), (80 : ℚ)⟩, some "4", .UNKNOWN, false⟩],
   [⟨⟨(40 : ℚ), (80 : ℚ)⟩, ⟨(40 : ℚ), ((160 : ℚ)/3)⟩, some "1", .UNKNOWN, false⟩],
   [⟨⟨(40 : ℚ), (80 : ℚ)⟩, ⟨(70 : ℚ), (80 : ℚ)⟩, some "4", .UNKNOWN, false⟩],
   [⟨⟨(40 : ℚ), (80 : ℚ)⟩, ⟨(40 : ℚ), ((160 : ℚ)/3)⟩, some "1", .UNKNOWN, false⟩]⟩,
  ⟨⟨(80 : ℚ), (160 : ℚ)⟩,
   [⟨(80 : ℚ), (120 : ℚ)⟩, ⟨(120 : ℚ), (160 : ℚ)⟩],
   some ⟨(80 : ℚ), (90 : ℚ)⟩, some ⟨((160 : ℚ)/3), (80 : ℚ)⟩,
   [⟨"4", .HOT, ⟨(80 : ℚ), (90 : ℚ)⟩, (40 : ℚ), (0 : ℚ), .UNKNOWN, false⟩,
    ⟨"3", .HOT, ⟨(80 : ℚ), (90 : ℚ)⟩, (40 : ℚ), (0 : ℚ), .UNKNOWN, false⟩],
   [⟨"1", .COLD, ⟨((160 : ℚ)/3), (80 : ℚ)⟩, (80 : ℚ), (0 : ℚ), .UNKNOWN, false⟩],
   [⟨⟨(80 : ℚ), (120 : ℚ)⟩, ⟨(80 : ℚ), (90 : ℚ)⟩, some "4", .UNKNOWN, false⟩,
    ⟨⟨(120 : ℚ), (160 : ℚ)⟩, ⟨(80 : ℚ), (90 : ℚ)⟩, some "3", .UNKNOWN, false⟩],
   [⟨⟨(80 : ℚ), (120 : ℚ)⟩, ⟨((160 : ℚ)/3), ((200 : ℚ)/3)⟩, some "1", .UNKNOWN, false⟩,
    ⟨⟨(120 : ℚ), (160 : ℚ)⟩, ⟨((200 : ℚ)/3), (80 : ℚ)⟩, some "1", .UNKNOWN, false⟩],
   [⟨⟨(80 : ℚ), (120 : ℚ)⟩, ⟨(80 : ℚ), (90 : ℚ)⟩, some "4", .UNKNOWN, false⟩,
    ⟨⟨(120 : ℚ), (160 : ℚ)⟩, ⟨(80 : ℚ), (90 : ℚ)⟩, some "3", .UNKNOWN, false⟩],
   [⟨⟨(80 : ℚ), (120 : ℚ)⟩, ⟨((160 : ℚ)/3), ((200 : ℚ)/3)⟩, some "1", .UNKNOWN, false⟩,
    ⟨⟨(120 : ℚ), (160 : ℚ)⟩, ⟨((200 : ℚ)/3), (80 : ℚ)⟩, some "1", .UNKNOWN, false⟩]⟩,
  ⟨⟨(160 : ℚ), (240 : ℚ)⟩,
   [⟨(160 : ℚ), ((186666666667 : ℚ)/1000000000)⟩,
    ⟨((186666666667 : ℚ)/1000000000), (200 : ℚ)⟩, ⟨(200 : ℚ), (240 : ℚ)⟩],
   some ⟨(90 : ℚ), (100 : ℚ)⟩, some ⟨(80 : ℚ), ((800 : ℚ)/9)⟩,
   [⟨"4", .HOT, ⟨(90 : ℚ), (100 : ℚ)⟩, (40 : ℚ), (0 : ℚ), .UNKNOWN, false⟩,
    ⟨"3", .HOT, ⟨(90 : ℚ), (100 : ℚ)⟩, (40 : ℚ), (0 : ℚ), .UNKNOWN, false⟩],
   [⟨"1", .COLD, ⟨(80 : ℚ), ((800 : ℚ)/9)⟩, ((80 : ℚ)/3), (0 : ℚ), .UNKNOWN, false⟩,
    ⟨"2", .COLD, ⟨(80 : ℚ), ((800 : ℚ)/9)⟩, ((160 : ℚ)/3), (0 : ℚ), .UNKNOWN, false⟩],
   [⟨⟨(160 : ℚ), ((186666666667 : ℚ)/1000000000)⟩, ⟨(90 : ℚ), ((386666666667 : ℚ)/4000000000)⟩, some "4", .UNKNOWN, false⟩,
    ⟨⟨((186666666667 : ℚ)/1000000000), (200 : ℚ)⟩, ⟨((386666666667 : ℚ)/4000000000), (100 : ℚ)⟩, some "4", .UNKNOWN, false⟩,
    ⟨⟨(200 : ℚ), (240 : ℚ)⟩, ⟨(90 : ℚ), (100 : ℚ)⟩, some "3", .UNKNOWN, false⟩],
   [⟨⟨(160 : ℚ), ((186666666667 : ℚ)/1000000000)⟩, ⟨(80 : ℚ), ((800 : ℚ)/9)⟩, some "1", .UNKNOWN, false⟩,
    ⟨⟨((186666666667 : ℚ)/1000000000), (200 : ℚ)⟩, ⟨(80 : ℚ), ((39466666666400 : ℚ)/479999999997)⟩, some "2", .UNKNOWN, false⟩,
    ⟨⟨(200 : ℚ), (240 : ℚ)⟩, ⟨((39466666666400 : ℚ)/479999999997), ((800 : ℚ)/9)⟩, some "2", .UNKNOWN, false⟩],
   [⟨⟨(160 : ℚ), ((186666666667 : ℚ)/1000000000)⟩, ⟨(90 : ℚ), (100 : ℚ)⟩, some "4", .UNKNOWN, false⟩,
    ⟨⟨((186666666667 : ℚ)/1000000000), (200 : ℚ)⟩, ⟨(90 : ℚ), (100 : ℚ)⟩, some "4", .UNKNOWN, false⟩,
    ⟨⟨(200 : ℚ), (240 : ℚ)⟩, ⟨(90 : ℚ), (100 : ℚ)⟩, some "3", .UNKNOWN, false⟩],
   [⟨⟨(160 : ℚ), ((186666666667 : ℚ)/1000000000)⟩, ⟨(80 : ℚ), ((800 : ℚ)/9)⟩, some "1", .UNKNOWN, false⟩,
    ⟨⟨((186666666667 : ℚ)/1000000000), (200 : ℚ)⟩, ⟨(80 : ℚ), ((800 : ℚ)/9)⟩, some "2", .UNKNOWN, false⟩,
    ⟨⟨(200 : ℚ), (240 : ℚ)⟩, ⟨(80 : ℚ), ((800 : ℚ)/9)⟩, some "2", .UNKNOWN, false⟩]⟩,
  ⟨⟨(240 : ℚ), (250 : ℚ)⟩,
   [⟨(240 : ℚ), ((243333333333 : ℚ)/1000000000)⟩,
    ⟨((243333333333 : ℚ)/1000000000), (250 : ℚ)⟩],
   some ⟨(100 : ℚ), ((205 : ℚ)/2)⟩, some ⟨((800 : ℚ)/9), (90 : ℚ)⟩,
   [⟨"3", .HOT, ⟨(100 : ℚ), ((205 : ℚ)/2)⟩, (10 : ℚ), (0 : ℚ), .UNKNOWN, false⟩],
   [⟨"1", .COLD, ⟨((800 : ℚ)/9), (90 : ℚ)⟩, ((10 : ℚ)/3), (0 : ℚ), .UNKNOWN, false⟩,
    ⟨"2", .COLD, ⟨((800 : ℚ)/9), (90 : ℚ)⟩, ((20 : ℚ)/3), (0 : ℚ), .UNKNOWN, false⟩],
   [⟨⟨(240 : ℚ), ((243333333333 : ℚ)/1000000000)⟩, ⟨(100 : ℚ), ((403333333333 : ℚ)/4000000000)⟩, some "3", .UNKNOWN, false⟩,
    ⟨⟨((243333333333 : ℚ)/1000000000), (250 : ℚ)⟩, ⟨((403333333333 : ℚ)/4000000000), ((205 : ℚ)/2)⟩, some "3", .UNKNOWN, false⟩],
   [⟨⟨(240 : ℚ), ((243333333333 : ℚ)/1000000000)⟩, ⟨((800 : ℚ)/9), (90 : ℚ)⟩, some "1", .UNKNOWN, false⟩,
    ⟨⟨((243333333333 : ℚ)/1000000000), (250 : ℚ)⟩, ⟨((800 : ℚ)/9), (90 : ℚ)⟩, some "2", .UNKNOWN, false⟩],
   [⟨⟨(240 : ℚ), ((243333333333 : ℚ)/1000000000)⟩, ⟨(100 : ℚ), ((403333333333 : ℚ)/4000000000)⟩, some "3", .UNKNOWN, false⟩,
    ⟨⟨((243333333333 : ℚ)/1000000000), (250 : ℚ)⟩, ⟨((403333333333 : ℚ)/4000000000), ((205 : ℚ)/2)⟩, some "3", .UNKNOWN, false⟩],
   [⟨⟨(240 : ℚ), ((243333333333 : ℚ)/1000000000)⟩, ⟨((800 : ℚ)/9), (90 : ℚ)⟩, some "1", .UNKNOWN, false⟩,
    ⟨⟨((243333333333 : ℚ)/1000000000), (250 : ℚ)⟩, ⟨((800 : ℚ)/9), (90 : ℚ)⟩, some "2", .UNKNOWN, false⟩]⟩,
  ⟨⟨(250 : ℚ), (340 : ℚ)⟩,
   [⟨(250 : ℚ), (340 : ℚ)⟩],
   some ⟨((205 : ℚ)/2), (125 : ℚ)⟩, some ⟨(90 : ℚ), (105 : ℚ)⟩,
   [⟨"3", .HOT, ⟨((205 : ℚ)/2), (125 : ℚ)⟩, (90 : ℚ), (0 : ℚ), .UNKNOWN, false⟩],
   [⟨"2", .COLD, ⟨(90 : ℚ), (105 : ℚ)⟩, (90 : ℚ), (0 : ℚ), .UNKNOWN, false⟩],
   [⟨⟨(250 : ℚ), (340 : ℚ)⟩, ⟨((205 : ℚ)/2), (125 : ℚ)⟩, some "3", .UNKNOWN, false⟩],
   [⟨⟨(250 : ℚ), (340 : ℚ)⟩, ⟨(90 : ℚ), (105 : ℚ)⟩, some "2", .UNKNOWN, false⟩],
   [⟨⟨(250 : ℚ), (340 : ℚ)⟩, ⟨((205 : ℚ)/2), (125 : ℚ)⟩, some "3", .UNKNOWN, false⟩],
   [⟨⟨(250 : ℚ), (340 : ℚ)⟩, ⟨(90 : ℚ), (105 : ℚ)⟩, some "2", .UNKNOWN, false⟩]⟩,
  ⟨⟨(340 : ℚ), (370 : ℚ)⟩,
   [⟨(340 : ℚ), (370 : ℚ)⟩],
   none, some ⟨(105 : ℚ), (110 : ℚ)⟩,
   [],
   [⟨"2", .COLD, ⟨(105 : ℚ), (110 : ℚ)⟩, (30 : ℚ), (0 : ℚ), .UNKNOWN, false⟩],
   [],
   [⟨⟨(340 : ℚ), (370 : ℚ)⟩, ⟨(105 : ℚ), (110 : ℚ)⟩, some "2", .UNKNOWN, false⟩],
   [],
   [⟨⟨(340 : ℚ), (370 : ℚ)⟩, ⟨(105 : ℚ), (110 : ℚ)⟩, some "2", .UNKNOWN, false⟩]⟩]

/-- The flattened shared heat breakpoints of the example's segments
(verified by `c3_heats_stage`). -/
def c3w_heats : List ℚ :=
  [(0 : ℚ), (40 : ℚ), (80 : ℚ), (120 : ℚ), (160 : ℚ),
   ((186666666667 : ℚ)/1000000000), (200 : ℚ), (240 : ℚ),
   ((243333333333 : ℚ)/1000000000), (250 : ℚ), (340 : ℚ), (370 : ℚ)]

/-- The merged hot and cold curves of the example (the value of
`merge_segments`, verified by `c3_merge_stage`). -/
def c3w_merged : List PlotSegment × List PlotSegment :=
  ([⟨⟨(0 : ℚ), (40 : ℚ)⟩, ⟨(60 : ℚ), (70 : ℚ)⟩, some "4", .UNKNOWN, false⟩,
    ⟨⟨(40 : ℚ), (120 : ℚ)⟩, ⟨(70 : ℚ), (90 : ℚ)⟩, some "4", .UNKNOWN, false⟩,
    ⟨⟨(120 : ℚ), (160 : ℚ)⟩, ⟨(80 : ℚ), (90 : ℚ)⟩, some "3", .UNKNOWN, false⟩,
    ⟨⟨(160 : ℚ), ((186666666667 : ℚ)/1000000000)⟩, ⟨(90 : ℚ), (100 : ℚ)⟩, some "4", .UNKNOWN, false⟩,
    ⟨⟨((186666666667 : ℚ)/1000000000), (200 : ℚ)⟩, ⟨(90 : ℚ), (100 : ℚ)⟩, some "4", .UNKNOWN, false⟩,
    ⟨⟨(200 : ℚ), (240 : ℚ)⟩, ⟨(90 : ℚ), (100 : ℚ)⟩, some "3", .UNKNOWN, false⟩,
    ⟨⟨(240 : ℚ), ((243333333333 : ℚ)/1000000000)⟩, ⟨(100 : ℚ), ((403333333333 : ℚ)/4000000000)⟩, some "3", .UNKNOWN, false⟩,
    ⟨⟨((243333333333 : ℚ)/1000000000), (340 : ℚ)⟩, ⟨((403333333333 : ℚ)/4000000000), (125 : ℚ)⟩, some "3", .UNKNOWN, false⟩],
   [⟨⟨(40 : ℚ), (120 : ℚ)⟩, ⟨(40 : ℚ), ((200 : ℚ)/3)⟩, some "1", .UNKNOWN, false⟩,
    ⟨⟨(120 : ℚ), (160 : ℚ)⟩, ⟨((200 : ℚ)/3), (80 : ℚ)⟩, some "1", .UNKNOWN, false⟩,
    ⟨⟨(160 : ℚ), ((186666666667 : ℚ)/1000000000)⟩, ⟨(80 : ℚ), ((800 : ℚ)/9)⟩, some "1", .UNKNOWN, false⟩,
    ⟨⟨((186666666667 : ℚ)/1000000000), (200 : ℚ)⟩, ⟨(80 : ℚ), ((800 : ℚ)/9)⟩, some "2", .UNKNOWN, false⟩,
    ⟨⟨(200 : ℚ), (240 : ℚ)⟩, ⟨(80 : ℚ), ((800 : ℚ)/9)⟩, some "2", .UNKNOWN, false⟩,
    ⟨⟨(240 : ℚ), ((243333333333 : ℚ)/1000000000)⟩, ⟨((800 : ℚ)/9), (90 : ℚ)⟩, some "1", .UNKNOWN, false⟩,
    ⟨⟨((243333333333 : ℚ)/1000000000), (340 : ℚ)⟩, ⟨((800 : ℚ)/9), (105 : ℚ)⟩, some "2", .UNKNOWN, false⟩,
    ⟨⟨(340 : ℚ), (370 : ℚ)⟩, ⟨(105 : ℚ), (110 : ℚ)⟩, some "2", .UNKNOWN, false⟩])

/-- The final matched exchanger triples of the example (the value of the
exchanger matching, verified by `c3_match_stage`). -/
def c3w_ex : List (BRange × PlotSegment × PlotSegment) :=
  [(⟨(40 : ℚ), (120 : ℚ)⟩,
    ⟨⟨(40 : ℚ), (120 : ℚ)⟩, ⟨(70 : ℚ), (90 : ℚ)⟩, some "4", .UNKNOWN, false⟩,
    ⟨⟨(40 : ℚ), (120 : ℚ)⟩, ⟨(40 : ℚ), ((200 : ℚ)/3)⟩, some "1", .UNKNOWN, false⟩),
   (⟨(120 : ℚ), (160 : ℚ)⟩,
    ⟨⟨(120 : ℚ), (160 : ℚ)⟩, ⟨(80 : ℚ), (90 : ℚ)⟩, some "3", .UNKNOWN, false⟩,
    ⟨⟨(120 : ℚ), (160 : ℚ)⟩, ⟨((200 : ℚ)/3), (80 : ℚ)⟩, some "1", .UNKNOWN, false⟩),
   (⟨(160 : ℚ), ((186666666667 : ℚ)/1000000000)⟩,
    ⟨⟨(160 : ℚ), ((186666666667 : ℚ)/1000000000)⟩, ⟨(90 : ℚ), (100 : ℚ)⟩, some "4", .UNKNOWN, false⟩,
    ⟨⟨(160 : ℚ), ((186666666667 : ℚ)/1000000000)⟩, ⟨(80 : ℚ), ((800 : ℚ)/9)⟩, some "1", .UNKNOWN, false⟩),
   (⟨((186666666667 : ℚ)/1000000000), (200 : ℚ)⟩,
    ⟨⟨((186666666667 : ℚ)/1000000000), (200 : ℚ)⟩, ⟨(90 : ℚ), (100 : ℚ)⟩, some "4", .UNKNOWN, false⟩,
    ⟨⟨((186666666667 : ℚ)/1000000000), (200 : ℚ)⟩, ⟨(80 : ℚ), ((800 : ℚ)/9)⟩, some "2", .UNKNOWN, false⟩),
   (⟨(200 : ℚ), (240 : ℚ)⟩,
    ⟨⟨(200 : ℚ), (240 : ℚ)⟩, ⟨(90 : ℚ), (100 : ℚ)⟩, some "3", .UNKNOWN, false⟩,
    ⟨⟨(200 : ℚ), (240 : ℚ)⟩, ⟨(80 : ℚ), ((800 : ℚ)/9)⟩, some "2", .UNKNOWN, false⟩),
   (⟨(240 : ℚ), ((243333333333 : ℚ)/1000000000)⟩,
    ⟨⟨(240 : ℚ), ((243333333333 : ℚ)/1000000000)⟩, ⟨(100 : ℚ), ((403333333333 : ℚ)/4000000000)⟩, some "3", .UNKNOWN, false⟩,
    ⟨⟨(240 : ℚ), ((243333333333 : ℚ)/1000000000)⟩, ⟨((800 : ℚ)/9), (90 : ℚ)⟩, some "1", .UNKNOWN, false⟩),
   (⟨((243333333333 : ℚ)/1000000000), (340 : ℚ)⟩,
    ⟨⟨((243333333333 : ℚ)/1000000000), (340 : ℚ)⟩, ⟨((403333333333 : ℚ)/4000000000), (125 : ℚ)⟩, some "3", .UNKNOWN, false⟩,
    ⟨⟨((243333333333 : ℚ)/1000000000), (340 : ℚ)⟩, ⟨((800 : ℚ)/9), (105 : ℚ)⟩, some "2", .UNKNOWN, false⟩)]

/-! ## Helper lemmas -/

theorem mkRange_of_le {a b : ℚ} (h : a ≤ b) : mkRange a b = ⟨a, b⟩ := by
  unfold mkRange minmax
  rw [if_neg (by exact not_lt.mpr h)]

theorem mkRange_wf (a b : ℚ) : (mkRange a b).start ≤ (mkRange a b).finish := by
  unfold mkRange minmax
  split_ifs with h
  · exact le_of_lt h
  · exact le_of_not_lt h

theorem except_bind_ok {ε α β : Type} (x : Except ε α) (f : α → Except ε β) (b : β)
    (h : x >>= f = .ok b) : ∃ a, x = .ok a ∧ f a = .ok b := by
  cases x with
  | error e => simp [Bind.bind, Except.bind] at h
  | ok a => exact ⟨a, rfl, by simpa [Bind.bind, Except.bind] using h⟩

theorem ok_bind {ε α β : Type} (a : α) (f : α → Except ε β) :
    (Except.ok a >>= f) = f a := rfl

theorem mapM_ok_cons {α β : Type} {f : α → Except String β} {a : α} {l : List α} {b : β}
    {bs : List β} (ha : f a = .ok b) (hl : l.mapM f = .ok bs) :
    (a :: l).mapM f = .ok (b :: bs) := by
  rw [List.mapM_cons, ha, hl]; rfl

theorem map_cons_eq {α β : Type} {f : α → β} {a : α} {l : List α} {b : β} {bs : List β}
    (ha : f a = b) (hl : l.map f = bs) : (a :: l).map f = b :: bs := by
  rw [List.map_cons, ha, hl]

theorem foldl_min_le_init (xs : List ℚ) : ∀ x : ℚ, xs.foldl min x ≤ x := by
  induction xs with
  | nil => intro x; simp
  | cons a l ih =>
    intro x
    calc l.foldl min (min x a) ≤ min x a := ih (min x a)
    _ ≤ x := min_le_left _ _

theorem foldl_min_le_mem (xs : List ℚ) : ∀ x y : ℚ, y ∈ xs → xs.foldl min x ≤ y := by
  induction xs with
  | nil => intro x y hy; simp at hy
  | cons a l ih =>
    intro x y hy
    rcases List.mem_cons.mp hy with h | h
    · subst h
      calc l.foldl min (min x y) ≤ min x y := foldl_min_le_init l _
      _ ≤ y := min_le_right _ _
    · exact ih (min x a) y h

theorem foldl_min_cases (xs : List ℚ) : ∀ x : ℚ, xs.foldl min x = x ∨ xs.foldl min x ∈ xs := by
  induction xs with
  | nil => intro x; left; rfl
  | cons a l ih =>
    intro x
    rcases ih (min x a) with h | h
    · rcases min_choice x a with hm | hm
      · left; rw [List.foldl_cons, h, hm]
      · right; rw [List.foldl_cons, h, hm]; exact List.mem_cons_self a l
    · right; exact List.mem_cons_of_mem a h

theorem pymin_spec {l : List ℚ} {m : ℚ} (h : pymin l = some m) :
    m ∈ l ∧ ∀ y ∈ l, m ≤ y := by
  cases l with
  | nil => simp [pymin] at h
  | cons x xs =>
    have hm : m = xs.foldl min x := by simpa [pymin] using h.symm
    subst hm
    constructor
    · rcases foldl_min_cases xs x with h | h
      · rw [h]; exact List.mem_cons_self x xs
      · exact List.mem_cons_of_mem x h
    · intro y hy
      rcases List.mem_cons.mp hy with h | h
      · subst h; exact foldl_min_le_init xs y
      · exact foldl_min_le_mem xs x y h

theorem scanl_zero_cons (f : ℚ → BRange → ℚ) (l : List BRange) :
    ∃ rest, l.scanl f 0 = 0 :: rest := by
  cases l with
  | nil => exact ⟨[], rfl⟩
  | cons a t => exact ⟨List.scanl f (f 0 a) t, rfl⟩

theorem getHeats_min_zero (trs : List BRange) (lack : BRange → ℚ) :
    pymin (getHeats trs lack) = some 0 ∧ 0 ∈ getHeats trs lack := by
  obtain ⟨rest, hrest⟩ := scanl_zero_cons (fun h r => h - lack r) (sortRanges trs)
  have hpm : pymin (0 :: rest) = some (rest.foldl min 0) := rfl
  obtain ⟨hmem, hle⟩ := pymin_spec hpm
  set m := rest.foldl min 0 with hm
  have hresult : getHeats trs lack = (0 :: rest).map (fun h => h - m) := by
    simp only [getHeats, hrest, hpm]
  have hzero : (0 : ℚ) ∈ getHeats trs lack := by
    rw [hresult]
    exact List.mem_map.mpr ⟨m, hmem, by ring⟩
  refine ⟨?_, hzero⟩
  have hmap : getHeats trs lack = (0 - m) :: rest.map (fun h => h - m) := by
    rw [hresult]; rfl
  have hpm2 : pymin (getHeats trs lack) =
      some ((rest.map (fun h => h - m)).foldl min (0 - m)) := by
    rw [hmap]; rfl
  obtain ⟨hmem2, hle2⟩ := pymin_spec hpm2
  set v := (rest.map (fun h => h - m)).foldl min (0 - m) with hv
  have hge : 0 ≤ v := by
    rw [hmap] at hmem2
    rcases List.mem_cons.mp hmem2 with h | h
    · have : m ≤ 0 := hle 0 (List.mem_cons_self 0 rest)
      rw [h]; linarith
    · obtain ⟨y, hy, hyv⟩ := List.mem_map.mp h
      have : m ≤ y := hle y (List.mem_cons_of_mem 0 hy)
      rw [← hyv]; linarith
  have hle0 : v ≤ 0 := hle2 0 hzero
  rw [hpm2]
  congr 1
  linarith

/-! ## C5: merge is defined exactly on mergeable same-type ranges and is
commutative in result -/

theorem BRange.eq_of {r s : BRange} (h1 : r.start = s.start) (h2 : r.finish = s.finish) :
    r = s := by
  cases r; cases s
  simp only at h1 h2
  rw [h1, h2]

/-- C5: for every pair of (well-formed, same-type) ranges `a` and `b`,
`merge(a, b)` is defined exactly when `a.mergeable(b)` holds (the
`ValueError` raise being the undefined case), and when defined
`merge(a, b)` and `merge(b, a)` return the same range, namely the union
of the two intervals. -/
theorem c5_merge_iff_mergeable_comm (a b : BRange)
    (ha : a.start ≤ a.finish) (hb : b.start ≤ b.finish) :
    ((mergeRanges a b).isSome ↔ a.mergeable b)
    ∧ (a.mergeable b →
        ∃ r, mergeRanges a b = some r ∧ mergeRanges b a = some r
          ∧ r.start = min a.start b.start ∧ r.finish = max a.finish b.finish) := by
  constructor
  · by_cases h : a.mergeable b
    · simp only [mergeRanges, h, not_true_eq_false, if_false]
      split_ifs <;> simp [h]
    · simp [mergeRanges, h]
  · intro h
    have hba : b.mergeable a := by
      unfold BRange.mergeable at h ⊢
      tauto
    by_cases h1 : a.start = b.finish
    · have hab : mergeRanges a b = some (mkRange b.start a.finish) := by
        simp only [mergeRanges]
        rw [if_neg (not_not_intro h), if_pos h1]
      have hchain : b.start ≤ a.finish := by linarith
      have hmk : mkRange b.start a.finish = ⟨b.start, a.finish⟩ := mkRange_of_le hchain
      by_cases h2 : b.start = a.finish
      · -- both endpoint pairs touch: all four boundaries coincide
        have e1 : a.start = a.finish := by linarith
        have hba2 : mergeRanges b a = some (mkRange a.start b.finish) := by
          simp only [mergeRanges]
          rw [if_neg (not_not_intro hba), if_pos h2]
        refine ⟨mkRange b.start a.finish, hab, ?_, ?_, ?_⟩
        · rw [hba2, hmk, mkRange_of_le (by linarith)]
          exact congrArg some (BRange.eq_of (by simp; linarith) (by simp; linarith))
        · rw [hmk]; simp; linarith
        · rw [hmk]; simp; linarith
      · have hba2 : mergeRanges b a = some (mkRange b.start a.finish) := by
          simp only [mergeRanges]
          rw [if_neg (not_not_intro hba), if_neg h2]
        refine ⟨mkRange b.start a.finish, hab, hba2, ?_, ?_⟩
        · rw [hmk]; simp; linarith
        · rw [hmk]; simp; linarith
    · have h2 : a.finish = b.start := h.resolve_left h1
      have hchain : a.start ≤ b.finish := by linarith
      have hmk : mkRange a.start b.finish = ⟨a.start, b.finish⟩ := mkRange_of_le hchain
      have hab : mergeRanges a b = some (mkRange a.start b.finish) := by
        simp only [mergeRanges]
        rw [if_neg (not_not_intro h), if_neg h1]
      have hba2 : mergeRanges b a = some (mkRange a.start b.finish) := by
        simp only [mergeRanges]
        rw [if_neg (not_not_intro hba), if_pos h2.symm]
      refine ⟨mkRange a.start b.finish, hab, hba2, ?_, ?_⟩
      · rw [hmk]; simp; linarith
      · rw [hmk]; simp; linarith

/-- C5 witness: the theorem applied to the concrete ranges `(0, 10)` and
`(10, 20)`. -/
theorem c5_witness :
    ((mergeRanges ⟨0, 10⟩ ⟨10, 20⟩).isSome ↔ BRange.mergeable ⟨0, 10⟩ ⟨10, 20⟩)
    ∧ (BRange.mergeable ⟨0, 10⟩ ⟨10, 20⟩ →
        ∃ r, mergeRanges ⟨0, 10⟩ ⟨10, 20⟩ = some r ∧ mergeRanges ⟨10, 20⟩ ⟨0, 10⟩ = some r
          ∧ r.start = min (0 : ℚ) 10 ∧ r.finish = max (10 : ℚ) 20) :=
  c5_merge_iff_mergeable_comm ⟨0, 10⟩ ⟨10, 20⟩ (by norm_num) (by norm_num)

/-! ## C1 and C10: the normalized cascade touches zero and pinch
selection always succeeds -/

/-- Inversion of the `gccTempsHeats` pipeline: a successful run produces
`heats` by `_get_heats` on the computed partition. -/
theorem gccTempsHeats_ok {streams : List Stream} {diff : ℚ} {temps heats : List ℚ}
    (h : gccTempsHeats streams diff = .ok (temps, heats)) :
    ∃ trs f, heats = getHeats trs (lackingHeat f) := by
  simp only [gccTempsHeats] at h
  obtain ⟨⟨trs, f⟩, _, h2⟩ := except_bind_ok _ _ _ h
  cases hf : flatten trs with
  | none => rw [hf] at h2; simp at h2
  | some t =>
    rw [hf] at h2
    have hpair : (t, getHeats trs (lackingHeat f)) = (temps, heats) := by
      simpa [pure, Except.pure] using h2
    exact ⟨trs, f, (congrArg Prod.snd hpair).symm⟩

/-- C1: for every stream set and minimum approach temperature difference
for which the grand composite curve is computed, the normalized heats
list has minimum value exactly 0. -/
theorem c1_gcc_min_heat_zero (streams : List Stream) (diff : ℚ) (temps heats : List ℚ)
    (h : gccTempsHeats streams diff = .ok (temps, heats)) :
    pymin heats = some 0 := by
  obtain ⟨trs, f, hh⟩ := gccTempsHeats_ok h
  rw [hh]
  exact (getHeats_min_zero trs (lackingHeat f)).1

/-- C1 witness: the theorem applied to a concrete two-stream set. -/
theorem c1_witness : pymin [0, 100, 100, 0] = some 0 :=
  c1_gcc_min_heat_zero [wsCold, wsHot] 5 [5, 15, 20, 30] [0, 100, 100, 0] (by with_unfolding_all rfl)

/-- C10: for every computed grand composite curve, the normalized heats
list contains the value 0 exactly, so the `ValueError` guard of
`_set_pinch_point` never fires and pinch-point selection succeeds. -/
theorem c10_pinch_selection_succeeds (streams : List Stream) (diff : ℚ)
    (temps heats : List ℚ) (h : gccTempsHeats streams diff = .ok (temps, heats)) :
    0 ∈ heats ∧ ∃ p, setPinchPoint temps heats = .ok p := by
  obtain ⟨trs, f, hh⟩ := gccTempsHeats_ok h
  have h0 : (0 : ℚ) ∈ heats := by
    rw [hh]; exact (getHeats_min_zero trs (lackingHeat f)).2
  refine ⟨h0, ?_⟩
  have hp : ∃ q ∈ heats.enum, q.2 = 0 := by
    have := List.enum_map_snd heats
    obtain ⟨q, hq, hq2⟩ := List.mem_map.mp (this ▸ h0)
    exact ⟨q, hq, hq2⟩
  obtain ⟨q, hq, hq2⟩ := hp
  have hqf : q ∈ heats.enum.filter (fun p => p.2 == 0) :=
    List.mem_filter.mpr ⟨hq, by simp [hq2]⟩
  have hidne : (heats.enum.filter (fun p => p.2 == 0)).map (fun p => p.1) ≠ [] := by
    intro hc
    exact List.ne_nil_of_mem hqf (List.map_eq_nil_iff.mp hc)
  have hptsne :
      ((heats.enum.filter (fun p => p.2 == 0)).map (fun p => p.1)).map
        (fun i => temps.getD i 0) ≠ [] := by
    intro hc
    exact hidne (List.map_eq_nil_iff.mp hc)
  obtain ⟨a, ha⟩ := Option.isSome_iff_exists.mp
    (List.getLast?_isSome.mpr hptsne)
  obtain ⟨b, hb⟩ := Option.isSome_iff_exists.mp
    (List.getLast?_isSome.mpr hidne)
  obtain ⟨c, hc⟩ := Option.isSome_iff_exists.mp
    (List.head?_isSome.mpr hptsne)
  obtain ⟨d, hd⟩ := Option.isSome_iff_exists.mp
    (List.head?_isSome.mpr hidne)
  refine ⟨(a, b, c, d), ?_⟩
  simp only [setPinchPoint, if_pos h0]
  rw [ha, hb, hc, hd]

/-- C10 witness: the theorem applied to the same concrete two-stream
set. -/
theorem c10_witness :
    (0 : ℚ) ∈ [(0 : ℚ), 100, 100, 0]
    ∧ ∃ p, setPinchPoint [5, 15, 20, 30] [0, 100, 100, 0] = .ok p :=
  c10_pinch_selection_succeeds [wsCold, wsHot] 5 [5, 15, 20, 30] [0, 100, 100, 0] (by with_unfolding_all rfl)

/-! ## C2: the grand-composite-curve example -/

/-- C2 counterexample: with the claimed input duties (160 for the
`125 -> 80` stream), the grand composite curve has
`heats = [320/9, 590/9, 410/9, 0, 130/9, 570/9, 410/9]`, not the claimed
`[40, 70, 50, 0, 10, 50, 30]` (temps and pinch temperature are as
claimed), so the claim as stated is false at its own input. -/
theorem c2_counterexample :
    (spec_example_streams 160 >>= fun ss => gccOutputs ss 10)
      = .ok ([50, 60, 80, 90, 100, 120, 125],
          [320/9, 590/9, 410/9, 0, 130/9, 570/9, 410/9], (90, 3, 90, 3))
    ∧ [320/9, 590/9, 410/9, 0, 130/9, (570 : ℚ)/9, 410/9] ≠ [40, 70, 50, 0, 10, 50, 30] := by
  constructor
  · with_unfolding_all rfl
  · intro h
    rw [List.cons.injEq] at h
    norm_num at h

/-- C2 amended: with duty 180 for the `125 -> 80` stream (the value the
repository test uses), the construction yields exactly the claimed
temps, heats and pinch temperature. -/
theorem c2_amended_example :
    (spec_example_streams 180 >>= fun ss => gccOutputs ss 10)
      = .ok ([50, 60, 80, 90, 100, 120, 125],
          [40, 70, 50, 0, 10, 50, 30], (90, 3, 90, 3)) := by
  with_unfolding_all rfl

/-! ## C4: stream validation -/

theorem mkRange_delta_zero_iff (a b : ℚ) : (mkRange a b).delta = 0 ↔ a = b := by
  unfold mkRange minmax BRange.delta
  split_ifs with h <;> constructor <;> intro h2 <;> simp at h2 ⊢ <;> linarith

theorem roleIsHot_bool (ty : StreamType) :
    ((ty == StreamType.HOT || ty == StreamType.EXTERNAL_HOT) = true) ↔ roleIsHot ty := by
  cases ty <;> simp [roleIsHot]

theorem roleIsCold_bool (ty : StreamType) (hty : ty ≠ .AUTO) :
    ((!(ty == StreamType.HOT || ty == StreamType.EXTERNAL_HOT)) = true) ↔ roleIsCold ty := by
  cases ty <;> simp [roleIsCold]
  exact hty rfl

theorem roleIsExternal_bool (ty : StreamType) :
    ((ty == StreamType.EXTERNAL_HOT || ty == StreamType.EXTERNAL_COLD) = true)
      ↔ roleIsExternal ty := by
  cases ty <;> simp [roleIsExternal]

theorem roleIsInternal_bool (ty : StreamType) :
    ((!(ty == StreamType.EXTERNAL_HOT || ty == StreamType.EXTERNAL_COLD)) = true)
      ↔ roleIsInternal ty := by
  cases ty <;> simp [roleIsInternal, roleIsExternal]

theorem mkStream_resolved_iff (input output heat_flow : ℚ) (ty : StreamType)
    (state : StreamState) (cost : ℚ) (rb : Bool) (id_ : String) (hty : ty ≠ .AUTO) :
    (∃ s, mkStream input output heat_flow ty state cost rb id_ = .ok s)
    ↔ ¬ ((roleIsInternal ty ∧ heat_flow = 0)
      ∨ (roleIsExternal ty ∧ heat_flow ≠ 0)
      ∨ (roleIsCold ty ∧ output < input)
      ∨ (roleIsHot ty ∧ input < output)
      ∨ (roleIsInternal ty ∧ cost ≠ 0)
      ∨ ((state = .LIQUID_EVAPORATION ∨ state = .GAS_CONDENSATION) ∧ input ≠ output)) := by
  have hbeq : (ty == StreamType.AUTO) = false := by
    cases ty <;> simp_all
  simp only [mkStream, hbeq, Bool.false_eq_true, if_false]
  simp only [Stream.is_internal, Stream.is_external, Stream.is_hot, Stream.is_cold,
    Stream.is_isothermal]
  constructor
  · rintro ⟨s, hs⟩ hviol
    split_ifs at hs with h1 h2 h3 h4 h5 h6
    rcases hviol with ⟨hrole, hv⟩ | ⟨hrole, hv⟩ | ⟨hrole, hv⟩ | ⟨hrole, hv⟩
        | ⟨hrole, hv⟩ | ⟨hst, hv⟩
    · exact h1 (by
        rw [Bool.and_eq_true]
        exact ⟨(roleIsInternal_bool ty).mpr hrole, by simpa using hv⟩)
    · exact h2 (by
        rw [Bool.and_eq_true]
        refine ⟨(roleIsExternal_bool ty).mpr hrole, ?_⟩
        simpa using hv)
    · exact h3 (by
        rw [Bool.and_eq_true]
        exact ⟨(roleIsCold_bool ty hty).mpr hrole, by simpa using hv⟩)
    · exact h4 (by
        rw [Bool.and_eq_true]
        exact ⟨(roleIsHot_bool ty).mpr hrole, by simpa using hv⟩)
    · exact h5 (by
        rw [Bool.and_eq_true]
        refine ⟨(roleIsInternal_bool ty).mpr hrole, ?_⟩
        simpa using hv)
    · exact h6 (by
        rw [Bool.and_eq_true]
        refine ⟨by simpa using hst, ?_⟩
        simp only [Bool.not_eq_true', beq_eq_false_iff_ne, Ne, mkRange_delta_zero_iff]
        exact hv)
  · intro hviol
    have hc1 : ¬ ((!(ty == StreamType.EXTERNAL_HOT || ty == StreamType.EXTERNAL_COLD)
        && heat_flow == 0) = true) := by
      intro h
      rw [Bool.and_eq_true] at h
      exact hviol (Or.inl ⟨(roleIsInternal_bool ty).mp h.1, by simpa using h.2⟩)
    have hc2 : ¬ (((ty == StreamType.EXTERNAL_HOT || ty == StreamType.EXTERNAL_COLD)
        && !(heat_flow == 0)) = true) := by
      intro h
      rw [Bool.and_eq_true] at h
      exact hviol (Or.inr (Or.inl ⟨(roleIsExternal_bool ty).mp h.1, by simpa using h.2⟩))
    have hc3 : ¬ ((!(ty == StreamType.HOT || ty == StreamType.EXTERNAL_HOT)
        && decide (input > output)) = true) := by
      intro h
      rw [Bool.and_eq_true] at h
      exact hviol (Or.inr (Or.inr (Or.inl
        ⟨(roleIsCold_bool ty hty).mp h.1, by simpa using h.2⟩)))
    have hc4 : ¬ (((ty == StreamType.HOT || ty == StreamType.EXTERNAL_HOT)
        && decide (input < output)) = true) := by
      intro h
      rw [Bool.and_eq_true] at h
      exact hviol (Or.inr (Or.inr (Or.inr (Or.inl
        ⟨(roleIsHot_bool ty).mp h.1, by simpa using h.2⟩))))
    have hc5 : ¬ ((!(ty == StreamType.EXTERNAL_HOT || ty == StreamType.EXTERNAL_COLD)
        && !(cost == 0)) = true) := by
      intro h
      rw [Bool.and_eq_true] at h
      exact hviol (Or.inr (Or.inr (Or.inr (Or.inr (Or.inl
        ⟨(roleIsInternal_bool ty).mp h.1, by simpa using h.2⟩)))))
    have hc6 : ¬ (((state == StreamState.LIQUID_EVAPORATION
          || state == StreamState.GAS_CONDENSATION)
        && !((mkRange input output).delta == 0)) = true) := by
      intro h
      rw [Bool.and_eq_true] at h
      refine hviol (Or.inr (Or.inr (Or.inr (Or.inr (Or.inr ⟨by simpa using h.1, ?_⟩)))))
      have h2 := h.2
      simp only [Bool.not_eq_true', beq_eq_false_iff_ne, Ne, mkRange_delta_zero_iff] at h2
      exact h2
    exact ⟨_, by rw [if_neg hc1, if_neg hc2, if_neg hc3, if_neg hc4, if_neg hc5, if_neg hc6]⟩

/-- C4: stream construction raises `InvalidStreamError` if and only if
one of the seven validation rules is violated (stated over the resolved
role): internal zero duty, external non-zero duty, cold inlet above
outlet, hot inlet below outlet, internal non-zero cost, phase-change
state on a non-isothermal stream, or `AUTO` role with equal inlet and
outlet temperatures; otherwise construction succeeds. -/
theorem c4_stream_validation_iff (input output heat_flow : ℚ) (type_ : StreamType)
    (state : StreamState) (cost : ℚ) (rb : Bool) (id_ : String) :
    (∃ s, mkStream input output heat_flow type_ state cost rb id_ = .ok s)
    ↔ ¬ specStreamViolation input output heat_flow type_ state cost := by
  by_cases hA : type_ = .AUTO
  · subst hA
    rcases lt_trichotomy input output with hlt | heq | hgt
    · have hmk : mkStream input output heat_flow .AUTO state cost rb id_
          = mkStream input output heat_flow .COLD state cost rb id_ := by
        simp [mkStream, hlt]
      rw [hmk, mkStream_resolved_iff _ _ _ _ _ _ _ _ (by simp)]
      refine (not_congr ?_).symm
      unfold specStreamViolation specResolvedRole
      simp [hlt, ne_of_gt hlt]
      intro he
      linarith
    · have hmk : ∀ s, mkStream input output heat_flow .AUTO state cost rb id_ ≠ .ok s := by
        intro s
        simp [mkStream, heq]
      constructor
      · rintro ⟨s, hs⟩
        exact absurd hs (hmk s)
      · intro hnv
        exact absurd (Or.inl ⟨rfl, heq⟩) hnv
    · have hmk : mkStream input output heat_flow .AUTO state cost rb id_
          = mkStream input output heat_flow .HOT state cost rb id_ := by
        simp [mkStream, hgt, not_lt_of_gt hgt]
      rw [hmk, mkStream_resolved_iff _ _ _ _ _ _ _ _ (by simp)]
      refine (not_congr ?_).symm
      unfold specStreamViolation specResolvedRole
      simp [hgt, not_lt_of_gt hgt, ne_of_lt hgt]
      intro he
      linarith
  · rw [mkStream_resolved_iff _ _ _ _ _ _ _ _ hA]
    refine (not_congr ?_).symm
    unfold specStreamViolation specResolvedRole
    simp [hA]

/-! ## C7: temperature-transition duplicate-count rule -/

theorem transitionStep_ok {A : List ℚ} {t : ℚ} {A' : List ℚ}
    (h : transitionStep A t = .ok A') :
    (∀ x ∈ A, x ∈ A') ∧ (∀ x, A.count x = 2 → A'.count x = 2) ∧ A'.count t = 2 := by
  simp only [transitionStep] at h
  split_ifs at h with h0 h1 h2
  · -- count 0: append two copies
    have hA : A' = A ++ [t, t] := by
      simpa using h.symm
    subst hA
    refine ⟨fun x hx => List.mem_append_left _ hx, ?_, ?_⟩
    · intro x hx
      rw [List.count_append]
      by_cases hxt : x = t
      · subst hxt; rw [h0] at hx; simp at hx
      · simp [List.count_cons, hxt, hx]
    · rw [List.count_append, h0]
      simp
  · -- count 1: append one copy
    have hA : A' = A ++ [t] := by
      simpa using h.symm
    subst hA
    refine ⟨fun x hx => List.mem_append_left _ hx, ?_, ?_⟩
    · intro x hx
      rw [List.count_append]
      by_cases hxt : x = t
      · subst hxt; rw [h1] at hx; simp at hx
      · simp [List.count_cons, hxt, hx]
    · rw [List.count_append, h1]
      simp
  · -- count 2: no-op
    have hA : A' = A := by simpa using h.symm
    subst hA
    exact ⟨fun x hx => hx, fun x hx => hx, h2⟩

theorem transitionFold (zs : List BRange) :
    ∀ A ts, (zs.foldlM (fun temps r => transitionStep temps r.start) A) = .ok ts →
    (∀ x ∈ A, x ∈ ts) ∧ (∀ x, A.count x = 2 → ts.count x = 2)
      ∧ (∀ r ∈ zs, ts.count r.start = 2) := by
  induction zs with
  | nil =>
    intro A ts h
    have : A = ts := by simpa [List.foldlM, pure, Except.pure] using h
    subst this
    exact ⟨fun x hx => hx, fun x hx => hx, by simp⟩
  | cons r rest ih =>
    intro A ts h
    rw [List.foldlM_cons] at h
    obtain ⟨A', h1, h2⟩ := except_bind_ok _ _ _ h
    obtain ⟨hsub, hcnt, hself⟩ := transitionStep_ok h1
    obtain ⟨hsub2, hcnt2, hrest⟩ := ih A' ts h2
    refine ⟨fun x hx => hsub2 x (hsub x hx), fun x hx => hcnt2 x (hcnt x hx), ?_⟩
    intro q hq
    rcases List.mem_cons.mp hq with hq | hq
    · subst hq; exact hcnt2 q.start hself
    · exact hrest q hq

/-- C7: in `get_temperature_transition`, every range with nonzero delta
contributes both endpoints (through the set union, hence each endpoint
once in the set stage), every zero-delta range ends with its temperature
occurring exactly twice in the result, and one step of the
duplicate-count loop adds two copies at count 0, one at count 1, none at
count 2, and raises `ValueError` exactly when the count is already 3 or
more. -/
theorem c7_transition_characterization :
    (∀ rs ts, get_temperature_transition rs = .ok ts →
      (∀ r ∈ rs, r.delta ≠ 0 → r.start ∈ ts ∧ r.finish ∈ ts)
      ∧ (∀ r ∈ rs, r.delta = 0 → ts.count r.start = 2))
    ∧ (∀ temps t, ((∃ e, transitionStep temps t = .error e) ↔ 3 ≤ temps.count t)
      ∧ (temps.count t = 0 → transitionStep temps t = .ok (temps ++ [t, t]))
      ∧ (temps.count t = 1 → transitionStep temps t = .ok (temps ++ [t]))
      ∧ (temps.count t = 2 → transitionStep temps t = .ok temps)) := by
  constructor
  · intro rs ts h
    unfold get_temperature_transition at h
    obtain ⟨hsub, _, hzero⟩ := transitionFold _ _ _ h
    constructor
    · intro r hr hd
      have hbase : ∀ v ∈ [r.start, r.finish],
          v ∈ ((rs.filter (fun r => !(r.delta == 0))).map
            (fun r => [r.start, r.finish])).flatten.dedup := by
        intro v hv
        rw [List.mem_dedup]
        refine List.mem_flatten.mpr ⟨[r.start, r.finish], ?_, hv⟩
        exact List.mem_map.mpr ⟨r, List.mem_filter.mpr ⟨hr, by simpa using hd⟩, rfl⟩
      exact ⟨hsub _ (hbase r.start (by simp)), hsub _ (hbase r.finish (by simp))⟩
    · intro r hr hd
      exact hzero r (List.mem_filter.mpr ⟨hr, by simpa using hd⟩)
  · intro temps t
    refine ⟨?_, ?_, ?_, ?_⟩
    · simp only [transitionStep]
      constructor
      · rintro ⟨e, he⟩
        split_ifs at he with h0 h1 h2
        omega
      · intro h3
        rw [if_neg (by omega), if_neg (by omega), if_neg (by omega)]
        exact ⟨_, rfl⟩
    · intro h0
      simp only [transitionStep]
      rw [if_pos h0]
    · intro h1
      simp only [transitionStep]
      rw [if_neg (by omega), if_pos h1]
    · intro h2
      simp only [transitionStep]
      rw [if_neg (by omega), if_neg (by omega), if_pos h2]

/-- C7 witness: the theorem applied to the ranges `(0, 10)` and
`(5, 5)`. -/
theorem c7_witness :
    ((0 : ℚ) ∈ [(0 : ℚ), 10, 5, 5] ∧ (10 : ℚ) ∈ [(0 : ℚ), 10, 5, 5])
    ∧ [(0 : ℚ), 10, 5, 5].count 5 = 2 :=
  ⟨(c7_transition_characterization.1 [⟨0, 10⟩, ⟨5, 5⟩] [0, 10, 5, 5]
      (by with_unfolding_all rfl)).1 ⟨0, 10⟩ (by simp) (by norm_num [BRange.delta]),
   (c7_transition_characterization.1 [⟨0, 10⟩, ⟨5, 5⟩] [0, 10, 5, 5]
      (by with_unfolding_all rfl)).2 ⟨5, 5⟩ (by simp) (by norm_num [BRange.delta])⟩

/-! ## C6: flatten / get_ranges round trip -/

theorem chainRanges_strict : ∀ (a b : ℚ) (rest : List ℚ),
    (a :: b :: rest).Chain' (· < ·) →
    (∀ r ∈ chainRanges (a :: b :: rest), a ≤ r.start)
    ∧ List.Sorted rle (chainRanges (a :: b :: rest))
    ∧ firstGap (chainRanges (a :: b :: rest)) = none
    ∧ breakpoints (chainRanges (a :: b :: rest)) = a :: b :: rest := by
  intro a b rest
  induction rest generalizing a b with
  | nil =>
    intro hch
    have hab : a < b := (List.chain'_cons.mp hch).1
    have h1 : chainRanges [a, b] = [⟨a, b⟩] := by
      simp [chainRanges, mkRange_of_le hab.le]
    refine ⟨?_, ?_, ?_, ?_⟩
    · intro r hr
      rw [h1] at hr
      simp at hr
      subst hr
      exact le_refl a
    · rw [h1]; exact List.sorted_singleton _
    · rw [h1]; rfl
    · rw [h1]; rfl
  | cons c rest ih =>
    intro hch
    have hab : a < b := (List.chain'_cons.mp hch).1
    have hch2 : (b :: c :: rest).Chain' (· < ·) := (List.chain'_cons.mp hch).2
    have hbc : b < c := (List.chain'_cons.mp hch2).1
    obtain ⟨ihstart, ihsorted, ihgap, ihbp⟩ := ih b c hch2
    have hdef : chainRanges (a :: b :: c :: rest)
        = ⟨a, b⟩ :: chainRanges (b :: c :: rest) := by
      rw [show chainRanges (a :: b :: c :: rest)
          = mkRange a b :: chainRanges (b :: c :: rest) from rfl,
        mkRange_of_le hab.le]
    have hdef2 : chainRanges (b :: c :: rest)
        = ⟨b, c⟩ :: chainRanges (c :: rest) := by
      rw [show chainRanges (b :: c :: rest)
          = mkRange b c :: chainRanges (c :: rest) from rfl,
        mkRange_of_le hbc.le]
    refine ⟨?_, ?_, ?_, ?_⟩
    · intro r hr
      rw [hdef] at hr
      rcases List.mem_cons.mp hr with hr | hr
      · subst hr; exact le_refl a
      · exact le_of_lt (lt_of_lt_of_le hab (ihstart r hr))
    · rw [hdef]
      refine List.sorted_cons.mpr ⟨?_, ihsorted⟩
      intro r hr
      exact le_trans hab.le (ihstart r hr)
    · rw [hdef, hdef2]
      show firstGap (⟨a, b⟩ :: ⟨b, c⟩ :: chainRanges (c :: rest)) = none
      unfold firstGap
      rw [if_pos rfl]
      rw [← hdef2]
      exact ihgap
    · rw [hdef, hdef2]
      show breakpoints (⟨a, b⟩ :: ⟨b, c⟩ :: chainRanges (c :: rest)) = a :: b :: c :: rest
      unfold breakpoints
      rw [← hdef2, ihbp]

/-- C6: for every breakpoint list with at least two elements and no
duplicates, flattening the ranges built from it reproduces the sorted
breakpoints: `flatten(get_ranges(breakpoints)) = sorted(breakpoints)`. -/
theorem c6_flatten_get_ranges (l : List ℚ) (hlen : 2 ≤ l.length) (hnd : l.Nodup) :
    flatten (get_ranges l) = some (sortQ l) := by
  have hs : (sortQ l).Sorted (· ≤ ·) := List.sorted_insertionSort _ l
  have hnd2 : (sortQ l).Nodup := ((List.perm_insertionSort _ l).nodup_iff).mpr hnd
  have hlt : (sortQ l).Sorted (· < ·) := hs.lt_of_le hnd2
  have hloen : 2 ≤ (sortQ l).length := by
    have hp : (sortQ l).length = l.length := (List.perm_insertionSort _ l).length_eq
    omega
  have hget : get_ranges l = chainRanges (sortQ l) := rfl
  match hm : sortQ l, hloen with
  | a :: b :: rest, _ =>
    have hch : (a :: b :: rest).Chain' (· < ·) := by
      rw [List.chain'_iff_pairwise]
      rw [hm] at hlt
      exact hlt
    obtain ⟨_, hsorted, hgap, hbp⟩ := chainRanges_strict a b rest hch
    have hsort : sortRanges (chainRanges (a :: b :: rest)) = chainRanges (a :: b :: rest) :=
      hsorted.insertionSort_eq
    rw [hget, hm]
    simp only [flatten, is_continuous]
    rw [hsort, hsort, hgap, hbp]

/-- C6 witness: the theorem applied to the concrete list `[10, 0, 20]`. -/
theorem c6_witness : flatten (get_ranges [10, 0, 20]) = some (sortQ [10, 0, 20]) :=
  c6_flatten_get_ranges [10, 0, 20] (by norm_num) (by norm_num)

/-! ## C9: log-mean temperature differences -/

/-- C9 counterexample: a matched hot/cold plot-segment pair (hot
temperature range `(0, 20)`, cold `(5, 10)`) whose cross-end differences
have opposite signs makes `init_lmtd_counterflow` raise a math-domain
error instead of returning a value, so the counterflow LMTD is not
"always defined". -/
theorem c9_counterexample :
    init_lmtd_counterflow (mkRange 0 20) (mkRange 5 10) = .error "math domain error" := by
  with_unfolding_all rfl

/-- C9 amended: the counterflow LMTD equals
`(dTs - dTe) / ln(dTs / dTe)` on the cross-end temperature differences,
degenerating to `dTs` when the two differences are equal; it is defined
exactly when the differences are equal or their quotient is positive
(both nonzero of the same sign), raising a zero-division or math-domain
error otherwise.  The parallel-flow LMTD is computed the same way from
same-end differences and is undefined (an error, not a returned value)
exactly when the parallel outlet temperature difference is
non-positive. -/
theorem c9_lmtd_amended (hot cold : BRange)
    (hh : hot.start ≤ hot.finish) (hc : cold.start ≤ cold.finish) :
    (hot.finish - cold.finish = hot.start - cold.start →
      init_lmtd_counterflow hot cold = .ok ((hot.finish - cold.finish : ℚ) : ℝ))
    ∧ (hot.finish - cold.finish ≠ hot.start - cold.start →
        ((∃ v, init_lmtd_counterflow hot cold = .ok v)
          ↔ (hot.start - cold.start ≠ 0
              ∧ 0 < (hot.finish - cold.finish) / (hot.start - cold.start))))
    ∧ (hot.finish - cold.finish ≠ hot.start - cold.start →
        hot.start - cold.start ≠ 0 →
        0 < (hot.finish - cold.finish) / (hot.start - cold.start) →
        init_lmtd_counterflow hot cold
          = .ok ((((hot.finish - cold.finish : ℚ) : ℝ) - ((hot.start - cold.start : ℚ) : ℝ))
              / Real.log (((hot.finish - cold.finish) / (hot.start - cold.start) : ℚ) : ℝ)))
    ∧ ((∃ e, init_lmtd_pararell_flow hot cold = .error e)
        ↔ hot.start - cold.finish ≤ 0)
    ∧ (0 < hot.start - cold.finish →
        hot.finish - cold.start = hot.start - cold.finish →
        init_lmtd_pararell_flow hot cold = .ok ((hot.finish - cold.start : ℚ) : ℝ))
    ∧ (0 < hot.start - cold.finish →
        hot.finish - cold.start ≠ hot.start - cold.finish →
        init_lmtd_pararell_flow hot cold
          = .ok ((((hot.finish - cold.start : ℚ) : ℝ) - ((hot.start - cold.finish : ℚ) : ℝ))
              / Real.log (((hot.finish - cold.start) / (hot.start - cold.finish) : ℚ) : ℝ))) := by
  refine ⟨?_, ?_, ?_, ?_, ?_, ?_⟩
  · intro h
    simp only [init_lmtd_counterflow]
    rw [if_pos h]
  · intro hne
    simp only [init_lmtd_counterflow]
    rw [if_neg hne]
    by_cases hf : hot.start - cold.start = 0
    · simp [pydivQ, hf, Bind.bind, Except.bind]
    · by_cases hq : (hot.finish - cold.finish) / (hot.start - cold.start) ≤ 0
      · simp [pydivQ, pylog, hf, hq, Bind.bind, Except.bind]
      · simp only [pydivQ, pylog, hf, if_false, if_neg hq, Bind.bind, Except.bind]
        constructor
        · intro
          exact ⟨hf, lt_of_not_le hq⟩
        · intro
          exact ⟨_, rfl⟩
  · intro hne hf hq
    simp only [init_lmtd_counterflow]
    rw [if_neg hne]
    simp [pydivQ, pylog, hf, not_le.mpr hq, Bind.bind, Except.bind, pure, Except.pure]
  · simp only [init_lmtd_pararell_flow]
    constructor
    · rintro ⟨e, he⟩
      by_contra hpos
      rw [if_neg hpos] at he
      have hf2 : (0 : ℚ) < hot.start - cold.finish := lt_of_not_le hpos
      by_cases heq : hot.finish - cold.start = hot.start - cold.finish
      · rw [if_pos heq] at he
        exact Except.noConfusion he
      · rw [if_neg heq] at he
        have hs2 : (0 : ℚ) < hot.finish - cold.start := by linarith
        have hqpos : (0 : ℚ) < (hot.finish - cold.start) / (hot.start - cold.finish) :=
          div_pos hs2 hf2
        simp [pydivQ, pylog, ne_of_gt hf2, not_le.mpr hqpos, Bind.bind, Except.bind,
          pure, Except.pure] at he
    · intro h
      rw [if_pos h]
      exact ⟨_, rfl⟩
  · intro hf2 heq
    simp only [init_lmtd_pararell_flow]
    rw [if_neg (not_le.mpr hf2), if_pos heq, heq]
  · intro hf2 hne
    simp only [init_lmtd_pararell_flow]
    rw [if_neg (not_le.mpr hf2), if_neg hne]
    have hs2 : (0 : ℚ) < hot.finish - cold.start := by linarith
    have hqpos : (0 : ℚ) < (hot.finish - cold.start) / (hot.start - cold.finish) :=
      div_pos hs2 hf2
    simp [pydivQ, pylog, ne_of_gt hf2, not_le.mpr hqpos, Bind.bind, Except.bind,
      pure, Except.pure]

/-- C9 witness: the amended theorem applied to the hot range `(10, 20)`
and cold range `(0, 5)`. -/
theorem c9_witness :
    init_lmtd_pararell_flow ⟨10, 20⟩ ⟨0, 5⟩
      = .ok (((((20 : ℚ) - 0 : ℚ) : ℝ) - (((10 : ℚ) - 5 : ℚ) : ℝ))
          / Real.log (((((20 : ℚ) - 0) / ((10 : ℚ) - 5) : ℚ)) : ℝ)) :=
  (c9_lmtd_amended ⟨10, 20⟩ ⟨0, 5⟩ (by norm_num) (by norm_num)).2.2.2.2.2
    (by norm_num) (by norm_num)

/-! ## C8: analyzer validation gates -/

theorem validate_streams_config {streams : List Stream} (ig : Bool)
    (h : firstDupId streams [] ≠ none
      ∨ (streams.filter (·.is_hot)).isEmpty = true
      ∨ (streams.filter (·.is_cold)).isEmpty = true) :
    validate_streams streams ig ≠ "" := by
  unfold validate_streams
  cases hm : firstDupId streams [] with
  | some i => simp
  | none =>
    rcases h with hdup | hhot | hcold
    · exact absurd hm hdup
    · rw [if_pos (by rw [hhot]; simp)]
      simp
    · rw [if_pos (by rw [hcold]; simp)]
      simp

/-- C8: `PinchAnalyzer` construction fails with a configuration error
whenever the stream list has a duplicate id, no hot stream or no cold
stream (before any curve computation), and fails with a range error
whenever validation passes but the requested minimum approach
temperature difference lies outside the admissible range `[0, upper]`
computed from the unshifted composite curves. -/
theorem c8_analyzer_validation (streams : List Stream) (d : ℚ) (force : Bool) :
    ((firstDupId streams [] ≠ none
        ∨ (streams.filter (·.is_hot)).isEmpty = true
        ∨ (streams.filter (·.is_cold)).isEmpty = true) →
      ∃ msg, analyzerInit streams d force = .error (.config msg))
    ∧ (∀ hi, validate_streams streams
          (if force then false else !(streams.any (·.is_external))) = "" →
        get_possible_minimum_temp_diff_range streams
          (if force then false else !(streams.any (·.is_external))) = .ok (0, hi) →
        inDiffRange 0 hi d = false →
        analyzerInit streams d force = .error (.rangeError d)) := by
  constructor
  · intro h
    refine ⟨validate_streams streams
      (if force then false else !(streams.any (·.is_external))), ?_⟩
    simp only [analyzerInit]
    rw [if_pos (validate_streams_config _ h)]
  · intro hi hval hrange hnot
    simp only [analyzerInit, hval, hrange, hnot]
    simp

/-- C8 witness: the theorem applied to a cold-only stream list (no hot
stream: configuration error) and to a valid two-stream list with the
out-of-range request `-1` (admissible range `[0, 20]`: range error). -/
theorem c8_witness :
    (∃ msg, analyzerInit [wsCold] 5 true = .error (.config msg))
    ∧ analyzerInit [wsCold, wsHot] (-1) true = .error (.rangeError (-1)) :=
  ⟨(c8_analyzer_validation [wsCold] 5 true).1 (Or.inr (Or.inl (by rfl))),
   (c8_analyzer_validation [wsCold, wsHot] (-1) true).2 (some 20)
     (by with_unfolding_all rfl) (by with_unfolding_all rfl)
     (by with_unfolding_all rfl)⟩

/-! ## C3: the merge step -/

theorem c3_streams_stage : spec_example_streams 180 = .ok c3w_streams := by
  with_unfolding_all rfl

theorem c3_cc_hot_stage : create_composite_curve c3w_hot_streams = .ok c3w_hcc0 := by
  with_unfolding_all rfl

theorem c3_cc_cold_stage : create_composite_curve c3w_cold_streams = .ok c3w_ccc0 := by
  with_unfolding_all rfl

theorem c3_shift_stage : shift_curve c3w_hcc0 c3w_ccc0 10 90 = .ok (c3w_hcc, c3w_ccc) := by
  with_unfolding_all rfl

set_option maxRecDepth 2000 in
theorem c3_getseg_stage :
    get_segments c3w_hcc c3w_ccc c3w_hot_streams c3w_cold_streams = .ok c3w_segments0 := by
  show c3w_ranges0.mapM (segAt
      (dictLast (get_plot_segments c3w_ranges0 c3w_hcc))
      (dictLast (get_plot_segments c3w_ranges0 c3w_ccc))
      c3w_hot_streams c3w_cold_streams) = .ok c3w_segments0
  unfold c3w_ranges0 c3w_segments0
  refine mapM_ok_cons (by with_unfolding_all rfl) ?_
  refine mapM_ok_cons (by with_unfolding_all rfl) ?_
  refine mapM_ok_cons (by with_unfolding_all rfl) ?_
  refine mapM_ok_cons (by with_unfolding_all rfl) ?_
  refine mapM_ok_cons (by with_unfolding_all rfl) ?_
  refine mapM_ok_cons (by with_unfolding_all rfl) ?_
  refine mapM_ok_cons (by with_unfolding_all rfl) ?_
  with_unfolding_all rfl

set_option maxRecDepth 2000 in
theorem c3_split_stage : c3w_segments0.map (segSplit 10) = c3w_segments := by
  unfold c3w_segments0 c3w_segments
  refine map_cons_eq (by with_unfolding_all rfl) ?_
  refine map_cons_eq (by with_unfolding_all rfl) ?_
  refine map_cons_eq (by with_unfolding_all rfl) ?_
  refine map_cons_eq (by with_unfolding_all rfl) ?_
  refine map_cons_eq (by with_unfolding_all rfl) ?_
  refine map_cons_eq (by with_unfolding_all rfl) ?_
  refine map_cons_eq (by with_unfolding_all rfl) ?_
  rfl

theorem c3_tq_stage : tqSegments c3w_streams 10 90 = .ok c3w_segments := by
  have e1 : create_composite_curve
      (sortByKey Stream.output_temperature (c3w_streams.filter (fun s => s.is_hot)))
      = .ok c3w_hcc0 := c3_cc_hot_stage
  have e2 : create_composite_curve
      (sortByKey Stream.input_temperature (c3w_streams.filter (fun s => s.is_cold)))
      = .ok c3w_ccc0 := c3_cc_cold_stage
  have e3 : get_segments c3w_hcc c3w_ccc
      (sortByKey Stream.output_temperature (c3w_streams.filter (fun s => s.is_hot)))
      (sortByKey Stream.input_temperature (c3w_streams.filter (fun s => s.is_cold)))
      = .ok c3w_segments0 := c3_getseg_stage
  simp only [tqSegments, e1, ok_bind, e2, c3_shift_stage, e3, c3_split_stage]
  rfl

set_option maxRecDepth 2000 in
theorem c3_merge_stage : merge_segments c3w_segments = .ok c3w_merged := by
  with_unfolding_all rfl

set_option maxRecDepth 2000 in
theorem c3_match_stage : exchangerMatches c3w_merged.1 c3w_merged.2 = .ok c3w_ex := by
  with_unfolding_all rfl

set_option maxRecDepth 2000 in
theorem c3_heats_stage :
    flatten (sortRanges (c3w_segments.flatMap (·.heat_ranges))) = some c3w_heats := by
  with_unfolding_all rfl

/-- C3 counterexample: on the repository example (the four streams of
`grand_composite_curve_test.py`, minimum approach temperature difference
10, pinch temperature 90), the total heat duty of the final matched
exchanger intervals is 300, while the total duty of the internal streams
is 670; the claim's duty clause fails because the matched intervals only
cover the heat overlap of the two composite curves, not every internal
stream's duty. -/
theorem c3_counterexample :
    spec_example_streams 180 = .ok c3w_streams
    ∧ tqSegments c3w_streams 10 90 = .ok c3w_segments
    ∧ merge_segments c3w_segments = .ok c3w_merged
    ∧ exchangerMatches c3w_merged.1 c3w_merged.2 = .ok c3w_ex
    ∧ (c3w_ex.map (fun t => t.1.delta)).sum = 300
    ∧ ((c3w_streams.filter (·.is_internal)).map (·.heat)).sum = 670
    ∧ (300 : ℚ) ≠ 670 :=
  ⟨c3_streams_stage, c3_tq_stage, c3_merge_stage, c3_match_stage,
   by with_unfolding_all rfl, by with_unfolding_all rfl, by norm_num⟩

/-! ## C3 continued: the chain-partition analysis behind the amended claim -/
/-! ## C3 toolkit: separated breakpoints and chain partitions -/

theorem pairwise_mem_cases {α : Type} {R : α → α → Prop} :
    ∀ {l : List α}, l.Pairwise R → ∀ a ∈ l, ∀ b ∈ l, a = b ∨ R a b ∨ R b a := by
  intro l
  induction l with
  | nil => intro _ a ha; cases ha
  | cons x t ih =>
    intro h a ha b hb
    obtain ⟨hx, ht⟩ := List.pairwise_cons.mp h
    rcases List.mem_cons.mp ha with ha' | ha'
    · rcases List.mem_cons.mp hb with hb' | hb'
      · exact Or.inl (ha'.trans hb'.symm)
      · subst ha'
        exact Or.inr (Or.inl (hx b hb'))
    · rcases List.mem_cons.mp hb with hb' | hb'
      · subst hb'
        exact Or.inr (Or.inr (hx a ha'))
      · exact ih ht a ha' b hb'

theorem sepChain_pairwise : ∀ {l : List ℚ}, sepChain l = true →
    l.Pairwise (fun a b => a + 1/500000 < b) := by
  intro l
  induction l with
  | nil => intro _; exact List.Pairwise.nil
  | cons a t ih =>
    intro h
    cases t with
    | nil => exact List.pairwise_singleton _ _
    | cons b rest =>
      rw [show sepChain (a :: b :: rest)
          = (decide (a + 1/500000 < b) && sepChain (b :: rest)) from rfl,
        Bool.and_eq_true, decide_eq_true_eq] at h
      have htail := ih h.2
      refine List.pairwise_cons.mpr ⟨?_, htail⟩
      intro v hv
      rcases List.mem_cons.mp hv with rfl | hv
      · exact h.1
      · have := (List.pairwise_cons.mp htail).1 v hv
        linarith

theorem sep_strict {l : List ℚ} (h : sepChain l = true) : l.Pairwise (· < ·) :=
  (sepChain_pairwise h).imp (by intro a b hb; linarith)

theorem sep_all {l : List ℚ} (h : sepChain l = true) :
    ∀ a ∈ l, ∀ b ∈ l, a < b → a + 1/500000 < b := by
  intro a ha b hb hab
  rcases pairwise_mem_cases (sepChain_pairwise h) a ha b hb with rfl | hr | hr
  · exact absurd hab (lt_irrefl a)
  · exact hr
  · exfalso; linarith

theorem eps_containment {l : List ℚ} (hsep : sepChain l = true) {ps pf a b : ℚ}
    (hps : ps ∈ l) (hpf : pf ∈ l) (ha : a ∈ l) (hb : b ∈ l) (hab : a ≤ b) :
    ((ps - 1/1000000 ≤ a ∧ a ≤ pf + 1/1000000) ∧ ps - 1/1000000 ≤ b ∧ b ≤ pf + 1/1000000)
      ↔ (ps ≤ a ∧ b ≤ pf) := by
  constructor
  · rintro ⟨⟨h1, _⟩, _, h4⟩
    constructor
    · by_contra hlt
      push_neg at hlt
      have := sep_all hsep a ha ps hps hlt
      linarith
    · by_contra hlt
      push_neg at hlt
      have := sep_all hsep pf hpf b hb hlt
      linarith
  · rintro ⟨h1, h2⟩
    exact ⟨⟨by linarith, by linarith⟩, by linarith, by linarith⟩

theorem contain_heats2_exact {l : List ℚ} (hsep : sepChain l = true) {q : PlotSegment}
    {hr : BRange} (h1 : q.heat_range.start ∈ l) (h2 : q.heat_range.finish ∈ l)
    (h3 : hr.start ∈ l) (h4 : hr.finish ∈ l) (h5 : hr.start ≤ hr.finish) :
    q.contain_heats2 hr.start hr.finish
      ↔ (q.heat_range.start ≤ hr.start ∧ hr.finish ≤ q.heat_range.finish) := by
  unfold PlotSegment.contain_heats2 PlotSegment.contain_heat BRange.containsH
  exact eps_containment hsep h1 h2 h3 h4 h5

theorem chain_start_le : ∀ {a : ℚ} {B : List ℚ}, (a :: B).Pairwise (· < ·) →
    ∀ r ∈ chainRanges (a :: B), a ≤ r.start := by
  intro a B
  induction B generalizing a with
  | nil => intro _ r hr; simp [chainRanges] at hr
  | cons b B ih =>
    intro hB r hr
    have hab : a < b := (List.pairwise_cons.mp hB).1 b (List.mem_cons_self _ _)
    rw [show chainRanges (a :: b :: B) = mkRange a b :: chainRanges (b :: B) from rfl]
      at hr
    rcases List.mem_cons.mp hr with hr' | hr'
    · rw [hr', mkRange_of_le hab.le]
    · have := ih (List.pairwise_cons.mp hB).2 r hr'
      linarith

theorem chainCell_mem : ∀ {B : List ℚ}, B.Pairwise (· < ·) → ∀ {r : BRange},
    r ∈ chainRanges B →
    r.start ∈ B ∧ r.finish ∈ B ∧ r.start < r.finish
      ∧ ∀ v ∈ B, ¬(r.start < v ∧ v < r.finish) := by
  intro B
  induction B with
  | nil => intro _ r hr; simp [chainRanges] at hr
  | cons a B' ih =>
    intro hB r hr
    cases B' with
    | nil => simp [chainRanges] at hr
    | cons b B'' =>
      have hab : a < b := (List.pairwise_cons.mp hB).1 b (List.mem_cons_self _ _)
      have htail : (b :: B'').Pairwise (· < ·) := (List.pairwise_cons.mp hB).2
      rw [show chainRanges (a :: b :: B'') = mkRange a b :: chainRanges (b :: B'')
          from rfl, mkRange_of_le hab.le] at hr
      rcases List.mem_cons.mp hr with hr' | hr'
      · subst hr'
        refine ⟨List.mem_cons_self _ _,
          List.mem_cons_of_mem _ (List.mem_cons_self _ _), hab, ?_⟩
        intro v hv hx
        have hx1 : a < v := hx.1
        have hx2 : v < b := hx.2
        rcases List.mem_cons.mp hv with hv' | hv'
        · rw [hv'] at hx1
          exact absurd hx1 (lt_irrefl _)
        · rcases List.mem_cons.mp hv' with hv'' | hv''
          · rw [hv''] at hx2
            exact absurd hx2 (lt_irrefl _)
          · have : b < v := (List.pairwise_cons.mp htail).1 v hv''
            exact absurd hx2 (by push_neg; linarith)
      · obtain ⟨hs, hf, hlt, hcons⟩ := ih htail hr'
        refine ⟨List.mem_cons_of_mem _ hs, List.mem_cons_of_mem _ hf, hlt, ?_⟩
        intro v hv hx
        rcases List.mem_cons.mp hv with hv' | hv'
        · have hbs : b ≤ r.start := chain_start_le htail r hr'
          rw [hv'] at hx
          exact absurd hx.1 (by push_neg; linarith)
        · exact hcons v hv' hx

theorem chainCell_of_consecutive : ∀ {B : List ℚ}, B.Pairwise (· < ·) → ∀ {a b : ℚ},
    a ∈ B → b ∈ B → a < b → (∀ v ∈ B, ¬(a < v ∧ v < b)) →
    (⟨a, b⟩ : BRange) ∈ chainRanges B := by
  intro B
  induction B with
  | nil => intro _ a b ha; cases ha
  | cons x B' ih =>
    intro hB a b ha hb hab hcons
    have htail : B'.Pairwise (· < ·) := (List.pairwise_cons.mp hB).2
    rcases List.mem_cons.mp ha with ha' | ha'
    · subst ha'
      cases B' with
      | nil =>
        rcases List.mem_cons.mp hb with hb' | hb'
        · rw [hb'] at hab
          exact absurd hab (lt_irrefl _)
        · cases hb'
      | cons y rest =>
        have hay : a < y := (List.pairwise_cons.mp hB).1 y (List.mem_cons_self _ _)
        have hb' : b ∈ y :: rest := by
          rcases List.mem_cons.mp hb with hb' | hb'
          · rw [hb'] at hab
            exact absurd hab (lt_irrefl _)
          · exact hb'
        have hyb : y ≤ b := by
          rcases List.mem_cons.mp hb' with hb'' | hb''
          · rw [hb'']
          · exact le_of_lt ((List.pairwise_cons.mp htail).1 b hb'')
        have hby : y = b := by
          by_contra hne
          have hyltb : y < b := lt_of_le_of_ne hyb hne
          exact hcons y (List.mem_cons_of_mem _ (List.mem_cons_self _ _)) ⟨hay, hyltb⟩
        rw [show chainRanges (a :: y :: rest) = mkRange a y :: chainRanges (y :: rest)
            from rfl, mkRange_of_le hay.le, hby]
        exact List.mem_cons_self _ _
    · have hb' : b ∈ B' := by
        rcases List.mem_cons.mp hb with hb' | hb'
        · have : b < a := by
            rw [hb']
            exact (List.pairwise_cons.mp hB).1 a ha'
          exact absurd hab (by push_neg; linarith)
        · exact hb'
      have hmem : (⟨a, b⟩ : BRange) ∈ chainRanges B' :=
        ih htail ha' hb' hab (fun v hv => hcons v (List.mem_cons_of_mem _ hv))
      cases B' with
      | nil => cases ha'
      | cons y rest =>
        rw [show chainRanges (x :: y :: rest) = mkRange x y :: chainRanges (y :: rest)
            from rfl]
        exact List.mem_cons_of_mem _ hmem

theorem chainCells_pairwise : ∀ {B : List ℚ}, B.Pairwise (· < ·) →
    (chainRanges B).Pairwise (fun c c' => c.finish ≤ c'.start) := by
  intro B
  induction B with
  | nil => intro _; exact List.Pairwise.nil
  | cons a B' ih =>
    intro hB
    cases B' with
    | nil => simp [chainRanges]
    | cons b rest =>
      have hab : a < b := (List.pairwise_cons.mp hB).1 b (List.mem_cons_self _ _)
      have htail : (b :: rest).Pairwise (· < ·) := (List.pairwise_cons.mp hB).2
      rw [show chainRanges (a :: b :: rest) = mkRange a b :: chainRanges (b :: rest)
          from rfl, mkRange_of_le hab.le]
      refine List.pairwise_cons.mpr ⟨?_, ih htail⟩
      intro c hc
      exact chain_start_le htail c hc

theorem chainCell_nested {B : List ℚ} (hB : B.Pairwise (· < ·)) {r c : BRange}
    (hr : r ∈ chainRanges B) (hc : c ∈ chainRanges B)
    (h1 : c.start ≤ r.start) (h2 : r.finish ≤ c.finish) : r = c := by
  have hrpos := (chainCell_mem hB hr).2.2.1
  have hcpos := (chainCell_mem hB hc).2.2.1
  rcases pairwise_mem_cases (chainCells_pairwise hB) r hr c hc with h | h | h
  · exact h
  · exact absurd h (by push_neg; linarith)
  · exact absurd h (by push_neg; linarith)

theorem chainCell_in_pair {B : List ℚ} (hB : B.Pairwise (· < ·)) {r r1 r2 : BRange}
    (hr : r ∈ chainRanges B) (h1 : r1 ∈ chainRanges B) (h2 : r2 ∈ chainRanges B)
    (hadj : r1.finish = r2.start) (hs : r1.start ≤ r.start) (hf : r.finish ≤ r2.finish) :
    r = r1 ∨ r = r2 := by
  have hrpos := (chainCell_mem hB hr).2.2.1
  have h1pos := (chainCell_mem hB h1).2.2.1
  rcases pairwise_mem_cases (chainCells_pairwise hB) r hr r1 h1 with h | h | h
  · exact Or.inl h
  · exact absurd h (by push_neg; linarith)
  · exact Or.inr (chainCell_nested hB hr h2 (by linarith) hf)

theorem chain_sum_filter : ∀ {B : List ℚ}, B.Pairwise (· < ·) → ∀ {a b : ℚ},
    a ∈ B → b ∈ B → a ≤ b →
    (((chainRanges B).filter
        (cellWithin a b)).map BRange.delta).sum
      = b - a := by
  intro B
  induction B with
  | nil => intro _ a b ha; cases ha
  | cons x B' ih =>
    intro hB a b ha hb hab
    cases B' with
    | nil =>
      have ha' : a = x := by simpa using ha
      have hb' : b = x := by simpa using hb
      rw [ha', hb']
      simp [chainRanges]
    | cons y rest =>
      have hxy : x < y := (List.pairwise_cons.mp hB).1 y (List.mem_cons_self _ _)
      have htail : (y :: rest).Pairwise (· < ·) := (List.pairwise_cons.mp hB).2
      have hchain : chainRanges (x :: y :: rest)
          = (⟨x, y⟩ : BRange) :: chainRanges (y :: rest) := by
        rw [show chainRanges (x :: y :: rest) = mkRange x y :: chainRanges (y :: rest)
            from rfl, mkRange_of_le hxy.le]
      rcases List.mem_cons.mp ha with ha' | ha'
      · rcases List.mem_cons.mp hb with hb' | hb'
        · -- a = x and b = x: nothing survives the filter
          rw [hchain]
          have hhd : ¬(cellWithin a b (⟨x, y⟩ : BRange) = true) := by
            intro hcontra
            simp only [cellWithin, Bool.and_eq_true, decide_eq_true_eq] at hcontra
            have h2' : y ≤ b := hcontra.2
            linarith [hb', hxy]
          rw [List.filter_cons_of_neg hhd]
          have hrest : List.filter
              (cellWithin a b)
              (chainRanges (y :: rest)) = [] := by
            rw [List.filter_eq_nil_iff]
            intro r hrmem
            have hys : y ≤ r.start := chain_start_le htail r hrmem
            have hpos := (chainCell_mem htail hrmem).2.2.1
            intro hcontra
            simp only [cellWithin, Bool.and_eq_true, decide_eq_true_eq] at hcontra
            have h2' : r.finish ≤ b := hcontra.2
            linarith [hb', hxy]
          rw [hrest]
          simp only [List.map_nil, List.sum_nil]
          linarith [ha', hb']
        · -- a = x, b further right: the head cell survives, recurse from y
          have hyb : y ≤ b := by
            rcases List.mem_cons.mp hb' with hb'' | hb''
            · rw [hb'']
            · exact le_of_lt ((List.pairwise_cons.mp htail).1 b hb'')
          rw [hchain]
          have hhd : (cellWithin a b (⟨x, y⟩ : BRange) = true) := by
            simp only [cellWithin, Bool.and_eq_true, decide_eq_true_eq]
            exact ⟨le_of_eq ha', hyb⟩
          rw [List.filter_cons_of_pos hhd]
          have hcongr : List.filter
              (cellWithin a b)
              (chainRanges (y :: rest))
              = List.filter (cellWithin y b)
                (chainRanges (y :: rest)) := by
            apply List.filter_congr
            intro r hrmem
            have hys : y ≤ r.start := chain_start_le htail r hrmem
            simp only [cellWithin]
            congr 1
            exact decide_eq_decide.mpr ⟨fun _ => hys, fun _ => by linarith [ha']⟩
          rw [List.map_cons, List.sum_cons, hcongr,
            ih htail (List.mem_cons_self _ _) hb' hyb]
          show (⟨x, y⟩ : BRange).delta + (b - y) = b - a
          simp only [BRange.delta]
          linarith [ha']
      · -- x < a: the head cell is filtered out
        have hxa : x < a := (List.pairwise_cons.mp hB).1 a ha'
        have hb' : b ∈ y :: rest := by
          rcases List.mem_cons.mp hb with hb' | hb'
          · exact absurd hab (by push_neg; linarith [hb'])
          · exact hb'
        rw [hchain]
        have hhd : ¬(cellWithin a b (⟨x, y⟩ : BRange) = true) := by
          intro hcontra
          simp only [cellWithin, Bool.and_eq_true, decide_eq_true_eq] at hcontra
          have h1' : a ≤ x := hcontra.1
          linarith
        rw [List.filter_cons_of_neg hhd]
        exact ih htail ha' hb' hab

theorem chain_filter_ne_nil {B : List ℚ} (hB : B.Pairwise (· < ·)) {a b : ℚ}
    (ha : a ∈ B) (hb : b ∈ B) (hab : a < b) :
    ((chainRanges B).filter
      (cellWithin a b)) ≠ [] := by
  intro hnil
  have := chain_sum_filter hB ha hb hab.le
  rw [hnil] at this
  simp at this
  linarith

theorem chainCell_cover : ∀ {B : List ℚ}, B.Pairwise (· < ·) →
    ∀ {x y rs rf : ℚ}, x ∈ B → y ∈ B → x ≤ rs → rf ≤ y → rs < rf →
    (∀ v ∈ B, ¬(rs < v ∧ v < rf)) →
    ∃ c ∈ chainRanges B, c.start ≤ rs ∧ rf ≤ c.finish := by
  intro B
  induction B with
  | nil => intro _ x y rs rf hx; cases hx
  | cons z B' ih =>
    intro hB x y rs rf hx hy hxr hry hrr hni
    have htail : B'.Pairwise (· < ·) := (List.pairwise_cons.mp hB).2
    cases B' with
    | nil =>
      have hx' : x = z := by simpa using hx
      have hy' : y = z := by simpa using hy
      rw [hx'] at hxr
      rw [hy'] at hry
      exact absurd (lt_of_le_of_lt hxr (lt_of_lt_of_le hrr hry)) (lt_irrefl _)
    | cons w rest =>
      have hzw : z < w := (List.pairwise_cons.mp hB).1 w (List.mem_cons_self _ _)
      have hchain : chainRanges (z :: w :: rest)
          = (⟨z, w⟩ : BRange) :: chainRanges (w :: rest) := by
        rw [show chainRanges (z :: w :: rest) = mkRange z w :: chainRanges (w :: rest)
            from rfl, mkRange_of_le hzw.le]
      rcases List.mem_cons.mp hx with hx' | hx'
      · by_cases hwrs : w ≤ rs
        · have hy' : y ∈ w :: rest := by
            rcases List.mem_cons.mp hy with hy' | hy'
            · rw [hy'] at hry
              rw [hx'] at hxr
              exact absurd (lt_of_le_of_lt hxr (lt_of_lt_of_le hrr hry)) (lt_irrefl _)
            · exact hy'
          obtain ⟨c, hc, hcs, hcf⟩ := ih htail (List.mem_cons_self _ _) hy' hwrs hry
            hrr (fun v hv => hni v (List.mem_cons_of_mem _ hv))
          exact ⟨c, by rw [hchain]; exact List.mem_cons_of_mem _ hc, hcs, hcf⟩
        · push_neg at hwrs
          have hrfw : rf ≤ w := by
            by_contra hlt
            push_neg at hlt
            exact hni w (List.mem_cons_of_mem _ (List.mem_cons_self _ _)) ⟨hwrs, hlt⟩
          refine ⟨⟨z, w⟩, by rw [hchain]; exact List.mem_cons_self _ _, ?_, hrfw⟩
          rw [← hx']
          exact hxr
      · have hy' : y ∈ w :: rest := by
          rcases List.mem_cons.mp hy with hy' | hy'
          · have hyx : y < x := by
              rw [hy']
              exact (List.pairwise_cons.mp hB).1 x hx'
            have : x ≤ y := le_of_lt (lt_of_le_of_lt hxr (lt_of_lt_of_le hrr hry))
            exact absurd this (by push_neg; exact hyx)
          · exact hy'
        obtain ⟨c, hc, hcs, hcf⟩ := ih htail hx' hy' hxr hry hrr
          (fun v hv => hni v (List.mem_cons_of_mem _ hv))
        exact ⟨c, by rw [hchain]; exact List.mem_cons_of_mem _ hc, hcs, hcf⟩

theorem chain_zip_mem : ∀ {B : List ℚ}, B.Pairwise (· < ·) →
    ∀ {p : BRange × BRange}, p ∈ (chainRanges B).zip (chainRanges B).tail →
    p.1 ∈ chainRanges B ∧ p.2 ∈ chainRanges B ∧ p.1.finish = p.2.start := by
  intro B
  induction B with
  | nil => intro _ p hp; simp [chainRanges] at hp
  | cons a B' ih =>
    intro hB p hp
    cases B' with
    | nil => simp [chainRanges] at hp
    | cons b rest =>
      have hab : a < b := (List.pairwise_cons.mp hB).1 b (List.mem_cons_self _ _)
      have htail : (b :: rest).Pairwise (· < ·) := (List.pairwise_cons.mp hB).2
      have hchain : chainRanges (a :: b :: rest)
          = (⟨a, b⟩ : BRange) :: chainRanges (b :: rest) := by
        rw [show chainRanges (a :: b :: rest) = mkRange a b :: chainRanges (b :: rest)
            from rfl, mkRange_of_le hab.le]
      rw [hchain] at hp
      cases rest with
      | nil => simp [chainRanges] at hp
      | cons c rest' =>
        have hbc : b < c := (List.pairwise_cons.mp htail).1 c (List.mem_cons_self _ _)
        have hchain2 : chainRanges (b :: c :: rest')
            = (⟨b, c⟩ : BRange) :: chainRanges (c :: rest') := by
          rw [show chainRanges (b :: c :: rest')
              = mkRange b c :: chainRanges (c :: rest') from rfl, mkRange_of_le hbc.le]
        rw [List.tail_cons, hchain2, List.zip_cons_cons, ← hchain2] at hp
        rcases List.mem_cons.mp hp with hp' | hp'
        · refine ⟨?_, ?_, ?_⟩
          · rw [hchain, hp']
            exact List.mem_cons_self _ _
          · rw [hchain, hchain2, hp']
            exact List.mem_cons_of_mem _ (List.mem_cons_self _ _)
          · rw [hp']
        · have hp'' : p ∈ (chainRanges (b :: c :: rest')).zip
              (chainRanges (b :: c :: rest')).tail := by
            rw [hchain2, List.tail_cons, ← hchain2]
            exact hp'
          obtain ⟨hm1, hm2, hadj⟩ := ih htail hp''
          refine ⟨?_, ?_, hadj⟩
          · rw [hchain]
            exact List.mem_cons_of_mem _ hm1
          · rw [hchain]
            exact List.mem_cons_of_mem _ hm2

theorem chainCells_nodup {B : List ℚ} (hB : B.Pairwise (· < ·)) :
    (chainRanges B).Nodup := by
  refine List.Pairwise.imp_of_mem ?_ (chainCells_pairwise hB)
  intro c c' hc hc' hle
  have h1 := (chainCell_mem hB hc).2.2.1
  intro hEq
  rw [hEq] at h1
  have : c'.finish ≤ c'.start := by
    rw [← hEq] at hle
    rw [hEq] at hle
    exact hle
  linarith

theorem breakpoints_mem : ∀ {l : List BRange} {v : ℚ}, v ∈ breakpoints l →
    ∃ r ∈ l, v = r.start ∨ v = r.finish := by
  intro l
  induction l with
  | nil => intro v hv; simp [breakpoints] at hv
  | cons a t ih =>
    intro v hv
    cases t with
    | nil =>
      rw [show breakpoints [a] = [a.start, a.finish] from rfl] at hv
      rcases List.mem_cons.mp hv with hv' | hv'
      · exact ⟨a, List.mem_cons_self _ _, Or.inl hv'⟩
      · rcases List.mem_cons.mp hv' with hv'' | hv''
        · exact ⟨a, List.mem_cons_self _ _, Or.inr hv''⟩
        · cases hv''
    | cons b t' =>
      rw [show breakpoints (a :: b :: t') = a.start :: breakpoints (b :: t') from rfl]
        at hv
      rcases List.mem_cons.mp hv with hv' | hv'
      · exact ⟨a, List.mem_cons_self _ _, Or.inl hv'⟩
      · obtain ⟨r, hr, hor⟩ := ih hv'
        exact ⟨r, List.mem_cons_of_mem _ hr, hor⟩

theorem breakpoints_head_start (b : BRange) (t : List BRange) :
    ∃ rest, breakpoints (b :: t) = b.start :: rest := by
  cases t with
  | nil => exact ⟨[b.finish], rfl⟩
  | cons c t' => exact ⟨breakpoints (c :: t'), rfl⟩

theorem endpoints_mem_breakpoints : ∀ {l : List BRange}, firstGap l = none →
    ∀ r ∈ l, r.start ∈ breakpoints l ∧ r.finish ∈ breakpoints l := by
  intro l
  induction l with
  | nil => intro _ r hr; cases hr
  | cons a t ih =>
    intro hgap r hr
    cases t with
    | nil =>
      have hra : r = a := by simpa using hr
      rw [hra, show breakpoints [a] = [a.start, a.finish] from rfl]
      exact ⟨List.mem_cons_self _ _, List.mem_cons_of_mem _ (List.mem_cons_self _ _)⟩
    | cons b t' =>
      rw [show firstGap (a :: b :: t')
          = (if a.finish = b.start then firstGap (b :: t')
             else some (a.finish, b.start)) from rfl] at hgap
      by_cases hadj : a.finish = b.start
      · rw [if_pos hadj] at hgap
        rw [show breakpoints (a :: b :: t') = a.start :: breakpoints (b :: t') from rfl]
        rcases List.mem_cons.mp hr with hr' | hr'
        · subst hr'
          refine ⟨List.mem_cons_self _ _, ?_⟩
          obtain ⟨rest, hrest⟩ := breakpoints_head_start b t'
          rw [hrest, hadj]
          exact List.mem_cons_of_mem _ (List.mem_cons_self _ _)
        · obtain ⟨h1, h2⟩ := ih hgap r hr'
          exact ⟨List.mem_cons_of_mem _ h1, List.mem_cons_of_mem _ h2⟩
      · rw [if_neg hadj] at hgap
        cases hgap

theorem flatten_some {l : List BRange} {bp : List ℚ} (h : flatten l = some bp) :
    bp = breakpoints (sortRanges l) ∧ firstGap (sortRanges l) = none := by
  have hidem : sortRanges (sortRanges l) = sortRanges l :=
    (List.sorted_insertionSort rle l).insertionSort_eq
  simp only [flatten, is_continuous] at h
  rw [hidem] at h
  cases hg : firstGap (sortRanges l) with
  | none =>
    rw [hg] at h
    exact ⟨(Option.some.inj h).symm, rfl⟩
  | some g =>
    rw [hg] at h
    cases h

theorem mem_sortRanges {l : List BRange} {r : BRange} : r ∈ sortRanges l ↔ r ∈ l :=
  (List.perm_insertionSort _ l).mem_iff

theorem mem_sortQ {l : List ℚ} {v : ℚ} : v ∈ sortQ l ↔ v ∈ l :=
  (List.perm_insertionSort _ l).mem_iff

theorem mem_sortPS {l : List PlotSegment} {q : PlotSegment} : q ∈ sortPS l ↔ q ∈ l :=
  (List.perm_insertionSort _ l).mem_iff

theorem dictLast_some {l : List PlotSegment} {hr : BRange} {q : PlotSegment}
    (h : dictLast l hr = some q) : q ∈ l ∧ q.heat_range = hr := by
  unfold dictLast at h
  have hmem := List.mem_of_find?_eq_some h
  have hpred := List.find?_some h
  exact ⟨List.mem_reverse.mp hmem, beq_iff_eq.mp hpred⟩

theorem dictLast_isSome {l : List PlotSegment} {hr : BRange} :
    (dictLast l hr).isSome ↔ ∃ q ∈ l, q.heat_range = hr := by
  unfold dictLast
  rw [List.find?_isSome]
  constructor
  · rintro ⟨q, hq, hpred⟩
    exact ⟨q, List.mem_reverse.mp hq, beq_iff_eq.mp hpred⟩
  · rintro ⟨q, hq, hpred⟩
    exact ⟨q, List.mem_reverse.mpr hq, beq_iff_eq.mpr hpred⟩

theorem mkPS_heat_range (a b c d : ℚ) (u : Option String) (st : StreamState)
    (rb : Bool) : (mkPS a b c d u st rb).heat_range = mkRange a b := rfl

theorem mem_get_plot_segments {A : List BRange} {P : List PlotSegment} {q : PlotSegment} :
    q ∈ get_plot_segments A P ↔ ∃ hr ∈ A, ∃ ps ∈ P,
      ps.contain_heats2 hr.start hr.finish ∧
      q = mkPS hr.start hr.finish (ps.temperature_at_heat hr.start)
        (ps.temperature_at_heat hr.finish) ps.uuid ps.state ps.reboiler_or_reactor := by
  unfold get_plot_segments
  rw [List.mem_flatMap]
  constructor
  · rintro ⟨hr, hA, hq⟩
    rw [List.mem_filterMap] at hq
    obtain ⟨ps, hP, hif⟩ := hq
    by_cases hc : ps.contain_heats2 hr.start hr.finish
    · rw [if_pos hc] at hif
      exact ⟨hr, hA, ps, hP, hc, (Option.some.inj hif).symm⟩
    · rw [if_neg hc] at hif
      cases hif
  · rintro ⟨hr, hA, ps, hP, hc, rfl⟩
    refine ⟨hr, hA, ?_⟩
    rw [List.mem_filterMap]
    exact ⟨ps, hP, by rw [if_pos hc]⟩

theorem dict_gps_isSome {B : List ℚ} (hsep : sepChain B = true)
    {A : List BRange} {P : List PlotSegment}
    (hA : ∀ r ∈ A, r.start ∈ B ∧ r.finish ∈ B ∧ r.start ≤ r.finish)
    (hP : ∀ ps ∈ P, ps.heat_range.start ∈ B ∧ ps.heat_range.finish ∈ B)
    {hr : BRange} (hhr : hr ∈ A) :
    (dictLast (get_plot_segments A P) hr).isSome
      ↔ ∃ ps ∈ P, ps.heat_range.start ≤ hr.start ∧ hr.finish ≤ ps.heat_range.finish := by
  rw [dictLast_isSome]
  constructor
  · rintro ⟨q, hq, hqr⟩
    rw [mem_get_plot_segments] at hq
    obtain ⟨hr', hA', ps, hPm, hc, rfl⟩ := hq
    have hwf' := (hA hr' hA').2.2
    have heq : hr' = hr := by
      rw [mkPS_heat_range, mkRange_of_le hwf'] at hqr
      exact hqr
    subst heq
    refine ⟨ps, hPm, ?_⟩
    exact (contain_heats2_exact hsep (hP ps hPm).1 (hP ps hPm).2 (hA hr' hA').1
      (hA hr' hA').2.1 (hA hr' hA').2.2).mp hc
  · rintro ⟨ps, hPm, hsub⟩
    refine ⟨mkPS hr.start hr.finish (ps.temperature_at_heat hr.start)
      (ps.temperature_at_heat hr.finish) ps.uuid ps.state ps.reboiler_or_reactor, ?_, ?_⟩
    · rw [mem_get_plot_segments]
      refine ⟨hr, hhr, ps, hPm, ?_, rfl⟩
      exact (contain_heats2_exact hsep (hP ps hPm).1 (hP ps hPm).2 (hA hr hhr).1
        (hA hr hhr).2.1 (hA hr hhr).2.2).mpr hsub
    · rw [mkPS_heat_range, mkRange_of_le (hA hr hhr).2.2]

theorem mergeRanges_adj {r1 r2 : BRange} (hadj : r1.finish = r2.start)
    (h1 : r1.start < r1.finish) (h2 : r2.start < r2.finish) {mh : BRange}
    (hm : mergeRanges r1 r2 = some mh) : mh = ⟨r1.start, r2.finish⟩ := by
  unfold mergeRanges at hm
  have hmge : r1.mergeable r2 := Or.inr hadj
  rw [if_neg (not_not_intro hmge)] at hm
  have hne : ¬(r1.start = r2.finish) := by
    intro hcontra
    rw [← hadj] at h2
    linarith
  rw [if_neg hne] at hm
  have hv := Option.some.inj hm
  rw [← hv]
  exact mkRange_of_le (by rw [← hadj] at h2; linarith)

theorem mergeStep_cases {hd cd : BRange → Option PlotSegment}
    (hhd : ∀ r q, hd r = some q → q.heat_range = r)
    {acc0 : List BRange × List PlotSegment × List PlotSegment} {p : BRange × BRange}
    {acc1 : List BRange × List PlotSegment × List PlotSegment}
    (h : mergeStep hd cd acc0 p = .ok acc1) :
    acc1 = acc0 ∨
    ((hd p.1).isSome ∧ (cd p.1).isSome ∧ (hd p.2).isSome ∧ (cd p.2).isSome ∧
     ∃ mh qh qc, mergeRanges p.1 p.2 = some mh ∧
       qh.heat_range = mkRange mh.start mh.finish ∧
       qc.heat_range = mkRange mh.start mh.finish ∧
       acc1 = (acc0.1 ++ [p.1, p.2], acc0.2.1 ++ [qh], acc0.2.2 ++ [qc])) := by
  unfold mergeStep at h
  cases hh1 : hd p.1 with
  | none => rw [hh1] at h; simp at h; exact Or.inl h.symm
  | some h1 =>
    cases hc1 : cd p.1 with
    | none => rw [hh1, hc1] at h; simp at h; exact Or.inl h.symm
    | some c1 =>
      cases hh2 : hd p.2 with
      | none => rw [hh1, hc1, hh2] at h; simp at h; exact Or.inl h.symm
      | some h2 =>
        cases hc2 : cd p.2 with
        | none => rw [hh1, hc1, hh2, hc2] at h; simp at h; exact Or.inl h.symm
        | some c2 =>
          rw [hh1, hc1, hh2, hc2] at h
          by_cases hmg : h1.mergiable h2 ∧ c1.mergiable c2
          · rw [show (match some h1, some c1, some h2, some c2 with
              | some h1, some c1, some h2, some c2 =>
                if h1.mergiable h2 ∧ c1.mergiable c2 then
                  match mergeRanges h1.heat_range h2.heat_range,
                      mergeRanges h1.temperature_range h2.temperature_range,
                      mergeRanges c1.temperature_range c2.temperature_range with
                  | some mh, some mht, some mct =>
                    Except.ok (acc0.1 ++ [p.1, p.2],
                      acc0.2.1 ++ [mkPS mh.start mh.finish mht.start mht.finish h1.uuid],
                      acc0.2.2 ++ [mkPS mh.start mh.finish mct.start mct.finish c1.uuid])
                  | _, _, _ => Except.error "ranges are not mergeable"
                else Except.ok acc0
              | _, _, _, _ => Except.ok acc0)
              = (if h1.mergiable h2 ∧ c1.mergiable c2 then
                  match mergeRanges h1.heat_range h2.heat_range,
                      mergeRanges h1.temperature_range h2.temperature_range,
                      mergeRanges c1.temperature_range c2.temperature_range with
                  | some mh, some mht, some mct =>
                    Except.ok (acc0.1 ++ [p.1, p.2],
                      acc0.2.1 ++ [mkPS mh.start mh.finish mht.start mht.finish h1.uuid],
                      acc0.2.2 ++ [mkPS mh.start mh.finish mct.start mct.finish c1.uuid])
                  | _, _, _ => Except.error "ranges are not mergeable"
                else Except.ok acc0) from rfl, if_pos hmg] at h
            cases hm1 : mergeRanges h1.heat_range h2.heat_range with
            | none => rw [hm1] at h; simp at h
            | some mh0 =>
              cases hm2 : mergeRanges h1.temperature_range h2.temperature_range with
              | none => rw [hm1, hm2] at h; simp at h
              | some mht =>
                cases hm3 : mergeRanges c1.temperature_range c2.temperature_range with
                | none => rw [hm1, hm2, hm3] at h; simp at h
                | some mct =>
                  rw [hm1, hm2, hm3] at h
                  simp only [Except.ok.injEq] at h
                  right
                  have e1 : h1.heat_range = p.1 := hhd _ _ hh1
                  have e2 : h2.heat_range = p.2 := hhd _ _ hh2
                  exact ⟨rfl, rfl, rfl, rfl,
                    mh0, mkPS mh0.start mh0.finish mht.start mht.finish h1.uuid,
                    mkPS mh0.start mh0.finish mct.start mct.finish c1.uuid,
                    by rw [← e1, ← e2]; exact hm1, rfl, rfl, h.symm⟩
          · rw [show (match some h1, some c1, some h2, some c2 with
              | some h1, some c1, some h2, some c2 =>
                if h1.mergiable h2 ∧ c1.mergiable c2 then
                  match mergeRanges h1.heat_range h2.heat_range,
                      mergeRanges h1.temperature_range h2.temperature_range,
                      mergeRanges c1.temperature_range c2.temperature_range with
                  | some mh, some mht, some mct =>
                    Except.ok (acc0.1 ++ [p.1, p.2],
                      acc0.2.1 ++ [mkPS mh.start mh.finish mht.start mht.finish h1.uuid],
                      acc0.2.2 ++ [mkPS mh.start mh.finish mct.start mct.finish c1.uuid])
                  | _, _, _ => Except.error "ranges are not mergeable"
                else Except.ok acc0
              | _, _, _, _ => Except.ok acc0)
              = (if h1.mergiable h2 ∧ c1.mergiable c2 then
                  match mergeRanges h1.heat_range h2.heat_range,
                      mergeRanges h1.temperature_range h2.temperature_range,
                      mergeRanges c1.temperature_range c2.temperature_range with
                  | some mh, some mht, some mct =>
                    Except.ok (acc0.1 ++ [p.1, p.2],
                      acc0.2.1 ++ [mkPS mh.start mh.finish mht.start mht.finish h1.uuid],
                      acc0.2.2 ++ [mkPS mh.start mh.finish mct.start mct.finish c1.uuid])
                  | _, _, _ => Except.error "ranges are not mergeable"
                else Except.ok acc0) from rfl, if_neg hmg] at h
            exact Or.inl (Except.ok.inj h).symm

theorem MergeEvent_lift {hd cd : BRange → Option PlotSegment} {p : BRange × BRange}
    {ps : List (BRange × BRange)} {H C : List PlotSegment} {r1 r2 : BRange}
    (h : MergeEvent hd cd ps H C r1 r2) : MergeEvent hd cd (p :: ps) H C r1 r2 := by
  obtain ⟨h0, h1, h2, h3, h4, mh, hm, hH, hC⟩ := h
  exact ⟨List.mem_cons_of_mem _ h0, h1, h2, h3, h4, mh, hm, hH, hC⟩

theorem MergedPiece_lift {hd cd : BRange → Option PlotSegment} {p : BRange × BRange}
    {ps : List (BRange × BRange)} {q : PlotSegment}
    (h : MergedPiece hd cd ps q) : MergedPiece hd cd (p :: ps) q := by
  obtain ⟨r1, r2, mh, h0, h1, h2, h3, h4, hm, hq⟩ := h
  exact ⟨r1, r2, mh, List.mem_cons_of_mem _ h0, h1, h2, h3, h4, hm, hq⟩

theorem mergeFold_char {hd cd : BRange → Option PlotSegment}
    (hhd : ∀ r q, hd r = some q → q.heat_range = r) :
    ∀ (pairs : List (BRange × BRange))
      (acc0 acc : List BRange × List PlotSegment × List PlotSegment),
    pairs.foldlM (mergeStep hd cd) acc0 = .ok acc →
    (acc0.1 ⊆ acc.1 ∧ acc0.2.1 ⊆ acc.2.1 ∧ acc0.2.2 ⊆ acc.2.2)
    ∧ (∀ r ∈ acc.1, r ∈ acc0.1
        ∨ ∃ r1 r2, MergeEvent hd cd pairs acc.2.1 acc.2.2 r1 r2 ∧ (r = r1 ∨ r = r2))
    ∧ (∀ q ∈ acc.2.1, q ∈ acc0.2.1 ∨ MergedPiece hd cd pairs q)
    ∧ (∀ q ∈ acc.2.2, q ∈ acc0.2.2 ∨ MergedPiece hd cd pairs q) := by
  intro pairs
  induction pairs with
  | nil =>
    intro acc0 acc h
    rw [List.foldlM_nil] at h
    have hacc : acc0 = acc := Except.ok.inj h
    subst hacc
    exact ⟨⟨List.Subset.refl _, List.Subset.refl _, List.Subset.refl _⟩,
      fun r hr => Or.inl hr, fun q hq => Or.inl hq, fun q hq => Or.inl hq⟩
  | cons p ps ih =>
    intro acc0 acc h
    rw [List.foldlM_cons] at h
    obtain ⟨acc1, hstep, hrest⟩ := except_bind_ok _ _ _ h
    obtain ⟨hmono, hM, hH, hC⟩ := ih acc1 acc hrest
    rcases mergeStep_cases hhd hstep with hacc | ⟨hs1, hs2, hs3, hs4, mh, qh, qc, hm, hqh, hqc, hacc⟩
    · subst hacc
      refine ⟨hmono, ?_, ?_, ?_⟩
      · intro r hr
        rcases hM r hr with hr' | ⟨r1, r2, hev, hor⟩
        · exact Or.inl hr'
        · exact Or.inr ⟨r1, r2, MergeEvent_lift hev, hor⟩
      · intro q hq
        rcases hH q hq with hq' | hpc
        · exact Or.inl hq'
        · exact Or.inr (MergedPiece_lift hpc)
      · intro q hq
        rcases hC q hq with hq' | hpc
        · exact Or.inl hq'
        · exact Or.inr (MergedPiece_lift hpc)
    · subst hacc
      have hsub1 : acc0.1 ⊆ acc.1 := fun x hx => hmono.1 (List.mem_append_left _ hx)
      have hsub2 : acc0.2.1 ⊆ acc.2.1 := fun x hx => hmono.2.1 (List.mem_append_left _ hx)
      have hsub3 : acc0.2.2 ⊆ acc.2.2 := fun x hx => hmono.2.2 (List.mem_append_left _ hx)
      have hqhmem : qh ∈ acc.2.1 :=
        hmono.2.1 (List.mem_append_right _ (List.mem_cons_self _ _))
      have hqcmem : qc ∈ acc.2.2 :=
        hmono.2.2 (List.mem_append_right _ (List.mem_cons_self _ _))
      have hev : MergeEvent hd cd (p :: ps) acc.2.1 acc.2.2 p.1 p.2 :=
        ⟨List.mem_cons_self _ _, hs1, hs2, hs3, hs4, mh, hm,
          ⟨qh, hqhmem, hqh⟩, ⟨qc, hqcmem, hqc⟩⟩
      have hpieceH : MergedPiece hd cd (p :: ps) qh :=
        ⟨p.1, p.2, mh, List.mem_cons_self _ _, hs1, hs2, hs3, hs4, hm, hqh⟩
      have hpieceC : MergedPiece hd cd (p :: ps) qc :=
        ⟨p.1, p.2, mh, List.mem_cons_self _ _, hs1, hs2, hs3, hs4, hm, hqc⟩
      refine ⟨⟨hsub1, hsub2, hsub3⟩, ?_, ?_, ?_⟩
      · intro r hr
        rcases hM r hr with hr' | ⟨r1, r2, hev', hor⟩
        · rcases List.mem_append.mp hr' with hx | hx
          · exact Or.inl hx
          · refine Or.inr ⟨p.1, p.2, hev, ?_⟩
            rcases List.mem_cons.mp hx with hx' | hx'
            · exact Or.inl hx'
            · exact Or.inr (by simpa using hx')
        · exact Or.inr ⟨r1, r2, MergeEvent_lift hev', hor⟩
      · intro q hq
        rcases hH q hq with hq' | hpc
        · rcases List.mem_append.mp hq' with hx | hx
          · exact Or.inl hx
          · have hxq : q = qh := by simpa using hx
            subst hxq
            exact Or.inr hpieceH
        · exact Or.inr (MergedPiece_lift hpc)
      · intro q hq
        rcases hC q hq with hq' | hpc
        · rcases List.mem_append.mp hq' with hx | hx
          · exact Or.inl hx
          · have hxq : q = qc := by simpa using hx
            subst hxq
            exact Or.inr hpieceC
        · exact Or.inr (MergedPiece_lift hpc)

theorem brange_contains_iff {l : List BRange} {r : BRange} :
    l.contains r = true ↔ r ∈ l := List.elem_iff

theorem brange_not_contains {l : List BRange} {r : BRange} :
    (!(l.contains r)) = true ↔ r ∉ l := by
  rw [Bool.not_eq_true']
  constructor
  · intro h hmem
    rw [brange_contains_iff.mpr hmem] at h
    cases h
  · intro h
    cases hc : l.contains r with
    | false => rfl
    | true => exact absurd (brange_contains_iff.mp hc) h

theorem mem_merge_final {pool merged : List PlotSegment} {M : List BRange}
    {q : PlotSegment} :
    q ∈ sortPS ((pool.filter (fun ps => !(M.contains ps.heat_range))) ++ merged)
      ↔ (q ∈ pool ∧ q.heat_range ∉ M) ∨ q ∈ merged := by
  rw [mem_sortPS, List.mem_append, List.mem_filter, brange_not_contains]

theorem merge_segments_ok {segs : List Segment} {MH MC : List PlotSegment}
    {heats : List ℚ}
    (hh : flatten (sortRanges (segs.flatMap (·.heat_ranges))) = some heats)
    (h : merge_segments segs = .ok (MH, MC)) :
    ∃ acc, ((get_ranges heats).zip (get_ranges heats).tail).foldlM
        (mergeStep (dictLast (splitted_hot_pool segs))
          (dictLast (splitted_cold_pool segs))) ([], [], []) = .ok acc
      ∧ MH = sortPS ((splitted_hot_pool segs).filter
          (fun ps => !(acc.1.contains ps.heat_range)) ++ acc.2.1)
      ∧ MC = sortPS ((splitted_cold_pool segs).filter
          (fun ps => !(acc.1.contains ps.heat_range)) ++ acc.2.2) := by
  simp only [merge_segments] at h
  split at h
  · rename_i heq
    rw [hh] at heq
    exact Option.noConfusion heq
  · rename_i hs heq
    rw [hh] at heq
    have hse : hs = heats := (Option.some.inj heq).symm
    subst hse
    obtain ⟨acc, hfold, hpure⟩ := except_bind_ok _ _ _ h
    have hret := Except.ok.inj hpure
    exact ⟨acc, hfold, (congrArg Prod.fst hret).symm, (congrArg Prod.snd hret).symm⟩

theorem exchangerMatches_ok {MH MC : List PlotSegment}
    {ex : List (BRange × PlotSegment × PlotSegment)}
    (h : exchangerMatches MH MC = .ok ex) :
    ∃ A, get_merged_heat_ranges [MH.map (·.heat_range), MC.map (·.heat_range)] = some A
      ∧ ex = A.filterMap (fun hr =>
          match dictLast (get_plot_segments A MH) hr,
              dictLast (get_plot_segments A MC) hr with
          | some hq, some cq => some (hr, hq, cq)
          | _, _ => none) := by
  unfold exchangerMatches at h
  split at h
  · simp at h
  · rename_i A heq
    exact ⟨A, heq, (Except.ok.inj h).symm⟩

theorem get_merged_ok {l1 l2 : List BRange} {A : List BRange}
    (h : get_merged_heat_ranges [l1, l2] = some A) :
    ∃ f1 f2, flatten l1 = some f1 ∧ flatten l2 = some f2
      ∧ A = get_ranges (f1 ++ f2).dedup := by
  unfold get_merged_heat_ranges at h
  rw [List.mapM_cons, List.mapM_cons, List.mapM_nil] at h
  cases hf1 : flatten l1 with
  | none => rw [hf1] at h; simp at h
  | some f1 =>
    cases hf2 : flatten l2 with
    | none => rw [hf1, hf2] at h; simp at h
    | some f2 =>
      rw [hf1, hf2] at h
      simp only [Option.pure_def, Option.bind_some, Option.bind_eq_bind,
        Option.some_bind, List.flatten_cons, List.flatten_nil, List.append_nil,
        Option.some.injEq] at h
      exact ⟨f1, f2, rfl, rfl, h.symm⟩

theorem all_contains_mem {pool : List PlotSegment} {R : List BRange}
    (h : pool.all (fun ps => R.contains ps.heat_range) = true) :
    ∀ ps ∈ pool, ps.heat_range ∈ R := by
  rw [List.all_eq_true] at h
  intro ps hps
  exact brange_contains_iff.mp (h ps hps)

theorem sorted_nodup_strict {l : List ℚ} (hs : l.Pairwise (· ≤ ·)) (hn : l.Nodup) :
    l.Pairwise (· < ·) :=
  (hs.and hn).imp (fun h => lt_of_le_of_ne h.1 h.2)

theorem cover_isSome_core {B : List ℚ} (hB : B.Pairwise (· < ·))
    {pool : List PlotSegment} {q : PlotSegment}
    (hchar : (q ∈ pool ∧ q.heat_range ∈ chainRanges B)
      ∨ ∃ r1 r2, r1 ∈ chainRanges B ∧ r2 ∈ chainRanges B ∧ r1.finish = r2.start
          ∧ q.heat_range = (⟨r1.start, r2.finish⟩ : BRange)
          ∧ (dictLast pool r1).isSome ∧ (dictLast pool r2).isSome)
    {c : BRange} (hc : c ∈ chainRanges B)
    (hcs : q.heat_range.start ≤ c.start) (hcf : c.finish ≤ q.heat_range.finish) :
    (dictLast pool c).isSome := by
  rcases hchar with ⟨hq, hqr⟩ | ⟨r1, r2, h1, h2, hadj, hrange, hs1, hs2⟩
  · have hcq : c = q.heat_range := chainCell_nested hB hc hqr hcs hcf
    rw [hcq]
    exact dictLast_isSome.mpr ⟨q, hq, rfl⟩
  · rw [hrange] at hcs hcf
    rcases chainCell_in_pair hB hc h1 h2 hadj hcs hcf with rfl | rfl
    · exact hs1
    · exact hs2

theorem cell_inside_cover {B' : List ℚ} (hB' : B'.Pairwise (· < ·)) {a : BRange}
    (ha : a ∈ chainRanges B') {xs xf rs rf : ℚ}
    (hxs : xs ∈ B') (hxf : xf ∈ B') (h1 : xs ≤ rs) (h2 : rf ≤ xf) (h3 : rs < rf)
    (h4 : a.start ≤ rs) (h5 : rf ≤ a.finish) :
    xs ≤ a.start ∧ a.finish ≤ xf := by
  have hni := (chainCell_mem hB' ha).2.2.2
  constructor
  · by_contra hlt
    push_neg at hlt
    exact hni xs hxs ⟨hlt, by linarith⟩
  · by_contra hlt
    push_neg at hlt
    exact hni xf hxf ⟨by linarith, hlt⟩

theorem range_shape_endpoints {B : List ℚ} (hB : B.Pairwise (· < ·)) {q : PlotSegment}
    (hshape : q.heat_range ∈ chainRanges B
      ∨ ∃ r1 r2, r1 ∈ chainRanges B ∧ r2 ∈ chainRanges B ∧ r1.finish = r2.start
          ∧ q.heat_range = (⟨r1.start, r2.finish⟩ : BRange)) :
    q.heat_range.start ∈ B ∧ q.heat_range.finish ∈ B
      ∧ q.heat_range.start < q.heat_range.finish := by
  rcases hshape with hqr | ⟨r1, r2, h1, h2, hadj, hrange⟩
  · obtain ⟨hs, hf, hlt, _⟩ := chainCell_mem hB hqr
    exact ⟨hs, hf, hlt⟩
  · have hm1 := chainCell_mem hB h1
    have hm2 := chainCell_mem hB h2
    rw [hrange]
    exact ⟨hm1.1, hm2.2.1, by have := hm1.2.2.1; have := hm2.2.2.1; linarith [hadj]⟩

theorem final_hot_char {B : List ℚ} (hB : B.Pairwise (· < ·))
    {poolH poolC : List PlotSegment}
    (hkeyH : ∀ ps ∈ poolH, ps.heat_range ∈ chainRanges B)
    {acc : List BRange × List PlotSegment × List PlotSegment}
    (hfold : ((chainRanges B).zip (chainRanges B).tail).foldlM
        (mergeStep (dictLast poolH) (dictLast poolC)) ([], [], []) = .ok acc)
    {q : PlotSegment}
    (hq : q ∈ sortPS ((poolH.filter (fun ps => !(acc.1.contains ps.heat_range)))
        ++ acc.2.1)) :
    (q ∈ poolH ∧ q.heat_range ∈ chainRanges B)
      ∨ ∃ r1 r2, r1 ∈ chainRanges B ∧ r2 ∈ chainRanges B ∧ r1.finish = r2.start
          ∧ q.heat_range = (⟨r1.start, r2.finish⟩ : BRange)
          ∧ (dictLast poolH r1).isSome ∧ (dictLast poolC r1).isSome
          ∧ (dictLast poolH r2).isSome ∧ (dictLast poolC r2).isSome := by
  rcases mem_merge_final.mp hq with ⟨hpool, _⟩ | hmerged
  · exact Or.inl ⟨hpool, hkeyH q hpool⟩
  · have hchar := (mergeFold_char (fun r p hp => (dictLast_some hp).2)
      _ _ _ hfold).2.2.1 q hmerged
    rcases hchar with hnil | hpc
    · cases hnil
    · obtain ⟨r1, r2, mh, hpair, hs1, hs2, hs3, hs4, hm, hqr⟩ := hpc
      obtain ⟨h1, h2, hadj⟩ := chain_zip_mem hB hpair
      have h1pos := (chainCell_mem hB h1).2.2.1
      have h2pos := (chainCell_mem hB h2).2.2.1
      have hmh := mergeRanges_adj hadj h1pos h2pos hm
      subst hmh
      refine Or.inr ⟨r1, r2, h1, h2, hadj, ?_, hs1, hs2, hs3, hs4⟩
      rw [hqr]
      exact mkRange_of_le (by linarith [hadj])

theorem final_cold_char {B : List ℚ} (hB : B.Pairwise (· < ·))
    {poolH poolC : List PlotSegment}
    (hkeyC : ∀ ps ∈ poolC, ps.heat_range ∈ chainRanges B)
    {acc : List BRange × List PlotSegment × List PlotSegment}
    (hfold : ((chainRanges B).zip (chainRanges B).tail).foldlM
        (mergeStep (dictLast poolH) (dictLast poolC)) ([], [], []) = .ok acc)
    {q : PlotSegment}
    (hq : q ∈ sortPS ((poolC.filter (fun ps => !(acc.1.contains ps.heat_range)))
        ++ acc.2.2)) :
    (q ∈ poolC ∧ q.heat_range ∈ chainRanges B)
      ∨ ∃ r1 r2, r1 ∈ chainRanges B ∧ r2 ∈ chainRanges B ∧ r1.finish = r2.start
          ∧ q.heat_range = (⟨r1.start, r2.finish⟩ : BRange)
          ∧ (dictLast poolH r1).isSome ∧ (dictLast poolC r1).isSome
          ∧ (dictLast poolH r2).isSome ∧ (dictLast poolC r2).isSome := by
  rcases mem_merge_final.mp hq with ⟨hpool, _⟩ | hmerged
  · exact Or.inl ⟨hpool, hkeyC q hpool⟩
  · have hchar := (mergeFold_char (fun r p hp => (dictLast_some hp).2)
      _ _ _ hfold).2.2.2 q hmerged
    rcases hchar with hnil | hpc
    · cases hnil
    · obtain ⟨r1, r2, mh, hpair, hs1, hs2, hs3, hs4, hm, hqr⟩ := hpc
      obtain ⟨h1, h2, hadj⟩ := chain_zip_mem hB hpair
      have h1pos := (chainCell_mem hB h1).2.2.1
      have h2pos := (chainCell_mem hB h2).2.2.1
      have hmh := mergeRanges_adj hadj h1pos h2pos hm
      subst hmh
      refine Or.inr ⟨r1, r2, h1, h2, hadj, ?_, hs1, hs2, hs3, hs4⟩
      rw [hqr]
      exact mkRange_of_le (by linarith [hadj])

theorem matched_to_final_cover_hot {B : List ℚ} (hB : B.Pairwise (· < ·))
    {poolH poolC : List PlotSegment}
    {acc : List BRange × List PlotSegment × List PlotSegment}
    (hfold : ((chainRanges B).zip (chainRanges B).tail).foldlM
        (mergeStep (dictLast poolH) (dictLast poolC)) ([], [], []) = .ok acc)
    {c : BRange} (hc : c ∈ chainRanges B)
    (hsome : (dictLast poolH c).isSome) :
    ∃ q ∈ sortPS ((poolH.filter (fun ps => !(acc.1.contains ps.heat_range)))
        ++ acc.2.1),
      q.heat_range.start ≤ c.start ∧ c.finish ≤ q.heat_range.finish := by
  obtain ⟨hp0, hp0mem, hp0r⟩ := dictLast_isSome.mp hsome
  by_cases hin : c ∈ acc.1
  · have hchar := (mergeFold_char (fun r p hp => (dictLast_some hp).2)
      _ _ _ hfold).2.1 c hin
    rcases hchar with hnil | ⟨r1, r2, hev, hor⟩
    · cases hnil
    · obtain ⟨hpair, he1, he2, he3, he4, mh, hm, ⟨qh, hqhmem, hqhr⟩, _⟩ := hev
      obtain ⟨h1, h2, hadj⟩ := chain_zip_mem hB hpair
      have h1pos := (chainCell_mem hB h1).2.2.1
      have h2pos := (chainCell_mem hB h2).2.2.1
      have hmh := mergeRanges_adj hadj h1pos h2pos hm
      subst hmh
      have hqr : qh.heat_range = (⟨r1.start, r2.finish⟩ : BRange) := by
        rw [hqhr]
        exact mkRange_of_le (by linarith [hadj])
      refine ⟨qh, mem_merge_final.mpr (Or.inr hqhmem), ?_, ?_⟩
      · rw [hqr]
        rcases hor with rfl | rfl
        · exact le_refl _
        · linarith [hadj]
      · rw [hqr]
        rcases hor with rfl | rfl
        · linarith [hadj]
        · exact le_refl _
  · refine ⟨hp0, mem_merge_final.mpr (Or.inl ⟨hp0mem, by rw [hp0r]; exact hin⟩),
      le_of_eq (congrArg BRange.start hp0r),
      le_of_eq (congrArg BRange.finish hp0r).symm⟩

theorem matched_to_final_cover_cold {B : List ℚ} (hB : B.Pairwise (· < ·))
    {poolH poolC : List PlotSegment}
    {acc : List BRange × List PlotSegment × List PlotSegment}
    (hfold : ((chainRanges B).zip (chainRanges B).tail).foldlM
        (mergeStep (dictLast poolH) (dictLast poolC)) ([], [], []) = .ok acc)
    {c : BRange} (hc : c ∈ chainRanges B)
    (hsome : (dictLast poolC c).isSome) :
    ∃ q ∈ sortPS ((poolC.filter (fun ps => !(acc.1.contains ps.heat_range)))
        ++ acc.2.2),
      q.heat_range.start ≤ c.start ∧ c.finish ≤ q.heat_range.finish := by
  obtain ⟨cp0, hcp0mem, hcp0r⟩ := dictLast_isSome.mp hsome
  by_cases hin : c ∈ acc.1
  · have hchar := (mergeFold_char (fun r p hp => (dictLast_some hp).2)
      _ _ _ hfold).2.1 c hin
    rcases hchar with hnil | ⟨r1, r2, hev, hor⟩
    · cases hnil
    · obtain ⟨hpair, he1, he2, he3, he4, mh, hm, _, ⟨qc, hqcmem, hqcr⟩⟩ := hev
      obtain ⟨h1, h2, hadj⟩ := chain_zip_mem hB hpair
      have h1pos := (chainCell_mem hB h1).2.2.1
      have h2pos := (chainCell_mem hB h2).2.2.1
      have hmh := mergeRanges_adj hadj h1pos h2pos hm
      subst hmh
      have hqr : qc.heat_range = (⟨r1.start, r2.finish⟩ : BRange) := by
        rw [hqcr]
        exact mkRange_of_le (by linarith [hadj])
      refine ⟨qc, mem_merge_final.mpr (Or.inr hqcmem), ?_, ?_⟩
      · rw [hqr]
        rcases hor with rfl | rfl
        · exact le_refl _
        · linarith [hadj]
      · rw [hqr]
        rcases hor with rfl | rfl
        · linarith [hadj]
        · exact le_refl _
  · refine ⟨cp0, mem_merge_final.mpr (Or.inl ⟨hcp0mem, by rw [hcp0r]; exact hin⟩),
      le_of_eq (congrArg BRange.start hcp0r),
      le_of_eq (congrArg BRange.finish hcp0r).symm⟩

theorem final_breakpoints_sub {curve : List PlotSegment} {f1 : List ℚ}
    (hf : flatten (curve.map (·.heat_range)) = some f1)
    {B : List ℚ}
    (hend : ∀ q ∈ curve, q.heat_range.start ∈ B ∧ q.heat_range.finish ∈ B) :
    ∀ v ∈ f1, v ∈ B := by
  obtain ⟨hbp, _⟩ := flatten_some hf
  intro v hv
  rw [hbp] at hv
  obtain ⟨r, hr, hor⟩ := breakpoints_mem hv
  rw [mem_sortRanges] at hr
  obtain ⟨q, hq, hqr⟩ := List.mem_map.mp hr
  rcases hor with rfl | rfl
  · rw [← hqr]
    exact (hend q hq).1
  · rw [← hqr]
    exact (hend q hq).2

theorem final_endpoints_in_bp {curve : List PlotSegment} {f1 : List ℚ}
    (hf : flatten (curve.map (·.heat_range)) = some f1)
    {q : PlotSegment} (hq : q ∈ curve) :
    q.heat_range.start ∈ f1 ∧ q.heat_range.finish ∈ f1 := by
  obtain ⟨hbp, hgap⟩ := flatten_some hf
  have hmem : q.heat_range ∈ sortRanges (curve.map (·.heat_range)) :=
    mem_sortRanges.mpr (List.mem_map.mpr ⟨q, hq, rfl⟩)
  rw [hbp]
  exact endpoints_mem_breakpoints hgap _ hmem

theorem filterMap_match_fst (hd cd : BRange → Option PlotSegment) :
    ∀ (A : List BRange),
    ((A.filterMap (fun hr => match hd hr, cd hr with
        | some hq, some cq => some (hr, hq, cq)
        | _, _ => none)).map (fun t => t.1))
      = A.filter (fun hr => (hd hr).isSome && (cd hr).isSome) := by
  intro A
  induction A with
  | nil => rfl
  | cons a t ih =>
    simp only [List.filterMap_cons, List.filter_cons]
    cases hh : hd a with
    | none => simpa [hh] using ih
    | some hq =>
      cases hc : cd a with
      | none => simpa [hh, hc] using ih
      | some cq => simpa [hh, hc] using ih

theorem partition_sum_count {A R : List BRange}
    (hAnd : A.Nodup) (hRnd : R.Nodup)
    (TR : BRange → List BRange)
    (hTRsub : ∀ a ∈ A, ∀ c ∈ TR a, c ∈ R)
    (hTRne : ∀ a ∈ A, TR a ≠ [])
    (hTRnd : ∀ a, (TR a).Nodup)
    (hcover : ∀ c ∈ R, ∃ a ∈ A, c ∈ TR a)
    (hdisj : ∀ a ∈ A, ∀ a' ∈ A, a ≠ a' → ∀ c, c ∈ TR a → c ∈ TR a' → False)
    (hsum : ∀ a ∈ A, ((TR a).map BRange.delta).sum = a.delta) :
    A.length ≤ R.length ∧ (A.map BRange.delta).sum = (R.map BRange.delta).sum := by
  classical
  have hgdisj : ∀ x ∈ A.toFinset, ∀ y ∈ A.toFinset, x ≠ y →
      Disjoint ((TR x).toFinset) ((TR y).toFinset) := by
    intro x hx y hy hxy
    rw [List.mem_toFinset] at hx hy
    rw [Finset.disjoint_left]
    intro c hcx hcy
    exact hdisj x hx y hy hxy c (List.mem_toFinset.mp hcx) (List.mem_toFinset.mp hcy)
  have huni : R.toFinset = A.toFinset.biUnion (fun a => (TR a).toFinset) := by
    ext c
    simp only [List.mem_toFinset, Finset.mem_biUnion]
    constructor
    · intro hc
      obtain ⟨a, ha, hca⟩ := hcover c hc
      exact ⟨a, ha, hca⟩
    · rintro ⟨a, ha, hca⟩
      exact hTRsub a ha c hca
  have hpwd : (↑A.toFinset : Set BRange).PairwiseDisjoint
      (fun a => (TR a).toFinset) := by
    intro x hx y hy hxy
    exact hgdisj x (Finset.mem_coe.mp hx) y (Finset.mem_coe.mp hy) hxy
  constructor
  · have hcard : R.toFinset.card
        = ∑ a in A.toFinset, ((TR a).toFinset).card := by
      rw [huni]
      exact Finset.card_biUnion hgdisj
    have hone : ∀ a ∈ A.toFinset, 1 ≤ ((TR a).toFinset).card := by
      intro a ha
      rw [Nat.succ_le_iff, Finset.card_pos]
      obtain ⟨c, hc⟩ := List.exists_mem_of_ne_nil _ (hTRne a (List.mem_toFinset.mp ha))
      exact ⟨c, List.mem_toFinset.mpr hc⟩
    calc A.length = A.toFinset.card := (List.toFinset_card_of_nodup hAnd).symm
      _ = ∑ _a in A.toFinset, 1 := Finset.card_eq_sum_ones _
      _ ≤ ∑ a in A.toFinset, ((TR a).toFinset).card := Finset.sum_le_sum hone
      _ = R.toFinset.card := hcard.symm
      _ = R.length := List.toFinset_card_of_nodup hRnd
  · calc (A.map BRange.delta).sum
        = A.toFinset.sum BRange.delta := (List.sum_toFinset _ hAnd).symm
      _ = ∑ a in A.toFinset, ((TR a).map BRange.delta).sum :=
        Finset.sum_congr rfl (fun a ha => (hsum a (List.mem_toFinset.mp ha)).symm)
      _ = ∑ a in A.toFinset, (TR a).toFinset.sum BRange.delta :=
        Finset.sum_congr rfl (fun a _ => (List.sum_toFinset _ (hTRnd a)).symm)
      _ = (A.toFinset.biUnion (fun a => (TR a).toFinset)).sum BRange.delta :=
        (Finset.sum_biUnion hpwd).symm
      _ = R.toFinset.sum BRange.delta := by rw [huni]
      _ = (R.map BRange.delta).sum := List.sum_toFinset _ hRnd

/-- C3 (amended): for every segment list entering the merge step whose
shared heat partition is well separated (adjacent breakpoints further
apart than twice the containment tolerance) and whose splitted plot
segments all sit on cells of that partition, if the merge step and the
exchanger matching both succeed then the number of matched hot/cold
exchanger intervals after merging is at most the number of matched heat
ranges before merging, and the total heat duty summed over all final
exchanger intervals equals the total duty of the heat ranges that were
matched before merging. -/
theorem c3_amended {segs : List Segment} {MH MC : List PlotSegment}
    {ex : List (BRange × PlotSegment × PlotSegment)} {heats : List ℚ}
    (hh : flatten (sortRanges (segs.flatMap (·.heat_ranges))) = some heats)
    (hsep : sepChain (sortQ heats) = true)
    (hkeyH : (splitted_hot_pool segs).all
        (fun ps => (get_ranges heats).contains ps.heat_range) = true)
    (hkeyC : (splitted_cold_pool segs).all
        (fun ps => (get_ranges heats).contains ps.heat_range) = true)
    (hmerge : merge_segments segs = .ok (MH, MC))
    (hex : exchangerMatches MH MC = .ok ex) :
    ex.length ≤ ((get_ranges heats).filter (matchedBefore segs)).length
    ∧ (ex.map (fun t => t.1.delta)).sum
        = (((get_ranges heats).filter (matchedBefore segs)).map BRange.delta).sum := by
  classical
  have hB : (sortQ heats).Pairwise (· < ·) := sep_strict hsep
  have hkH : ∀ ps ∈ splitted_hot_pool segs, ps.heat_range ∈ chainRanges (sortQ heats) :=
    all_contains_mem hkeyH
  have hkC : ∀ ps ∈ splitted_cold_pool segs, ps.heat_range ∈ chainRanges (sortQ heats) :=
    all_contains_mem hkeyC
  obtain ⟨acc, hfold, hMH, hMC⟩ := merge_segments_ok hh hmerge
  obtain ⟨A, hgm, hexeq⟩ := exchangerMatches_ok hex
  obtain ⟨f1, f2, hf1, hf2, hAdef⟩ := get_merged_ok hgm
  have hMHchar : ∀ q ∈ MH,
      (q ∈ splitted_hot_pool segs ∧ q.heat_range ∈ chainRanges (sortQ heats))
      ∨ ∃ r1 r2, r1 ∈ chainRanges (sortQ heats) ∧ r2 ∈ chainRanges (sortQ heats)
          ∧ r1.finish = r2.start
          ∧ q.heat_range = (⟨r1.start, r2.finish⟩ : BRange)
          ∧ (dictLast (splitted_hot_pool segs) r1).isSome
          ∧ (dictLast (splitted_cold_pool segs) r1).isSome
          ∧ (dictLast (splitted_hot_pool segs) r2).isSome
          ∧ (dictLast (splitted_cold_pool segs) r2).isSome := by
    intro q hq
    rw [hMH] at hq
    exact final_hot_char hB hkH hfold hq
  have hMCchar : ∀ q ∈ MC,
      (q ∈ splitted_cold_pool segs ∧ q.heat_range ∈ chainRanges (sortQ heats))
      ∨ ∃ r1 r2, r1 ∈ chainRanges (sortQ heats) ∧ r2 ∈ chainRanges (sortQ heats)
          ∧ r1.finish = r2.start
          ∧ q.heat_range = (⟨r1.start, r2.finish⟩ : BRange)
          ∧ (dictLast (splitted_hot_pool segs) r1).isSome
          ∧ (dictLast (splitted_cold_pool segs) r1).isSome
          ∧ (dictLast (splitted_hot_pool segs) r2).isSome
          ∧ (dictLast (splitted_cold_pool segs) r2).isSome := by
    intro q hq
    rw [hMC] at hq
    exact final_cold_char hB hkC hfold hq
  have hMHend : ∀ q ∈ MH, q.heat_range.start ∈ sortQ heats
      ∧ q.heat_range.finish ∈ sortQ heats
      ∧ q.heat_range.start < q.heat_range.finish := by
    intro q hq
    refine range_shape_endpoints hB ?_
    rcases hMHchar q hq with ⟨_, hr⟩ | ⟨r1, r2, h1, h2, hadj, hrange, _⟩
    · exact Or.inl hr
    · exact Or.inr ⟨r1, r2, h1, h2, hadj, hrange⟩
  have hMCend : ∀ q ∈ MC, q.heat_range.start ∈ sortQ heats
      ∧ q.heat_range.finish ∈ sortQ heats
      ∧ q.heat_range.start < q.heat_range.finish := by
    intro q hq
    refine range_shape_endpoints hB ?_
    rcases hMCchar q hq with ⟨_, hr⟩ | ⟨r1, r2, h1, h2, hadj, hrange, _⟩
    · exact Or.inl hr
    · exact Or.inr ⟨r1, r2, h1, h2, hadj, hrange⟩
  have hf1sub : ∀ v ∈ f1, v ∈ sortQ heats :=
    final_breakpoints_sub hf1 (fun q hq => ⟨(hMHend q hq).1, (hMHend q hq).2.1⟩)
  have hf2sub : ∀ v ∈ f2, v ∈ sortQ heats :=
    final_breakpoints_sub hf2 (fun q hq => ⟨(hMCend q hq).1, (hMCend q hq).2.1⟩)
  have hB'sub : ∀ v ∈ sortQ ((f1 ++ f2).dedup), v ∈ sortQ heats := by
    intro v hv
    rw [mem_sortQ, List.mem_dedup, List.mem_append] at hv
    rcases hv with h | h
    · exact hf1sub v h
    · exact hf2sub v h
  have hB'lt : (sortQ ((f1 ++ f2).dedup)).Pairwise (· < ·) := by
    refine sorted_nodup_strict (List.sorted_insertionSort _ _) ?_
    exact ((List.perm_insertionSort _ _).nodup_iff).mpr (List.nodup_dedup _)
  have hAchain : A = chainRanges (sortQ ((f1 ++ f2).dedup)) := hAdef
  have hA_moved : ∀ r ∈ A, r.start ∈ sortQ heats ∧ r.finish ∈ sortQ heats
      ∧ r.start ≤ r.finish := by
    intro r hr
    rw [hAchain] at hr
    obtain ⟨hs, hf, hlt, _⟩ := chainCell_mem hB'lt hr
    exact ⟨hB'sub _ hs, hB'sub _ hf, hlt.le⟩
  have hPH : ∀ ps ∈ MH, ps.heat_range.start ∈ sortQ heats
      ∧ ps.heat_range.finish ∈ sortQ heats :=
    fun ps hps => ⟨(hMHend ps hps).1, (hMHend ps hps).2.1⟩
  have hPC : ∀ ps ∈ MC, ps.heat_range.start ∈ sortQ heats
      ∧ ps.heat_range.finish ∈ sortQ heats :=
    fun ps hps => ⟨(hMCend ps hps).1, (hMCend ps hps).2.1⟩
  have hmatchH : ∀ hr ∈ A, ((dictLast (get_plot_segments A MH) hr).isSome
      ↔ ∃ ps ∈ MH, ps.heat_range.start ≤ hr.start
          ∧ hr.finish ≤ ps.heat_range.finish) :=
    fun hr hhr => dict_gps_isSome hsep hA_moved hPH hhr
  have hmatchC : ∀ hr ∈ A, ((dictLast (get_plot_segments A MC) hr).isSome
      ↔ ∃ ps ∈ MC, ps.heat_range.start ≤ hr.start
          ∧ hr.finish ≤ ps.heat_range.finish) :=
    fun hr hhr => dict_gps_isSome hsep hA_moved hPC hhr
  have hE1 : ∀ a ∈ A,
      ((dictLast (get_plot_segments A MH) a).isSome
        && (dictLast (get_plot_segments A MC) a).isSome) = true →
      ∀ c ∈ get_ranges heats, cellWithin a.start a.finish c = true →
      matchedBefore segs c = true := by
    intro a ha hmA c hcR hcw
    rw [Bool.and_eq_true] at hmA
    obtain ⟨hp, hpMH, hps, hpf⟩ := (hmatchH a ha).mp hmA.1
    obtain ⟨cp, hcMC, hcs2, hcf2⟩ := (hmatchC a ha).mp hmA.2
    have hcw' : a.start ≤ c.start ∧ c.finish ≤ a.finish := by
      simpa [cellWithin, Bool.and_eq_true, decide_eq_true_eq] using hcw
    have hchar1 : (hp ∈ splitted_hot_pool segs
        ∧ hp.heat_range ∈ chainRanges (sortQ heats))
        ∨ ∃ r1 r2, r1 ∈ chainRanges (sortQ heats) ∧ r2 ∈ chainRanges (sortQ heats)
            ∧ r1.finish = r2.start
            ∧ hp.heat_range = (⟨r1.start, r2.finish⟩ : BRange)
            ∧ (dictLast (splitted_hot_pool segs) r1).isSome
            ∧ (dictLast (splitted_hot_pool segs) r2).isSome := by
      rcases hMHchar hp hpMH with ⟨h1, h2⟩ |
        ⟨r1, r2, m1, m2, madj, mrange, ms1, ms2, ms3, ms4⟩
      · exact Or.inl ⟨h1, h2⟩
      · exact Or.inr ⟨r1, r2, m1, m2, madj, mrange, ms1, ms3⟩
    have hchar2 : (cp ∈ splitted_cold_pool segs
        ∧ cp.heat_range ∈ chainRanges (sortQ heats))
        ∨ ∃ r1 r2, r1 ∈ chainRanges (sortQ heats) ∧ r2 ∈ chainRanges (sortQ heats)
            ∧ r1.finish = r2.start
            ∧ cp.heat_range = (⟨r1.start, r2.finish⟩ : BRange)
            ∧ (dictLast (splitted_cold_pool segs) r1).isSome
            ∧ (dictLast (splitted_cold_pool segs) r2).isSome := by
      rcases hMCchar cp hcMC with ⟨h1, h2⟩ |
        ⟨r1, r2, m1, m2, madj, mrange, ms1, ms2, ms3, ms4⟩
      · exact Or.inl ⟨h1, h2⟩
      · exact Or.inr ⟨r1, r2, m1, m2, madj, mrange, ms2, ms4⟩
    unfold matchedBefore
    rw [Bool.and_eq_true]
    constructor
    · exact cover_isSome_core hB hchar1 hcR (by linarith [hcw'.1])
        (by linarith [hcw'.2])
    · exact cover_isSome_core hB hchar2 hcR (by linarith [hcw'.1])
        (by linarith [hcw'.2])
  have hE2 : ∀ c ∈ get_ranges heats, matchedBefore segs c = true →
      ∃ a ∈ A, ((dictLast (get_plot_segments A MH) a).isSome
        && (dictLast (get_plot_segments A MC) a).isSome) = true
        ∧ cellWithin a.start a.finish c = true := by
    intro c hcR hmc
    unfold matchedBefore at hmc
    rw [Bool.and_eq_true] at hmc
    obtain ⟨hp, hpMH', hps, hpf⟩ := matched_to_final_cover_hot hB hfold hcR hmc.1
    have hpMH : hp ∈ MH := by rw [hMH]; exact hpMH'
    obtain ⟨cp, hcMC', hcs2, hcf2⟩ := matched_to_final_cover_cold hB hfold hcR hmc.2
    have hcMC : cp ∈ MC := by rw [hMC]; exact hcMC'
    have hcmem := chainCell_mem hB hcR
    have hpend := final_endpoints_in_bp hf1 hpMH
    have hcpend := final_endpoints_in_bp hf2 hcMC
    have hpB's : hp.heat_range.start ∈ sortQ ((f1 ++ f2).dedup) := by
      rw [mem_sortQ, List.mem_dedup, List.mem_append]
      exact Or.inl hpend.1
    have hpB'f : hp.heat_range.finish ∈ sortQ ((f1 ++ f2).dedup) := by
      rw [mem_sortQ, List.mem_dedup, List.mem_append]
      exact Or.inl hpend.2
    have hcB's : cp.heat_range.start ∈ sortQ ((f1 ++ f2).dedup) := by
      rw [mem_sortQ, List.mem_dedup, List.mem_append]
      exact Or.inr hcpend.1
    have hcB'f : cp.heat_range.finish ∈ sortQ ((f1 ++ f2).dedup) := by
      rw [mem_sortQ, List.mem_dedup, List.mem_append]
      exact Or.inr hcpend.2
    have hnoin : ∀ v ∈ sortQ ((f1 ++ f2).dedup), ¬(c.start < v ∧ v < c.finish) :=
      fun v hv => hcmem.2.2.2 v (hB'sub v hv)
    obtain ⟨a, haA', has, haf⟩ :=
      chainCell_cover hB'lt hpB's hpB'f hps hpf hcmem.2.2.1 hnoin
    have haA : a ∈ A := by rw [hAchain]; exact haA'
    have hina := cell_inside_cover hB'lt haA' hpB's hpB'f hps hpf hcmem.2.2.1 has haf
    have hinb := cell_inside_cover hB'lt haA' hcB's hcB'f hcs2 hcf2 hcmem.2.2.1 has haf
    refine ⟨a, haA, ?_, ?_⟩
    · rw [Bool.and_eq_true]
      exact ⟨(hmatchH a haA).mpr ⟨hp, hpMH, hina.1, hina.2⟩,
        (hmatchC a haA).mpr ⟨cp, hcMC, hinb.1, hinb.2⟩⟩
    · simp only [cellWithin, Bool.and_eq_true, decide_eq_true_eq]
      exact ⟨has, haf⟩
  have hAdisj : ∀ a ∈ A, ∀ a' ∈ A, a ≠ a' → ∀ c, c ∈ get_ranges heats →
      cellWithin a.start a.finish c = true →
      cellWithin a'.start a'.finish c = true → False := by
    intro a ha a' ha' hne c hcR hc1 hc2
    rw [hAchain] at ha ha'
    have hcpos := (chainCell_mem hB hcR).2.2.1
    have h1 : a.start ≤ c.start ∧ c.finish ≤ a.finish := by
      simpa [cellWithin, Bool.and_eq_true, decide_eq_true_eq] using hc1
    have h2 : a'.start ≤ c.start ∧ c.finish ≤ a'.finish := by
      simpa [cellWithin, Bool.and_eq_true, decide_eq_true_eq] using hc2
    rcases pairwise_mem_cases (chainCells_pairwise hB'lt) a ha a' ha' with
      heq | hr | hr
    · exact hne heq
    · linarith [h1.2, h2.1]
    · linarith [h2.2, h1.1]
  have hexfst : ex.map (fun t => t.1)
      = A.filter (fun hr => (dictLast (get_plot_segments A MH) hr).isSome
          && (dictLast (get_plot_segments A MC) hr).isSome) := by
    rw [hexeq]
    exact filterMap_match_fst _ _ A
  have hAnodup : (A.filter (fun hr => (dictLast (get_plot_segments A MH) hr).isSome
      && (dictLast (get_plot_segments A MC) hr).isSome)).Nodup := by
    rw [hAchain]
    exact (chainCells_nodup hB'lt).filter _
  have hRnodup : ((get_ranges heats).filter (matchedBefore segs)).Nodup :=
    (chainCells_nodup hB).filter _
  obtain ⟨hlen, hsums⟩ := partition_sum_count hAnodup hRnodup
    (fun a => (get_ranges heats).filter (cellWithin a.start a.finish))
    (by
      intro a ha c hc
      rw [List.mem_filter] at ha hc ⊢
      exact ⟨hc.1, hE1 a ha.1 ha.2 c hc.1 hc.2⟩)
    (by
      intro a ha
      rw [List.mem_filter] at ha
      have hamem : a ∈ chainRanges (sortQ ((f1 ++ f2).dedup)) := by
        rw [← hAchain]
        exact ha.1
      have hapos := (chainCell_mem hB'lt hamem).2.2.1
      have hamoved := hA_moved a ha.1
      exact chain_filter_ne_nil hB hamoved.1 hamoved.2.1 hapos)
    (fun a => (chainCells_nodup hB).filter _)
    (by
      intro c hc
      rw [List.mem_filter] at hc
      obtain ⟨a, haA, hmat, hcw⟩ := hE2 c hc.1 hc.2
      refine ⟨a, ?_, ?_⟩
      · rw [List.mem_filter]
        exact ⟨haA, hmat⟩
      · rw [List.mem_filter]
        exact ⟨hc.1, hcw⟩)
    (by
      intro a ha a' ha' hne c hca hca'
      rw [List.mem_filter] at ha ha' hca hca'
      exact hAdisj a ha.1 a' ha'.1 hne c hca.1 hca.2 hca'.2)
    (by
      intro a ha
      rw [List.mem_filter] at ha
      have hamoved := hA_moved a ha.1
      exact chain_sum_filter hB hamoved.1 hamoved.2.1 hamoved.2.2)
  constructor
  · calc ex.length = (ex.map (fun t => t.1)).length := (List.length_map _ _).symm
      _ = (A.filter (fun hr => (dictLast (get_plot_segments A MH) hr).isSome
          && (dictLast (get_plot_segments A MC) hr).isSome)).length := by
        rw [hexfst]
      _ ≤ ((get_ranges heats).filter (matchedBefore segs)).length := hlen
  · calc (ex.map (fun t => t.1.delta)).sum
        = ((ex.map (fun t => t.1)).map BRange.delta).sum := by
          rw [List.map_map]
          rfl
      _ = ((A.filter (fun hr => (dictLast (get_plot_segments A MH) hr).isSome
          && (dictLast (get_plot_segments A MC) hr).isSome)).map BRange.delta).sum := by
          rw [hexfst]
      _ = (((get_ranges heats).filter (matchedBefore segs)).map BRange.delta).sum :=
        hsums

set_option maxRecDepth 2000 in
theorem c3_amended_witness :
    flatten (sortRanges (c3w_segments.flatMap (·.heat_ranges))) = some c3w_heats
    ∧ sepChain (sortQ c3w_heats) = true
    ∧ (splitted_hot_pool c3w_segments).all
        (fun ps => (get_ranges c3w_heats).contains ps.heat_range) = true
    ∧ (splitted_cold_pool c3w_segments).all
        (fun ps => (get_ranges c3w_heats).contains ps.heat_range) = true
    ∧ merge_segments c3w_segments = .ok (c3w_merged.1, c3w_merged.2)
    ∧ exchangerMatches c3w_merged.1 c3w_merged.2 = .ok c3w_ex
    ∧ c3w_ex.length
        ≤ ((get_ranges c3w_heats).filter (matchedBefore c3w_segments)).length
    ∧ (c3w_ex.map (fun t => t.1.delta)).sum
        = (((get_ranges c3w_heats).filter
            (matchedBefore c3w_segments)).map BRange.delta).sum := by
  have h1 := c3_heats_stage
  have h2 : sepChain (sortQ c3w_heats) = true := by with_unfolding_all rfl
  have h3 : (splitted_hot_pool c3w_segments).all
      (fun ps => (get_ranges c3w_heats).contains ps.heat_range) = true := by
    with_unfolding_all rfl
  have h4 : (splitted_cold_pool c3w_segments).all
      (fun ps => (get_ranges c3w_heats).contains ps.heat_range) = true := by
    with_unfolding_all rfl
  have h5 : merge_segments c3w_segments = .ok (c3w_merged.1, c3w_merged.2) :=
    c3_merge_stage
  have h6 := c3_match_stage
  obtain ⟨ha, hb⟩ := c3_amended h1 h2 h3 h4 h5 h6
  exact ⟨h1, h2, h3, h4, h5, h6, ha, hb⟩

end PyHeat
